import Mathlib

/-!
# The command evaluator of ash (`src/eval.c`)

A shallow embedding of the evaluator of the NetBSD-derived `ash` shell.

* The program state is the record `State`: the static variables of `eval.c`
  (`evalskip`, `skipcount`, `loopnest`, `funcnest`, `builtin_flags`,
  `dot_funcnest`), its globals (`exitstatus`, `back_exitstatus`), and the part
  of the rest of the shell the evaluator reads or writes.
* C `int`s are `Int` (no arithmetic here comes near the machine bounds).
* `setjmp`/`longjmp` exceptions and process exit are the constructors
  `Res.raise` and `Res.gone` of the result type; a function that "returns"
  yields `Res.ok`.
* Functions of the shell that live outside `eval.c` (the parser, the expander,
  the job controller, the redirection stack, the variable store, the command
  search, the traps) are the fields of the record `World`.  `cmdloop` of
  `main.c`, which `dotcmd` calls and which calls `evaltree` back, is modelled
  from the spec (`cmdloop`); the actions of traps, run by `dotrap`, are not
  followed.
* The evaluator follows ONE process.  A `fork` is seen from the parent: the
  child's evaluation is not part of the run, its status comes back through
  `World.waitforjob`.  The `DO_SHAREDVFORK` block is conditional compilation
  and is not embedded.
* `xflag` tracing output, `line_number`, `commandname`, `cmdenviron`, the
  stack allocator marks and `INTOFF`/`INTON` do not influence control flow of
  the evaluator and are not embedded.
* `State.trace` is a ghost log: the evaluator appends an event at each node it
  dispatches (the `CTRACE` of `evaltree`) and at each call that leaves
  `eval.c`; nothing reads it.
-/

namespace Ash

/-! ## Syntax trees -/

/-- A word of the parse tree (`narg.text`). -/
abbrev Word := String

/-- The redirection node types `expredir` distinguishes. -/
inductive RedirType
  | NFROMTO | NFROM | NTO | NCLOBBER | NAPPEND | NFROMFD | NTOFD | NHERE | NXHERE
  deriving DecidableEq, Repr

/-- A redirection node (`nfile` / `ndup`). -/
structure Redir where
  type : RedirType
  fname : Word
  vname : Option Word
  deriving DecidableEq, Repr

/-- The parse tree (`union node`).  A child that may be `NULL` is an `Option`.
`NCASE` carries its items in list order; an item is
`(type = NCLISTCONT, patterns, body)`.  `NOTHER` is any node type that the
`switch` of `evaltree` sends to `default`. -/
inductive Node where
  | NCMD (backgnd : Bool) (args : List Word) (redirect : List Redir)
  | NPIPE (backgnd : Bool) (cmdlist : List Node)
  | NREDIR (n : Option Node) (redirect : List Redir)
  | NBACKGND (n : Option Node) (redirect : List Redir)
  | NSUBSHELL (n : Option Node) (redirect : List Redir)
  | NAND (ch1 ch2 : Option Node)
  | NOR (ch1 ch2 : Option Node)
  | NSEMI (ch1 ch2 : Option Node)
  | NIF (test ifpart elsepart : Option Node)
  | NWHILE (ch1 ch2 : Option Node)
  | NUNTIL (ch1 ch2 : Option Node)
  | NFOR (args : List Word) (body : Option Node) (var : String)
  | NCASE (expr : Word) (cases : List (Bool × List Word × Option Node))
  | NDEFUN (text : String) (body : Option Node) (lineno : Nat)
  | NNOT (com : Option Node)
  | NDNOT (com : Option Node)
  | NOTHER (type : Nat)

/-- The test `n->type == NCMD`. -/
def Node.isNCMD : Node → Bool
  | .NCMD _ _ _ => true
  | _ => false

/-! ## Flags, skip state, exceptions -/

/-- The evaluation flag word: the bits `EV_EXIT`, `EV_TESTED`, `EV_BACKCMD`. -/
structure Flags where
  exit : Bool
  tested : Bool
  backcmd : Bool
  deriving DecidableEq, Repr

/-- The flag word `0`. -/
def EV_NONE : Flags := ⟨false, false, false⟩
/-- The flag word `EV_EXIT`. -/
def EV_EXIT : Flags := ⟨true, false, false⟩
/-- The flag word `EV_TESTED`. -/
def EV_TESTED : Flags := ⟨false, true, false⟩

/-- The value of `flags & ~EV_EXIT`. -/
def Flags.clearExit (f : Flags) : Flags := { f with exit := false }
/-- The value of `flags | EV_EXIT`. -/
def Flags.setExit (f : Flags) : Flags := { f with exit := true }
/-- The value of `flags & EV_TESTED`. -/
def Flags.onlyTested (f : Flags) : Flags := ⟨false, f.tested, false⟩
/-- The value of `flags & (EV_TESTED|EV_EXIT)`. -/
def Flags.testedExit (f : Flags) : Flags := { f with backcmd := false }

/-- The type `enum skipstate`. -/
inductive skipstate
  | SKIPNONE | SKIPBREAK | SKIPCONT | SKIPFUNC | SKIPFILE
  deriving DecidableEq, Repr

/-- The exception kinds of `error.h`. -/
inductive Exc
  | EXINT | EXERROR | EXSHELLPROC | EXEXEC | EXEXIT
  deriving DecidableEq, Repr

/-- The builtin a `cmdentry` points to: the ones `eval.c` defines, the ones it
compares `u.bltin` with, and any other. -/
inductive Bltin
  | bltincmd | evalcmd | breakcmd | dotcmd | returncmd | falsecmd | truecmd
  | execcmd | timescmd
  | typecmd | hashcmd | trapcmd
  | other (id : Nat)
  deriving DecidableEq, Repr

/-- The command types of `exec.h`. -/
inductive CmdType
  | CMDUNKNOWN | CMDNORMAL | CMDBUILTIN | CMDSPLBLTIN | CMDFUNCTION
  deriving DecidableEq, Repr

/-- The result of `find_command` (`struct cmdentry`); `func` is
`getfuncnode(u.func)`. -/
structure cmdentry where
  cmdtype : CmdType
  bltin : Bltin
  func : Option Node
  index : Int

/-- The expansion flag words the evaluator passes to `expandarg`. -/
inductive ExpFlags
  | FULL_TILDE | TILDE | VARTILDE | TILDE_REDIR
  deriving DecidableEq, Repr

/-- Where the process ended. `eflag`: the `exitshell` of the `-e` check at the
end of `evaltree`; `evexit`: the `exitshell` of `evalcommand` under `EV_EXIT`;
`external`: an `exitshell` inside code outside `eval.c`; `exec`: `shellexec`
replaced the process image. -/
inductive ExitSite
  | eflag | evexit | external | exec
  deriving DecidableEq, Repr

/-- A ghost event.  `evaltree` is a round of the `do` loop of `evaltree` on
the node `n` (its `CTRACE`), with the values of `loopnest` and `funcnest` at
that moment; the others are calls that leave `eval.c`. -/
inductive Ev
  | evaltree (n : Node) (flags : Flags) (loopnest funcnest : Int)
  | defun (name : String) (body : Option Node) (lineno : Nat)
  | setvar (name val : String)
  | expandarg (w : Word) (fl : ExpFlags)
  | casematch (pat : Word) (text : String)
  | evalstring (s : String) (flag : Flags)
  | parsecmd (rest : String)
  | builtin (b : Bltin) (argv : List String)
  | forkshell (n : Node) (backgnd : Bool)
  | waitforjob (n : Node)
  | shellexec (argv : List String)
  | redirect (r : List Redir) (push : Bool)
  | popredir
  | listmklocal (vars : List String)
  | listsetvar (vars : List String) (vnoset : Bool)
  | mklocal (name : String)
  | free_traps
  | dotrap
  | cmdloop
  | setinputfile (name : String)
  | error (msg : String)
  | exitshell (status : Int)

/-! ## Program state -/

/-- The state of the shell process as far as the evaluator touches it. -/
structure State where
  evalskip : skipstate
  skipcount : Int
  loopnest : Int
  funcnest : Int
  builtin_flags : Flags
  dot_funcnest : Int
  exitstatus : Int
  back_exitstatus : Int
  nflag : Bool
  eflag : Bool
  pendingsigs : Bool
  traps_invalid : Bool
  exerrno : Int
  redirdepth : Int
  handler : Nat
  funcs : List (String × Option Node)
  vars : List (String × String)
  trace : List Ev

/-- The result of running a piece of the evaluator: a normal return, a raised
exception (`longjmp` to `handler`), the end of the process, or the model
running out of fuel. -/
inductive Res (α : Type) where
  | ok (a : α) (s : State)
  | raise (e : Exc) (s : State)
  | gone (site : ExitSite) (status : Int) (s : State)
  | timeout

/-- The result of a `void` function. -/
abbrev Outcome := Res Unit

/-- Sequencing: the continuation runs only after a normal return. -/
def Res.bind {α β : Type} (x : Res α) (f : α → State → Res β) : Res β :=
  match x with
  | .ok a s => f a s
  | .raise e s => .raise e s
  | .gone g st s => .gone g st s
  | .timeout => .timeout

/-- The result of code outside `eval.c`: it returns, raises, or calls
`exitshell`. -/
inductive Ext (α : Type) where
  | ret (a : α) (s : State)
  | raise (e : Exc) (s : State)
  | exit (status : Int) (s : State)

/-- The bookkeeping that code outside `eval.c` cannot disturb: the ghost log,
the depth of the redirection stack (every `redirect(.., REDIR_PUSH)` outside
`eval.c` is paired with its `popredir`) and the current handler (a callee
restores the handler it found before it returns or raises). -/
def State.keep (s s1 : State) (ev : Ev) : State :=
  { s1 with trace := s.trace ++ [ev], redirdepth := s.redirdepth, handler := s.handler }

/-- A call that leaves `eval.c`: the event is logged and the callee runs on
the state. -/
def call {α : Type} (ev : Ev) (f : State → Ext α) (s : State) : Res α :=
  match f s with
  | .ret a s1 => .ok a (s.keep s1 ev)
  | .raise e s1 => .raise e (s.keep s1 ev)
  | .exit st s1 => .gone .external st { s.keep s1 ev with exitstatus := st }

/-- One step of `parsecmd` on the input that is left. -/
inductive Parsed where
  | NEOF
  | cmd (n : Option Node) (rest : String)
  | syntaxError

/-- The functions of the shell that `eval.c` calls and does not define. -/
structure World where
  expandarg : Word → ExpFlags → State → Ext (List String)
  isassignment : String → Bool
  casematch : Word → String → State → Ext Bool
  find_command : String → Bool → String → State → cmdentry
  pathval : State → String
  have_traps : State → Bool
  free_traps : State → Ext Unit
  dotrap : State → Ext Unit
  redirect : List Redir → Bool → State → Ext Unit
  forkshell : Node → Bool → State → Ext Unit
  waitforjob : Node → State → Ext Int
  listmklocal : List String → State → Ext Unit
  listsetvar : List String → Bool → State → Ext Unit
  mklocal : String → State → Ext Unit
  setvar : String → String → State → Ext Unit
  setvareq : String → State → Ext Unit
  builtin : Bltin → List String → State → Ext Int
  shellexec : List String → String → State → Ext Unit
  parsecmd : String → State → Parsed
  at_eof : String → Bool
  number : String → Option Int
  nextopt_null : List String → List String
  find_dot_file : String → State → Ext String
  filetext : String → String
  SIGINT : Int

/-! ## Small operations -/

/-- Append a ghost event. -/
def State.log (s : State) (ev : Ev) : State := { s with trace := s.trace ++ [ev] }

/-- Modelled from the spec: `error` of `error.c` is missing; §7 says that
`error(fmt, …)` raises `EXERROR` with a message. -/
def error {α : Type} (msg : String) (s : State) : Res α :=
  .raise .EXERROR (s.log (.error msg))

/-- The call `exraise(e)`. -/
def exraise {α : Type} (e : Exc) (s : State) : Res α := .raise e s

/-- Modelled from the spec: `exitshell` of `trap.c` is missing; §4.C says that
the shell exits with the status it is given. -/
def exitshell {α : Type} (site : ExitSite) (status : Int) (s : State) : Res α :=
  .gone site status ({ s with exitstatus := status }.log (.exitshell status))

/-- Modelled from the spec: `defun` of `exec.c` is missing; §4.C says that it
registers the function body under its name with its defining line. -/
def defun (name : String) (body : Option Node) (lineno : Nat) (s : State) : State :=
  { s with funcs := (name, body) :: s.funcs }.log (.defun name body lineno)

/-- Modelled from the spec: `popredir` of `redir.c` is missing; it pops the
redirection stack (§4.D). -/
def popredir (s : State) : State :=
  { s with redirdepth := s.redirdepth - 1 }.log .popredir

/-- Modelled from the spec: `redirect` of `redir.c` is missing; with
`REDIR_PUSH` it pushes a frame on the redirection stack, then installs the
redirections, which may fail (§4.D). -/
def redirect (W : World) (r : List Redir) (push : Bool) (s : State) : Outcome :=
  call (.redirect r push) (W.redirect r push)
    (if push then { s with redirdepth := s.redirdepth + 1 } else s)

/-- The function `reset_eval`. -/
def reset_eval (s : State) : State :=
  { s with evalskip := .SKIPNONE, dot_funcnest := 0, loopnest := 0, funcnest := 0 }

/-- The function `stop_skipping`. -/
def stop_skipping (s : State) : State :=
  { s with evalskip := .SKIPNONE, skipcount := 0 }

/-- The builtin `bltincmd` (no command given). -/
def bltincmd (s : State) : Res Int := .ok s.back_exitstatus s

/-- The builtin `falsecmd`. -/
def falsecmd (s : State) : Res Int := .ok 1 s

/-- The builtin `truecmd`. -/
def truecmd (s : State) : Res Int := .ok 0 s

/-- The call `number(argv[1])`: an operand that is not a number is an error. -/
def number (W : World) (a : String) (s : State) : Res Int :=
  match W.number a with
  | some n => .ok n s
  | none => error "Illegal number" s

/-- The expression `argc > 1 ? number(argv[1]) : dflt`. -/
def operand (W : World) (argv : List String) (dflt : Int) (s : State) : Res Int :=
  match argv with
  | _ :: a1 :: _ => number W a1 s
  | _ => .ok dflt s

/-- The builtin `breakcmd` (`break` and `continue`). -/
def breakcmd (W : World) (argv : List String) (s : State) : Res Int :=
  (operand W argv 1 s).bind fun n s =>
  if n ≤ 0 then error "invalid count" s
  else
    let n := if n > s.loopnest then s.loopnest else n
    if n > 0 then
      .ok 0 { s with
        evalskip := if (argv.headD "").toList.head? = some 'c' then .SKIPCONT else .SKIPBREAK
        skipcount := n }
    else .ok 0 s

/-- The builtin `returncmd`. -/
def returncmd (W : World) (argv : List String) (s : State) : Res Int :=
  (operand W argv s.exitstatus s).bind fun ret s =>
  if (s.dot_funcnest = 0 ∧ s.funcnest ≠ 0)
      ∨ (s.dot_funcnest > 0 ∧ s.funcnest - (s.dot_funcnest - 1) > 0) then
    .ok ret { s with evalskip := .SKIPFUNC, skipcount := 1 }
  else if s.dot_funcnest > 0 then
    .ok ret { s with evalskip := .SKIPFILE, skipcount := 1 }
  else
    .ok 0 s

/-- The inner `while ((c = *cp++))` of `parse_command_args` on the characters
after the leading `-`: whether the word was scanned to its end (`false` is
`return 0`) and the value of `*use_syspath`. -/
def parse_command_opt : List Char → Bool → Bool × Bool
  | [], u => (true, u)
  | c :: cs, u => if c = 'p' then parse_command_opt cs true else (false, u)

/-- The `for (;;)` of `parse_command_args` on the words after word 0, which
the first `argv++; --argc` has passed: `k` words are used so far. -/
def parse_command_loop : List String → Nat → Bool → Nat × Bool
  | [], k, u => (k, u)
  | w :: rest, k, u =>
    match w.toList with
    | '-' :: cs =>
      if cs = ['-'] then (k + 1, u)
      else
        match parse_command_opt cs u with
        | (true, u1) => parse_command_loop rest (k + 1) u1
        | (false, u1) => (0, u1)
    | _ => (k, u)

/-- The function `parse_command_args`: the value returned and `*use_syspath`. -/
def parse_command_args (argv : List String) : Nat × Bool :=
  parse_command_loop argv.tail 1 false

/-! ## Compound evaluators

Each takes the tree evaluator `ev` (`evaltree`) as an argument; `evaltree`
below ties the knot. -/

/-- The type of `evaltree`. -/
abbrev Eval := Option Node → Flags → State → Outcome

/-- What the body of a loop does next. -/
inductive LoopCtl
  | again | leave
  deriving DecidableEq, Repr

/-- The block at the label `skipping` of `evalloop`, entered with `evalskip`
set: the next step of the loop, the local `status`, the state. -/
def evalloop_skipping (status : Int) (s : State) : LoopCtl × Int × State :=
  let s1 := if s.evalskip = .SKIPCONT then { s with skipcount := s.skipcount - 1 } else s
  if s.evalskip = .SKIPCONT ∧ s1.skipcount ≤ 0 then
    (.again, status, { s1 with evalskip := .SKIPNONE })
  else
    let s2 := if s1.evalskip = .SKIPBREAK then { s1 with skipcount := s1.skipcount - 1 } else s1
    let s3 := if s1.evalskip = .SKIPBREAK ∧ s2.skipcount ≤ 0 then
                { s2 with evalskip := .SKIPNONE } else s2
    let status1 := if s3.evalskip = .SKIPFUNC ∨ s3.evalskip = .SKIPFILE then
                     s3.exitstatus else status
    (.leave, status1, s3)

/-- The `for (;;)` of `evalloop`; `isWhile` is `n->type == NWHILE`.  The value
is the local `status` when the loop is left, and a ghost list `bodies`: the
exit statuses the evaluations of the loop body left, in order (the program
does not read it). -/
def evalloop_for (ev : Eval) (isWhile : Bool) (ch1 ch2 : Option Node) (flags : Flags) :
    Nat → Int → List Int → State → Res (Int × List Int)
  | 0, _, _, _ => .timeout
  | fuel + 1, status, bodies, s =>
    (ev ch1 EV_TESTED s).bind fun _ s =>
    if s.nflag then .ok (status, bodies) s
    else if s.evalskip ≠ .SKIPNONE then
      match evalloop_skipping status s with
      | (.again, status, s) => evalloop_for ev isWhile ch1 ch2 flags fuel status bodies s
      | (.leave, status, s) => .ok (status, bodies) s
    else if (if isWhile then s.exitstatus ≠ 0 else s.exitstatus = 0) then .ok (status, bodies) s
    else
      (ev ch2 flags.onlyTested s).bind fun _ s =>
      let status := s.exitstatus
      let bodies := bodies ++ [s.exitstatus]
      if s.evalskip ≠ .SKIPNONE then
        match evalloop_skipping status s with
        | (.again, status, s) => evalloop_for ev isWhile ch1 ch2 flags fuel status bodies s
        | (.leave, status, s) => .ok (status, bodies) s
      else evalloop_for ev isWhile ch1 ch2 flags fuel status bodies s

/-- The function `evalloop`. -/
def evalloop (ev : Eval) (fuel : Nat) (isWhile : Bool) (ch1 ch2 : Option Node)
    (flags : Flags) (s : State) : Outcome :=
  (evalloop_for ev isWhile ch1 ch2 flags fuel 0 [] { s with loopnest := s.loopnest + 1 }).bind
    fun r s => .ok () { s with loopnest := s.loopnest - 1, exitstatus := r.1 }

/-- The `expandarg` calls of a list of words, in order: the words they yield. -/
def expandargs (W : World) (fl : ExpFlags) : List Word → State → Res (List String)
  | [], s => .ok [] s
  | w :: ws, s =>
    (call (.expandarg w fl) (W.expandarg w fl) s).bind fun l s =>
    (expandargs W fl ws s).bind fun ls s => .ok (l ++ ls) s

/-- The first loop of `evalfor`: expand the words, and stop (`goto out`) as
soon as `evalskip` is set; `none` is that early way out. -/
def evalfor_expand (W : World) : List Word → State → Res (Option (List String))
  | [], s => .ok (some []) s
  | w :: ws, s =>
    (call (.expandarg w .FULL_TILDE) (W.expandarg w .FULL_TILDE) s).bind fun l s =>
    if s.evalskip ≠ .SKIPNONE then .ok none s
    else (evalfor_expand W ws s).bind fun r s => .ok (r.map (l ++ ·)) s

/-- The second loop of `evalfor`, over the expanded words. -/
def evalfor_loop (W : World) (ev : Eval) (var : String) (body : Option Node) (flags : Flags) :
    List String → Int → State → Res Int
  | [], status, s => .ok status s
  | w :: ws, _, s =>
    (call (.setvar var w) (W.setvar var w) s).bind fun _ s =>
    (ev body flags.onlyTested s).bind fun _ s =>
    let status := s.exitstatus
    if s.nflag then .ok status s
    else if s.evalskip ≠ .SKIPNONE then
      let s1 := if s.evalskip = .SKIPCONT then { s with skipcount := s.skipcount - 1 } else s
      if s.evalskip = .SKIPCONT ∧ s1.skipcount ≤ 0 then
        evalfor_loop W ev var body flags ws status { s1 with evalskip := .SKIPNONE }
      else
        let s2 := if s1.evalskip = .SKIPBREAK then
                    { s1 with skipcount := s1.skipcount - 1 } else s1
        .ok status (if s1.evalskip = .SKIPBREAK ∧ s2.skipcount ≤ 0 then
                      { s2 with evalskip := .SKIPNONE } else s2)
    else evalfor_loop W ev var body flags ws status s

/-- The function `evalfor`. -/
def evalfor (W : World) (ev : Eval) (args : List Word) (body : Option Node) (var : String)
    (flags : Flags) (s : State) : Outcome :=
  let status := if s.nflag then s.exitstatus else 0
  (evalfor_expand W args s).bind fun words s =>
  match words with
  | none => .ok () s
  | some ws =>
    (evalfor_loop W ev var body flags ws status { s with loopnest := s.loopnest + 1 }).bind
      fun status s => .ok () { s with loopnest := s.loopnest - 1, exitstatus := status }

/-- The `while (cp != NULL && evalskip == 0 && nflag == 0)` of `evalcase`: the
bodies run from the item that matched. -/
def evalcase_bodies (ev : Eval) (flags : Flags) :
    List (Bool × List Word × Option Node) → Int → State → Res Int
  | [], status, s => .ok status s
  | (cont, _, body) :: rest, status, s =>
    if s.evalskip = .SKIPNONE ∧ s.nflag = false then
      (ev body flags s).bind fun _ s =>
      if cont then evalcase_bodies ev flags rest s.exitstatus s
      else .ok s.exitstatus s
    else .ok status s

/-- The walk of `evalcase` over the patterns of one item: whether one matched. -/
def evalcase_patterns (W : World) (text : String) : List Word → State → Res Bool
  | [], s => .ok false s
  | p :: ps, s =>
    (call (.casematch p text) (W.casematch p text) s).bind fun m s =>
    if m then .ok true s else evalcase_patterns W text ps s

/-- The walk of `evalcase` over the items: the local `status` at `out`. -/
def evalcase_items (W : World) (ev : Eval) (flags : Flags) (text : String) :
    List (Bool × List Word × Option Node) → State → Res Int
  | [], s => .ok 0 s
  | item :: rest, s =>
    if s.evalskip ≠ .SKIPNONE then .ok 0 s
    else
      (evalcase_patterns W text item.2.1 s).bind fun m s =>
      if m then evalcase_bodies ev flags (item :: rest) 0 s
      else evalcase_items W ev flags text rest s

/-- The function `evalcase`. -/
def evalcase (W : World) (ev : Eval) (expr : Word)
    (cases : List (Bool × List Word × Option Node)) (flags : Flags) (s : State) : Outcome :=
  (call (.expandarg expr .TILDE) (W.expandarg expr .TILDE) s).bind fun l s =>
  (evalcase_items W ev flags (l.headD "") cases s).bind fun status s =>
  .ok () { s with exitstatus := status }

/-- The function `expredir`: the names of the files of a redirection list are
expanded in order. -/
def expredir (W : World) : List Redir → State → Outcome
  | [], s => .ok () s
  | r :: rs, s =>
    (match r.type with
     | .NFROMTO | .NFROM | .NTO | .NCLOBBER | .NAPPEND =>
       (call (.expandarg r.fname .TILDE_REDIR) (W.expandarg r.fname .TILDE_REDIR) s).bind
         fun _ s => .ok () s
     | .NFROMFD | .NTOFD =>
       match r.vname with
       | some v =>
         (call (.expandarg v .TILDE_REDIR) (W.expandarg v .TILDE_REDIR) s).bind
           fun _ s => .ok () s
       | none => .ok () s
     | _ => .ok () s).bind fun _ s => expredir W rs s

/-- The function `evalsubshell`; `n` is the node, `backgnd` is
`n->type == NBACKGND`. -/
def evalsubshell (W : World) (ev : Eval) (n : Node) (backgnd : Bool) (child : Option Node)
    (redir : List Redir) (flags : Flags) (s : State) : Outcome :=
  (expredir W redir s).bind fun _ s =>
  if !backgnd ∧ flags.exit ∧ !W.have_traps s then
    (redirect W redir false s).bind fun _ s =>
    ev child flags.setExit s
  else
    (call (.forkshell n backgnd) (W.forkshell n backgnd) s).bind fun _ s =>
    if backgnd then .ok () { s with exitstatus := 0 }
    else
      (call (.waitforjob n) (W.waitforjob n) s).bind fun st s =>
      .ok () { s with exitstatus := st }

/-- The function `evalredir`.  The frame `jmploc` is the handler from the call
of `redirect` to the end of the body. -/
def evalredir (W : World) (ev : Eval) (child : Option Node) (redir : List Redir)
    (flags : Flags) (s : State) : Outcome :=
  let savehandler := s.handler
  (expredir W redir s).bind fun _ s =>
  match redirect W redir true { s with handler := savehandler + 1 } with
  | .raise e s =>
    let s := popredir { s with handler := savehandler }
    if e = .EXERROR ∨ e = .EXEXEC then .ok () { s with exitstatus := 2 }
    else .raise e s
  | .ok _ s =>
    match ev child flags s with
    | .raise e s => .raise e (popredir { s with handler := savehandler })
    | .ok _ s => .ok () (popredir { s with handler := savehandler })
    | r => r
  | r => r

/-- The forks of `evalpipe`, one for each command of the list (the parent's
side). -/
def evalpipe_forks (W : World) (backgnd : Bool) : List Node → State → Outcome
  | [], s => .ok () s
  | c :: cs, s =>
    (call (.forkshell c backgnd) (W.forkshell c backgnd) s).bind fun _ s =>
    evalpipe_forks W backgnd cs s

/-- The function `evalpipe` (the parent's side). -/
def evalpipe (W : World) (n : Node) (backgnd : Bool) (cmdlist : List Node) (s : State) :
    Outcome :=
  (evalpipe_forks W backgnd cmdlist s).bind fun _ s =>
  if backgnd = false then
    (call (.waitforjob n) (W.waitforjob n) s).bind fun st s =>
    .ok () { s with exitstatus := st }
  else .ok () { s with exitstatus := 0 }

/-- The `while ((n = parsecmd(0)) != NEOF)` of `evalstring`; `any` is the
local of that name, which the loop hands back. -/
def evalstring_loop (W : World) (ev : Eval) (last : Bool) (flag : Flags) :
    Nat → String → Bool → State → Res Bool
  | 0, _, _, _ => .timeout
  | fuel + 1, input, any, s =>
    match W.parsecmd input s with
    | .NEOF => .ok any (s.log (.parsecmd input))
    | .syntaxError => error "syntax error" (s.log (.parsecmd input))
    | .cmd n rest =>
      let s := s.log (.parsecmd input)
      if n.isSome ∧ s.nflag = false then
        (if last ∧ W.at_eof rest then ev n flag.setExit s else ev n flag s).bind fun _ s =>
        if s.evalskip ≠ .SKIPNONE then .ok true s
        else evalstring_loop W ev last flag fuel rest true s
      else evalstring_loop W ev last flag fuel rest any s

/-- The function `evalstring`. -/
def evalstring (W : World) (ev : Eval) (fuel : Nat) (str : String) (flag : Flags)
    (s : State) : Outcome :=
  let last := flag.exit
  (evalstring_loop W ev last flag.clearExit fuel str false
      (s.log (.evalstring str flag))).bind fun any s =>
    let s := if any then s else { s with exitstatus := 0 }
    if last then exraise .EXEXIT s else .ok () s

/-- The string `evalcmd` builds from `p = argv[1]` and `ap = argv + 2`. -/
def evalcmd_concat : String → List String → String
  | p, [] => p
  | p, a :: ap => p ++ " " ++ evalcmd_concat a ap

/-- The builtin `evalcmd` (`eval`). -/
def evalcmd (W : World) (ev : Eval) (fuel : Nat) (argv : List String) (s : State) : Res Int :=
  match argv with
  | _ :: p :: ap =>
    (evalstring W ev fuel (evalcmd_concat p ap) s.builtin_flags.onlyTested s).bind
      fun _ s => .ok s.exitstatus s
  | _ => .ok 0 { s with exitstatus := 0 }

/-- Modelled from the spec: `cmdloop` of `main.c` is missing; §4.G says that `.`
pushes the file as input and runs `cmdloop(0)`, and the glossary that a dot
script is read in the current shell context: the commands `parsecmd` reads
from the input are evaluated one after the other by `evaltree`.  `cmdloop`
is handed no flag word (its argument is `top`, and `builtin_flags` is static
to `eval.c`), so it evaluates with the flag word 0.  It ends at the end of the
input or when a skip is pending, and it consumes a `SKIPFILE` through
`stop_skipping`.  The first argument bounds the number of commands. -/
def cmdloop (W : World) (ev : Eval) : Nat → String → State → Outcome
  | 0, _, _ => .timeout
  | fuel + 1, input, s =>
    match W.parsecmd input s with
    | .NEOF => .ok () (s.log (.parsecmd input))
    | .syntaxError => error "syntax error" (s.log (.parsecmd input))
    | .cmd n rest =>
      let s := s.log (.parsecmd input)
      (if n.isSome ∧ s.nflag = false then ev n EV_NONE s else .ok () s).bind fun _ s =>
      if s.evalskip ≠ .SKIPNONE then
        .ok () (if s.evalskip = .SKIPFILE then stop_skipping s else s)
      else cmdloop W ev fuel rest s

/-- The builtin `dotcmd` (`.`); `W.filetext` is the text of the file that
`setinputfile` makes the input. -/
def dotcmd (W : World) (ev : Eval) (fuel : Nat) (argv : List String) (s : State) : Res Int :=
  let s := { s with exitstatus := 0 }
  match W.nextopt_null argv.tail with
  | [] => .ok s.exitstatus s
  | file :: _ =>
    (call (.setinputfile file) (W.find_dot_file file) s).bind fun fullname s =>
    let dot_funcnest_old := s.dot_funcnest
    (cmdloop W ev fuel (W.filetext fullname)
        ({ s with dot_funcnest := s.funcnest + 1 }.log .cmdloop)).bind fun _ s =>
    let s := { s with dot_funcnest := dot_funcnest_old }
    .ok s.exitstatus s

/-- The call `shellexec`: it does not return. -/
def shellexec {α : Type} (W : World) (argv : List String) (path : String) (s : State) :
    Res α :=
  match call (.shellexec argv) (W.shellexec argv path) s with
  | .ok _ s => .gone .exec 0 s
  | .raise e s => .raise e s
  | .gone g st s => .gone g st s
  | .timeout => .timeout

/-- The builtin `execcmd` (`exec`). -/
def execcmd (W : World) (argv : List String) (s : State) : Res Int :=
  match W.nextopt_null argv.tail with
  | [] => .ok 0 s
  | a :: as => shellexec W (a :: as) (W.pathval s) s

/-! ## Simple commands -/

/-- The value of `syspath() + 5`. -/
def syspath5 : String :=
  "/bin:/sbin:/usr/bin:/usr/sbin:/usr/X11R6/bin:/usr/local/bin:/usr/local/sbin:/usr/games"

/-- The search path of `evalcommand`: `pathval()`, or the value of the last
`PATH=` assignment of the command.  The flag is `path != pathval()`. -/
def evalcommand_path (W : World) (varlist : List String) (s : State) : String × Bool :=
  varlist.foldl
    (fun p v => if "PATH=".toList.isPrefixOf v.toList then (String.mk (v.toList.drop 5), true)
                else p)
    (W.pathval s, false)

/-- The `do ... while (argc != 0)` of `evalcommand` that implements the
`command` builtin: the entry found, the `argv` left, `cmd_flags & DO_NOFUNC`
and the path.  The first argument bounds the number of rounds. -/
def evalcommand_lookup (W : World) (s : State) :
    Nat → List String → Bool → String × Bool →
      Option (cmdentry × List String × Bool × (String × Bool))
  | 0, _, _, _ => none
  | fuel + 1, argv, nofunc, path =>
    let ce := W.find_command (argv.headD "") nofunc path.1 s
    if ¬ (ce.cmdtype = .CMDBUILTIN ∧ ce.bltin = .bltincmd) then some (ce, argv, nofunc, path)
    else
      let r := parse_command_args argv
      if r.1 = 0 then some ({ ce with bltin := .typecmd }, argv, true, path)
      else
        let argv1 := argv.drop r.1
        let path1 := if r.2 then (syspath5, true) else path
        if argv1.length = 0 then some (ce, argv1, true, path1)
        else evalcommand_lookup W s fuel argv1 true path1

/-- The part "Now locate the command" of `evalcommand`. -/
def evalcommand_locate (W : World) (s : State) (argv varlist : List String) :
    Option (cmdentry × List String × Bool × (String × Bool)) :=
  if argv.length = 0 then
    some (⟨.CMDBUILTIN, .bltincmd, none, 0⟩, argv, false, (W.pathval s, false))
  else
    match evalcommand_lookup W s (argv.length + 1) argv false (evalcommand_path W varlist s) with
    | none => none
    | some (ce, argv1, nofunc, path) =>
      some (if ce.cmdtype = .CMDSPLBLTIN ∧ nofunc then { ce with cmdtype := .CMDBUILTIN } else ce,
            argv1, nofunc, path)

/-- The label `parent` of `evalcommand`: the process forked and this is the
parent. -/
def evalcommand_parent (W : World) (cmd : Node) (backgnd : Bool) (flags : Flags)
    (s : State) : Outcome :=
  (call (.forkshell cmd backgnd) (W.forkshell cmd backgnd) s).bind fun _ s =>
  let s := { s with exitstatus := 0 }
  if !flags.backcmd ∧ !backgnd then
    (call (.waitforjob cmd) (W.waitforjob cmd) s).bind fun st s =>
    .ok () { s with exitstatus := st }
  else .ok () s

/-- The guarded part of `case CMDFUNCTION`, from `handler = &jmploc` to
`funcnest--`. -/
def evalcommand_funcbody (W : World) (ev : Eval) (func : Option Node)
    (varlist : List String) (flags : Flags) (s : State) : Outcome :=
  (call (.listmklocal varlist) (W.listmklocal varlist) s).bind fun _ s =>
  let s := { s with funcnest := s.funcnest + 1 }
  if s.funcnest > 1000 then error "too many nested function calls" s
  else
    (ev func flags.testedExit s).bind fun _ s =>
    .ok () { s with funcnest := s.funcnest - 1 }

/-- The `case CMDFUNCTION` of `evalcommand`. -/
def evalcommand_function (W : World) (ev : Eval) (func : Option Node)
    (redir : List Redir) (varlist : List String) (flags : Flags) (s : State) : Outcome :=
  let saved := !flags.exit || W.have_traps s
  (redirect W redir saved s).bind fun _ s =>
  let savehandler := s.handler
  match evalcommand_funcbody W ev func varlist flags { s with handler := savehandler + 1 } with
  | .raise e s =>
    let s := if saved then popredir s else s
    .raise e { s with handler := savehandler }
  | .ok _ s =>
    let s := { s with handler := savehandler }
    let s := if saved then popredir s else s
    let s := if s.evalskip = .SKIPFUNC then
               { s with evalskip := .SKIPNONE, skipcount := 0 } else s
    if flags.exit then exitshell .evexit s.exitstatus s else .ok () s
  | r => r

/-- The call `cmdentry.u.bltin(argc, argv)`. -/
def run_builtin (W : World) (ev : Eval) (fuel : Nat) (b : Bltin) (argv : List String)
    (s : State) : Res Int :=
  match b with
  | .bltincmd => bltincmd (s.log (.builtin b argv))
  | .evalcmd => evalcmd W ev fuel argv (s.log (.builtin b argv))
  | .breakcmd => breakcmd W argv (s.log (.builtin b argv))
  | .dotcmd => dotcmd W ev fuel argv (s.log (.builtin b argv))
  | .returncmd => returncmd W argv (s.log (.builtin b argv))
  | .falsecmd => falsecmd (s.log (.builtin b argv))
  | .truecmd => truecmd (s.log (.builtin b argv))
  | .execcmd => execcmd W argv (s.log (.builtin b argv))
  | b => call (.builtin b argv) (W.builtin b argv) s

/-- The guarded part of the builtin case of `evalcommand` (the branch
`!setjmp(jmploc.loc)`): the outcome, and `cmdentry.cmdtype` as the block
leaves it. -/
def evalcommand_bltinbody (W : World) (ev : Eval) (fuel : Nat) (ce : cmdentry)
    (argv varlist : List String) (redir : List Redir) (nofunc : Bool)
    (path : String × Bool) (flags : Flags) (s : State) : Outcome × CmdType :=
  let temp_path := path.2 ∧ (ce.bltin = .hashcmd ∨ ce.bltin = .typecmd)
  let r1 : Outcome :=
    (if temp_path then call (.mklocal ("PATH=" ++ path.1)) (W.mklocal ("PATH=" ++ path.1)) s
     else .ok () s).bind fun _ s =>
    redirect W redir (ce.bltin ≠ .execcmd) s
  match r1 with
  | .ok _ s =>
    let cmdtype := if argv.length = 0 ∧ !nofunc then .CMDSPLBLTIN else ce.cmdtype
    ((call (.listsetvar varlist (cmdtype ≠ .CMDSPLBLTIN))
        (W.listsetvar varlist (cmdtype ≠ .CMDSPLBLTIN)) s).bind fun _ s =>
      (run_builtin W ev fuel ce.bltin argv { s with builtin_flags := flags }).bind
        fun st s => .ok () { s with exitstatus := st },
     cmdtype)
  | r => (r, ce.cmdtype)

/-- The builtin case of `evalcommand` after the guarded part. -/
def evalcommand_bltinend (W : World) (bltin : Bltin) (cmdtype : CmdType) (flags : Flags)
    (savehandler : Nat) : Outcome → Outcome
  | .ok _ s =>
    let s := { s with handler := savehandler }
    if flags.exit then exitshell .evexit s.exitstatus s
    else .ok () (if bltin ≠ .execcmd then popredir s else s)
  | .raise e s =>
    let s := match e with
      | .EXINT => { s with exitstatus := W.SIGINT + 128 }
      | .EXEXEC => { s with exitstatus := s.exerrno }
      | .EXEXIT => s
      | _ => { s with exitstatus := 2 }
    let s := { s with handler := savehandler }
    if e ≠ .EXSHELLPROC ∧ flags.exit then exitshell .evexit s.exitstatus s
    else if (e ≠ .EXERROR ∧ e ≠ .EXEXEC) ∨ cmdtype = .CMDSPLBLTIN then exraise e s
    else .ok () (if bltin ≠ .execcmd then popredir s else s)
  | r => r

/-- The `case CMDSPLBLTIN: case CMDBUILTIN:` of `evalcommand`. -/
def evalcommand_builtin (W : World) (ev : Eval) (fuel : Nat) (ce : cmdentry)
    (argv varlist : List String) (redir : List Redir) (nofunc : Bool)
    (path : String × Bool) (flags : Flags) (s : State) : Outcome :=
  let savehandler := s.handler
  let r := evalcommand_bltinbody W ev fuel ce argv varlist redir nofunc path flags
             { s with handler := savehandler + 1 }
  evalcommand_bltinend W ce.bltin r.2 flags savehandler r.1

/-- The `setvareq` calls of the `default:` case of `evalcommand`. -/
def evalcommand_setvareqs (W : World) : List String → State → Outcome
  | [], s => .ok () s
  | v :: vs, s =>
    (call (.setvar v "") (W.setvareq v) s).bind fun _ s => evalcommand_setvareqs W vs s

/-- The `default:` case of `evalcommand`: an external command run in this
process. -/
def evalcommand_normal (W : World) (argv varlist : List String) (redir : List Redir)
    (path : String) (s : State) : Outcome :=
  (redirect W redir false s).bind fun _ s =>
  (evalcommand_setvareqs W varlist s).bind fun _ s =>
  shellexec W argv path s

/-- The function `evalcommand` on the node `cmd = NCMD backgnd args redir`
(`backcmd` is `NULL` at its only call). -/
def evalcommand (W : World) (ev : Eval) (fuel : Nat) (cmd : Node) (backgnd : Bool)
    (args : List Word) (redir : List Redir) (flags : Flags) (s : State) : Outcome :=
  (expandargs W .FULL_TILDE (args.dropWhile W.isassignment)
    { s with back_exitstatus := 0 }).bind fun argv s =>
  (expredir W redir s).bind fun _ s =>
  (expandargs W .VARTILDE (args.takeWhile W.isassignment) s).bind fun varlist s =>
  match evalcommand_locate W s argv varlist with
  | none => .timeout
  | some (ce, argv, nofunc, path) =>
    (if s.traps_invalid ∧
        ((ce.cmdtype ≠ .CMDSPLBLTIN ∧ ce.cmdtype ≠ .CMDBUILTIN)
          ∨ (ce.bltin ≠ .trapcmd ∧ ce.bltin ≠ .evalcmd)) then
       call .free_traps W.free_traps s
     else .ok () s).bind fun _ s =>
    if backgnd ∨ ((ce.cmdtype = .CMDNORMAL ∨ ce.cmdtype = .CMDUNKNOWN)
                    ∧ (W.have_traps s ∨ !flags.exit)) then
      evalcommand_parent W cmd backgnd flags s
    else
      match ce.cmdtype with
      | .CMDFUNCTION => evalcommand_function W ev ce.func redir varlist flags s
      | .CMDSPLBLTIN => evalcommand_builtin W ev fuel ce argv varlist redir nofunc path flags s
      | .CMDBUILTIN => evalcommand_builtin W ev fuel ce argv varlist redir nofunc path flags s
      | _ => evalcommand_normal W argv varlist redir path.1 s

/-! ## The tree evaluator -/

/-- The statement `if (pendingsigs) dotrap();` of `evaltree`. -/
def evaltree_traps (W : World) (s : State) : Outcome :=
  if s.pendingsigs then call .dotrap W.dotrap s else .ok () s

/-- The end of `evaltree` from the label `out2`. -/
def evaltree_out2 (W : World) (flags : Flags) (do_etest : Bool) (s : State) : Outcome :=
  (evaltree_traps W s).bind fun _ s =>
  if s.eflag ∧ s.exitstatus ≠ 0 ∧ do_etest then exitshell .eflag s.exitstatus s
  else if flags.exit then exraise .EXEXIT s
  else .ok () s

/-- The statement `if (n->type != NCMD && traps_invalid) free_traps();` of
`evaltree`. -/
def evaltree_free_traps (W : World) (n : Node) (s : State) : Outcome :=
  if n.isNCMD = false ∧ s.traps_invalid then call .free_traps W.free_traps s else .ok () s

/-- The `do ... while (n != NULL)` of `evaltree`, entered at the node `n`: the
value is the local `do_etest` at the label `out1`.  The first argument bounds
the number of rounds. -/
def evaltree_do (W : World) (ev : Eval) :
    Nat → Node → Flags → State → Res Bool
  | 0, _, _, _ => .timeout
  | fuel + 1, n, flags, s =>
    let sflags := flags.clearExit
    let next : Option Node → State → Res Bool := fun nx s =>
      match nx with
      | none => .ok false s
      | some n1 => evaltree_do W ev fuel n1 flags s
    (evaltree_free_traps W n (s.log (.evaltree n flags s.loopnest s.funcnest))).bind fun _ s =>
    match n with
    | .NSEMI ch1 ch2 =>
      (ev ch1 sflags s).bind fun _ s =>
      if s.nflag ∨ s.evalskip ≠ .SKIPNONE then .ok false s else next ch2 s
    | .NAND ch1 ch2 =>
      (ev ch1 EV_TESTED s).bind fun _ s =>
      if s.nflag ∨ s.evalskip ≠ .SKIPNONE ∨ s.exitstatus ≠ 0 then .ok false s
      else next ch2 s
    | .NOR ch1 ch2 =>
      (ev ch1 EV_TESTED s).bind fun _ s =>
      if s.nflag ∨ s.evalskip ≠ .SKIPNONE ∨ s.exitstatus = 0 then .ok false s
      else next ch2 s
    | .NREDIR child redir =>
      (evalredir W ev child redir flags s).bind fun _ s => .ok false s
    | .NSUBSHELL child redir =>
      (evalsubshell W ev n false child redir flags s).bind fun _ s => .ok (!flags.tested) s
    | .NBACKGND child redir =>
      (evalsubshell W ev n true child redir flags s).bind fun _ s => .ok false s
    | .NIF test ifpart elsepart =>
      (ev test EV_TESTED s).bind fun _ s =>
      if s.nflag ∨ s.evalskip ≠ .SKIPNONE then .ok false s
      else if s.exitstatus = 0 then next ifpart s
      else if elsepart.isSome then next elsepart s
      else .ok false { s with exitstatus := 0 }
    | .NWHILE ch1 ch2 =>
      (evalloop ev fuel true ch1 ch2 sflags s).bind fun _ s => .ok false s
    | .NUNTIL ch1 ch2 =>
      (evalloop ev fuel false ch1 ch2 sflags s).bind fun _ s => .ok false s
    | .NFOR args body var =>
      (evalfor W ev args body var sflags s).bind fun _ s => .ok false s
    | .NCASE expr cases =>
      (evalcase W ev expr cases sflags s).bind fun _ s => .ok false s
    | .NDEFUN text body lineno =>
      .ok false { defun text body lineno s with exitstatus := 0 }
    | .NNOT com =>
      (ev com EV_TESTED s).bind fun _ s =>
      .ok false { s with exitstatus := if s.exitstatus = 0 then 1 else 0 }
    | .NDNOT com =>
      (ev com EV_TESTED s).bind fun _ s =>
      .ok false (if s.exitstatus ≠ 0 then { s with exitstatus := 1 } else s)
    | .NPIPE backgnd cmdlist =>
      (evalpipe W n backgnd cmdlist s).bind fun _ s => .ok (!flags.tested) s
    | .NCMD backgnd args redir =>
      (evalcommand W ev fuel n backgnd args redir flags s).bind fun _ s =>
      .ok (!flags.tested) s
    | .NOTHER _ => .ok false s

/-- The function `evaltree`.  The first argument is the fuel: the depth of
nested calls, and the bound of every loop inside one call. -/
def evaltree (W : World) : Nat → Option Node → Flags → State → Outcome
  | 0, _, _, _ => .timeout
  | fuel + 1, n, flags, s =>
    match n with
    | none => evaltree_out2 W flags false (if s.nflag = false then { s with exitstatus := 0 } else s)
    | some n =>
      if s.nflag then evaltree_out2 W flags false s
      else
        (evaltree_do W (evaltree W fuel) fuel n flags s).bind fun do_etest s =>
        evaltree_out2 W flags do_etest s

/-! ## A concrete world

A small stand-in for the rest of the shell, used to run the evaluator on
concrete scripts.  Words expand to themselves; the parser reads one simple
command per line; `set` knows `-e`, `+e`, `-n`; external commands succeed;
the file `./script` holds the two lines `false` and `echo after`. -/

/-- Split a line at single spaces. -/
def splitWords : List Char → List Char → List String
  | [], acc => [String.mk acc.reverse]
  | c :: cs, acc =>
    if c = ' ' then String.mk acc.reverse :: splitWords cs [] else splitWords cs (c :: acc)

/-- Break the input at the first newline. -/
def splitLine : List Char → List Char → List Char × List Char
  | [], acc => (acc.reverse, [])
  | c :: cs, acc => if c = '\n' then (acc.reverse, cs) else splitLine cs (c :: acc)

/-- Read an unsigned decimal number. -/
def readDigits : List Char → Nat → Option Nat
  | [], n => some n
  | c :: cs, n => if c.isDigit then readDigits cs (10 * n + (c.toNat - 48)) else none

/-- The special builtins of the concrete world. -/
def shSpecial : List (String × Bltin) :=
  [("break", .breakcmd), ("continue", .breakcmd), ("return", .returncmd),
   ("eval", .evalcmd), (".", .dotcmd), ("exec", .execcmd), (":", .truecmd),
   ("set", .other 0), ("exit", .other 1)]

/-- The regular builtins of the concrete world. -/
def shRegular : List (String × Bltin) :=
  [("true", .truecmd), ("false", .falsecmd), ("command", .bltincmd),
   ("echo", .other 2), ("type", .typecmd), ("times", .timescmd)]

/-- The concrete world. -/
def sh : World where
  expandarg := fun w _ s => .ret [w] s
  isassignment := fun w => w.toList.any (· = '=')
  casematch := fun p t s => .ret (p = t || p = "*") s
  find_command := fun name nofunc _ s =>
    match shSpecial.lookup name with
    | some b => ⟨.CMDSPLBLTIN, b, none, 0⟩
    | none =>
      match (if nofunc then none else s.funcs.lookup name) with
      | some body => ⟨.CMDFUNCTION, .bltincmd, body, 0⟩
      | none =>
        match shRegular.lookup name with
        | some b => ⟨.CMDBUILTIN, b, none, 0⟩
        | none => ⟨.CMDNORMAL, .bltincmd, none, 0⟩
  pathval := fun _ => "/bin"
  have_traps := fun _ => false
  free_traps := fun s => .ret () { s with traps_invalid := false }
  dotrap := fun s => .ret () { s with pendingsigs := false }
  redirect := fun _ _ s => .ret () s
  forkshell := fun _ _ s => .ret () s
  waitforjob := fun _ s => .ret 0 s
  listmklocal := fun _ s => .ret () s
  listsetvar := fun _ _ s => .ret () s
  mklocal := fun _ s => .ret () s
  setvar := fun name val s => .ret () { s with vars := (name, val) :: s.vars }
  setvareq := fun _ s => .ret () s
  builtin := fun b argv s =>
    match b with
    | .other 0 =>
      if argv = ["set", "-e"] then .ret 0 { s with eflag := true }
      else if argv = ["set", "+e"] then .ret 0 { s with eflag := false }
      else if argv = ["set", "-n"] then .ret 0 { s with nflag := true }
      else .ret 0 s
    | .other 1 => .exit s.exitstatus s
    | _ => .ret 0 s
  shellexec := fun _ _ s => .ret () s
  parsecmd := fun input _ =>
    match input.toList with
    | [] => .NEOF
    | cs =>
      let r := splitLine cs []
      .cmd (if r.1 = [] then none else some (.NCMD false (splitWords r.1 []) []))
        (String.mk r.2)
  at_eof := fun rest => rest = ""
  number := fun a =>
    match a.toList with
    | [] => none
    | cs => (readDigits cs 0).map Int.ofNat
  nextopt_null := fun args =>
    match args with
    | "--" :: r => r
    | r => r
  find_dot_file := fun name s => .ret name s
  filetext := fun name => if name = "./script" then "false\necho after" else ""
  SIGINT := 2

/-- The state of a shell that has just started. -/
def init : State where
  evalskip := .SKIPNONE
  skipcount := 0
  loopnest := 0
  funcnest := 0
  builtin_flags := EV_NONE
  dot_funcnest := 0
  exitstatus := 0
  back_exitstatus := 0
  nflag := false
  eflag := false
  pendingsigs := false
  traps_invalid := false
  exerrno := 0
  redirdepth := 0
  handler := 0
  funcs := []
  vars := []
  trace := []

/-- A simple command without redirections, in the foreground. -/
def cmd (args : List Word) : Option Node := some (.NCMD false args [])

/-- The builtins run so far, in order (read off the ghost log). -/
def builtinsRun : List Ev → List (List String)
  | [] => []
  | .builtin _ argv :: evs => argv :: builtinsRun evs
  | _ :: evs => builtinsRun evs

/-- The observable summary of a result: how it ended, with which exit status,
and which builtins ran. -/
inductive Summary
  | returned (status : Int) (ran : List (List String))
  | raised (e : Exc) (status : Int) (ran : List (List String))
  | exited (site : ExitSite) (status : Int) (ran : List (List String))
  | outOfFuel
  deriving DecidableEq, Repr

/-- The summary of a result. -/
def Res.summary {α : Type} : Res α → Summary
  | .ok _ s => .returned s.exitstatus (builtinsRun s.trace)
  | .raise e s => .raised e s.exitstatus (builtinsRun s.trace)
  | .gone g st s => .exited g st (builtinsRun s.trace)
  | .timeout => .outOfFuel

/-! ## The control builtins -/

/-- The operand of `break`, `continue` and `return` as the builtin reads it:
`argv[1]` through `number` when `argc > 1`, and the default `dflt` otherwise. -/
def operandIs (W : World) (argv : List String) (dflt n : Int) : Prop :=
  match argv with
  | _ :: a1 :: _ => W.number a1 = some n
  | _ => n = dflt

/-- The skip state `(evalskip, skipcount)`. -/
def State.skip (s : State) : skipstate × Int := (s.evalskip, s.skipcount)

/-- The value a function returned, if it returned. -/
def Res.value? {α : Type} : Res α → Option α
  | .ok a _ => some a
  | _ => none

/-- Inside a function: not in a dot script and `funcnest > 0`, or in a dot
script with a function call made inside it (`funcnest > dot_funcnest - 1`). -/
def inFunction (s : State) : Prop :=
  (s.dot_funcnest = 0 ∧ s.funcnest > 0) ∨ (s.dot_funcnest > 0 ∧ s.funcnest > s.dot_funcnest - 1)

/-- Inside a dot script at its own level. -/
def inDotScript (s : State) : Prop :=
  s.dot_funcnest > 0 ∧ s.funcnest ≤ s.dot_funcnest - 1

/-- At top level: in no function and in no dot script. -/
def atTopLevel (s : State) : Prop :=
  s.funcnest = 0 ∧ s.dot_funcnest = 0

/-- The nodes after which `evaltree` makes the `-e` test: `NCMD`, `NPIPE` and
`NSUBSHELL`. -/
def Node.etests : Node → Bool
  | .NCMD _ _ _ => true
  | .NPIPE _ _ => true
  | .NSUBSHELL _ _ => true
  | _ => false

/-- The test `n->type == NBACKGND`. -/
def Node.isNBACKGND : Node → Bool
  | .NBACKGND _ _ => true
  | _ => false

/-- The function definition `f() { true; }`. -/
def defunF : Option Node := some (.NDEFUN "f" (cmd ["true"]) 1)


/-- The state a result carries. -/
def Res.state? {α : Type} : Res α → Option State
  | .ok _ s => some s
  | .raise _ s => some s
  | .gone _ _ s => some s
  | .timeout => none

/-- The exit status the last evaluation of the loop body left, or 0 if the
body was evaluated zero times (read off the ghost list of `evalloop_for`). -/
def lastBodyStatus (bodies : List Int) : Int := bodies.getLast?.getD 0

/-- The state inside one function call, all else as at the start. -/
def inF : State := { init with funcnest := 1 }

/-- The script `f() { while return 3; do true; done; }; f`. -/
def whileReturn3 : Option Node :=
  some (.NSEMI (some (.NDEFUN "f" (some (.NWHILE (cmd ["return", "3"]) (cmd ["true"]))) 1))
    (cmd ["f"]))


/-- The rounds of `evaltree` on simple commands, in order: the words of the
command and the value of `funcnest` at that moment (read off the ghost log). -/
def dispatches : List Ev → List (List Word × Int)
  | [] => []
  | .evaltree (.NCMD _ args _) _ _ fn :: evs => (args, fn) :: dispatches evs
  | _ :: evs => dispatches evs

/-- The script `h() { break 0; }; f() { command eval h; }; f`. -/
def leakScript : Option Node :=
  some (.NSEMI (some (.NDEFUN "h" (cmd ["break", "0"]) 1))
    (some (.NSEMI (some (.NDEFUN "f" (cmd ["command", "eval", "h"]) 2)) (cmd ["f"]))))

/-- The shell after the two definitions of `leakScript`. -/
def leakDefs : State :=
  { init with funcs := [("f", cmd ["command", "eval", "h"]), ("h", cmd ["break", "0"])] }

/-- The shell inside 999 function calls, with `f() { command eval g; echo probe; }`
and `g() { true; }` defined. -/
def capDefs : State :=
  { init with
      funcnest := 999
      funcs := [("f", some (.NSEMI (cmd ["command", "eval", "g"]) (cmd ["echo", "probe"]))),
                ("g", cmd ["true"])] }

/-- Whether the result is the `exitshell` of the `-e` check of `evaltree`: of
the call itself or of a call nested under it, the calls `cmdloop` makes for a
dot script included.  An exit inside a trap action, which `dotrap` runs
outside `eval.c`, is not told apart from the other exits of that code. -/
def Res.viaEflag {α : Type} : Res α → Bool
  | .gone .eflag _ _ => true
  | _ => false

/-- The evaluator `ev` never takes the `-e` exit when `EV_TESTED` is set. -/
def TestedSafe (ev : Eval) : Prop :=
  ∀ n fl s, fl.tested = true → (ev n fl s).viaEflag = false

/-- No dot script read with the evaluator `ev` takes the `-e` exit. -/
def DotSafe (W : World) (ev : Eval) : Prop :=
  ∀ fuel input s, (cmdloop W ev fuel input s).viaEflag = false

/-- The shell under `-e`, all else as at the start. -/
def eflagOn : State := { init with eflag := true }

/-- The statement `if . ./script; then true; fi`. -/
def ifDot : Option Node := some (.NIF (cmd [".", "./script"]) (cmd ["true"]) none)

/-- The statement `if eval false; then true; fi`. -/
def ifEval : Option Node := some (.NIF (cmd ["eval", "false"]) (cmd ["true"]) none)

/-- The statement `if false; then true; fi`. -/
def ifFalse : Option Node := some (.NIF (cmd ["false"]) (cmd ["true"]) none)

/-- The rounds of `evaltree` on simple commands, in order: the words of the
command and the flag word of the call (read off the ghost log). -/
def flagDispatches : List Ev → List (List Word × Flags)
  | [] => []
  | .evaltree (.NCMD _ args _) fl _ _ :: evs => (args, fl) :: flagDispatches evs
  | _ :: evs => flagDispatches evs

/-- The ghost log `sf.trace` shows that the `do` loop of `evaltree` went on
with a round on the node `B` from the state `s1`: the event that follows the
log of `s1` is that round (`B` is evaluated next, under `flags`). -/
def evaluatedNext (B : Node) (flags : Flags) (s1 sf : State) : Prop :=
  sf.trace[s1.trace.length]? = some (.evaltree B flags s1.loopnest s1.funcnest)

/-- The ghost log `t` is an initial segment of the log of the state the result
carries: the run has only appended events. -/
def Grows {α : Type} (t : List Ev) (r : Res α) : Prop :=
  ∀ s, r.state? = some s → ∃ u, s.trace = t ++ u

/-- The evaluator `ev` only appends to the ghost log. -/
def GrowsEval (ev : Eval) : Prop :=
  ∀ n fl s t, (∃ u, s.trace = t ++ u) → Grows t (ev n fl s)


/-- The node `true && echo yes`. -/
def andNode : Node := .NAND (cmd ["true"]) (cmd ["echo", "yes"])

/-- The state in which `true && echo yes`, run from `init`, evaluates `true`. -/
def andS0 : State := init.log (.evaltree andNode EV_NONE 0 0)

/-- The state `true` leaves there. -/
def andS1 : State := ((evaltree sh 3 (cmd ["true"]) EV_TESTED andS0).state?).getD init

/-- The state `true && echo yes` ends in. -/
def andSf : State := ((evaltree sh 4 (some andNode) EV_NONE init).state?).getD init

/-- The state inside one loop, all else as at the start. -/
def inLoop : State := { init with loopnest := 1 }

/-- The node `break && echo yes`. -/
def brkNode : Node := .NAND (cmd ["break"]) (cmd ["echo", "yes"])

/-- The state in which `break && echo yes`, run inside a loop, evaluates
`break`. -/
def brkS0 : State := inLoop.log (.evaltree brkNode EV_NONE 1 0)

/-- The state `break` leaves there. -/
def brkS1 : State := ((evaltree sh 3 (cmd ["break"]) EV_TESTED brkS0).state?).getD init

/-- The state `break && echo yes` ends in. -/
def brkSf : State := ((evaltree sh 4 (some brkNode) EV_NONE inLoop).state?).getD init

/-- The loop `while true; do break && echo yes; done`. -/
def brkLoop : Option Node := some (.NWHILE (cmd ["true"]) (some brkNode))

/-- The node `return 1 || echo no`. -/
def retNode : Node := .NOR (cmd ["return", "1"]) (cmd ["echo", "no"])

/-- The state in which `return 1 || echo no`, run inside a function, evaluates
`return 1`. -/
def retS0 : State := inF.log (.evaltree retNode EV_NONE 0 1)

/-- The state `return 1` leaves there. -/
def retS1 : State := ((evaltree sh 3 (cmd ["return", "1"]) EV_TESTED retS0).state?).getD init

/-- The state `return 1 || echo no` ends in. -/
def retSf : State := ((evaltree sh 4 (some retNode) EV_NONE inF).state?).getD init


/-- The state `while true; do break; done`, run from `init`, ends in. -/
def loopSf : State :=
  ((evalloop (evaltree sh 5) 5 true (cmd ["true"]) (cmd ["break"]) EV_NONE init).state?).getD init

/-! ## The options of `command`, as the specification words them -/

/-- Specification: an option word of `command` begins with `-` and is not the
word `--`. -/
def isOptionWord (w : String) : Bool :=
  w.toList.head? == some '-' && w != "--"

/-- Specification: the option words `parse_command_args` scans, those after
word 0 up to the first word that does not begin with `-` or that is `--`. -/
def scannedOptions (argv : List String) : List String :=
  argv.tail.takeWhile isOptionWord

/-- Specification: the word has a character after its leading `-` other than
`p`. -/
def badOption (w : String) : Bool :=
  w.toList.tail.any fun c => c != 'p'

/-- Specification: the word has the character `p` after its leading `-`. -/
def hasP (w : String) : Bool :=
  w.toList.tail.contains 'p'

/-- Specification: the scan ended at the word `--`. -/
def endsAtDashes (argv : List String) : Bool :=
  (argv.tail.drop (scannedOptions argv).length).head? == some "--"

/-! ## Specifications and concrete scripts of the later sections -/

/-- Specification: the exit status after a builtin raised the exception `e` in
the state `s`. -/
def bltinStatus (W : World) (e : Exc) (s : State) : Int :=
  match e with
  | .EXINT => 128 + W.SIGINT
  | .EXEXEC => s.exerrno
  | .EXEXIT => s.exitstatus
  | _ => 2

/-- The entry of `break` once `command` has demoted it. -/
def breakEntry : cmdentry := ⟨.CMDBUILTIN, .breakcmd, none, 0⟩

/-- The state in which `break 0`, run through `command` from `init`, raises its
error. -/
def break0S1 : State :=
  (((evalcommand_bltinbody sh (evaltree sh 3) 3 breakEntry ["break", "0"] [] [] true
      ("/bin", false) EV_NONE { init with handler := init.handler + 1 }).1).state?).getD init

/-- The node `false || echo no`. -/
def orNode : Node := .NOR (cmd ["false"]) (cmd ["echo", "no"])

/-- The state in which `false || echo no`, run from `init`, evaluates `false`. -/
def orS0 : State := init.log (.evaltree orNode EV_NONE 0 0)

/-- The state `false` leaves there. -/
def orS1 : State := ((evaltree sh 3 (cmd ["false"]) EV_TESTED orS0).state?).getD init

/-- The state `false || echo no` ends in. -/
def orSf : State := ((evaltree sh 4 (some orNode) EV_NONE init).state?).getD init

/-- The node `true || echo no`. -/
def orTNode : Node := .NOR (cmd ["true"]) (cmd ["echo", "no"])

/-- The state in which `true || echo no`, run from `init`, evaluates `true`. -/
def orTS0 : State := init.log (.evaltree orTNode EV_NONE 0 0)

/-- The state `true` leaves there. -/
def orTS1 : State := ((evaltree sh 3 (cmd ["true"]) EV_TESTED orTS0).state?).getD init

/-- The state `true || echo no` ends in. -/
def orTSf : State := ((evaltree sh 4 (some orTNode) EV_NONE init).state?).getD init

/-- Specification: the invariant of the skip state, `count > 0 ⇔ kind ≠ None`. -/
def SkipInv (s : State) : Prop := s.skipcount > 0 ↔ s.evalskip ≠ .SKIPNONE

/-- The state `break 2` leaves inside two loops. -/
def break2S : State :=
  ((breakcmd sh ["break", "2"] { init with loopnest := 2 }).state?).getD init

/-- The shell with `l() { while true; do break 0; done; }` defined. -/
def loopLeakDefs : State :=
  { init with funcs := [("l", some (.NWHILE (cmd ["true"]) (cmd ["break", "0"])))] }

/-- The command `command eval l`. -/
def loopLeak : Option Node := cmd ["command", "eval", "l"]

/-- The rounds of `evaltree` on simple commands, in order: the words of the
command and the value of `loopnest` at that moment (read off the ghost log). -/
def loopDispatches : List Ev → List (List Word × Int)
  | [] => []
  | .evaltree (.NCMD _ args _) _ ln _ :: evs => (args, ln) :: loopDispatches evs
  | _ :: evs => loopDispatches evs

/-- The loop `for i in a b; do command eval l; done`. -/
def forLeak : Node := .NFOR ["a", "b"] loopLeak "i"

/-- Specification: `evalfor` on the expanded words `w1..wk`: assign the loop
variable each word in order and evaluate the body once after each assignment,
with `flags & EV_TESTED`; the value is the status the last body evaluation
left, or the initial one when there is no word. -/
def evalfor_spec (W : World) (ev : Eval) (var : String) (body : Option Node) (flags : Flags) :
    List String → Int → State → Res Int
  | [], status, s => .ok status s
  | w :: ws, _, s =>
    (call (.setvar var w) (W.setvar var w) s).bind fun _ s =>
    (ev body flags.onlyTested s).bind fun _ s =>
    evalfor_spec W ev var body flags ws s.exitstatus s

/-- The redirection `>out`. -/
def redirOut : List Redir := [⟨.NTO, "out", none⟩]

/-- The state after `expredir` on `>out` from `init`. -/
def redS0 : State := ((expredir sh redirOut init).state?).getD init

/-- The state after `redirect` installed `>out`. -/
def redS1 : State :=
  ((redirect sh redirOut true { redS0 with handler := init.handler + 1 }).state?).getD init

/-- The state the body `true` leaves under `>out`. -/
def redS2 : State := ((evaltree sh 3 (cmd ["true"]) EV_NONE redS1).state?).getD init

/-- The shell with `f() { break 0 >out; }` defined. -/
def redirLeakDefs : State :=
  { init with funcs := [("f", some (.NCMD false ["break", "0"] redirOut))] }

/-- The operand expression returns the operand. -/
theorem operand_of_operandIs (W : World) (argv : List String) (dflt n : Int) (s : State)
    (hop : operandIs W argv dflt n) : operand W argv dflt s = .ok n s := by
  match argv with
  | [] => simp only [operandIs] at hop; subst hop; rfl
  | [_] => simp only [operandIs] at hop; subst hop; rfl
  | _ :: a1 :: _ => simp only [operandIs] at hop; simp [operand, number, hop]

/-- **C5.** `breakcmd`, invoked as `break` or `continue` with operand `n`
(1 when absent): for `n ≥ 1` and `loopnest ≥ 1` it sets the skip state to
`(SKIPBREAK, min n loopnest)`, resp. `(SKIPCONT, min n loopnest)`, and returns
0, so every `n ≥ loopnest` gives the state of `n = loopnest`; for `n ≤ 0` it
raises `EXERROR` and the skip state is as before; for `n ≥ 1` and
`loopnest = 0` it returns 0 and changes nothing. -/
theorem breakcmd_bounded (W : World) (name : String) (rest : List String) (s : State) (n : Int)
    (hname : name = "break" ∨ name = "continue")
    (hop : operandIs W (name :: rest) 1 n) :
    (1 ≤ n → 1 ≤ s.loopnest →
        breakcmd W (name :: rest) s =
          .ok 0 { s with evalskip := if name = "continue" then .SKIPCONT else .SKIPBREAK
                         skipcount := min n s.loopnest })
    ∧ (1 ≤ n → 1 ≤ s.loopnest → s.loopnest ≤ n →
        breakcmd W (name :: rest) s =
          .ok 0 { s with evalskip := if name = "continue" then .SKIPCONT else .SKIPBREAK
                         skipcount := s.loopnest })
    ∧ (n ≤ 0 → ∃ s1, breakcmd W (name :: rest) s = .raise .EXERROR s1 ∧ s1.skip = s.skip)
    ∧ (1 ≤ n → s.loopnest = 0 → breakcmd W (name :: rest) s = .ok 0 s) := by
  have hkind : (if ((name :: rest).headD "").toList.head? = some 'c' then skipstate.SKIPCONT
        else skipstate.SKIPBREAK) = (if name = "continue" then .SKIPCONT else .SKIPBREAK) := by
    rcases hname with h | h <;> subst h <;> rfl
  have hnum := operand_of_operandIs W (name :: rest) 1 n s hop
  have main : ∀ m : Int, 1 ≤ n → 1 ≤ s.loopnest → m = min n s.loopnest →
      breakcmd W (name :: rest) s =
          .ok 0 { s with evalskip := if name = "continue" then .SKIPCONT else .SKIPBREAK
                         skipcount := m } := by
    intro m h1 h2 hm
    unfold breakcmd
    rw [hnum]
    simp only [Res.bind]
    rw [if_neg (by omega)]
    by_cases hgt : n > s.loopnest
    · have hm2 : m = s.loopnest := by rw [hm]; exact min_eq_right (le_of_lt hgt)
      simp only [hgt, if_true]
      rw [if_pos (by omega), hkind, hm2]
    · have hm2 : m = n := by rw [hm]; exact min_eq_left (by omega)
      simp only [hgt, if_false]
      rw [if_pos (by omega), hkind, hm2]
  refine ⟨fun h1 h2 => main _ h1 h2 rfl, fun h1 h2 h3 => main _ h1 h2 (min_eq_right h3).symm,
    ?_, ?_⟩
  · intro h0
    refine ⟨s.log (.error "invalid count"), ?_, rfl⟩
    unfold breakcmd
    rw [hnum]
    simp only [Res.bind]
    rw [if_pos h0]
    rfl
  · intro h1 h0
    unfold breakcmd
    rw [hnum]
    simp only [Res.bind]
    rw [if_neg (by omega)]
    have hgt : n > s.loopnest := by omega
    simp only [hgt, if_true]
    rw [if_neg (by omega)]

/-- A run of C5: `break 2` inside a single loop sets `(SKIPBREAK, 1)`. -/
theorem breakcmd_bounded_witness :
    breakcmd sh ["break", "2"] { init with loopnest := 1 } =
      .ok 0 { init with loopnest := 1, evalskip := .SKIPBREAK, skipcount := 1 } :=
  (breakcmd_bounded sh "break" ["2"] { init with loopnest := 1 } 2 (Or.inl rfl)
    (by simp only [operandIs]; decide)).1 (by decide) (by decide)

/-- The three branches of `returncmd`, given the value `ret` of its first
line. -/
theorem returncmd_branches (W : World) (argv : List String) (s : State) (ret : Int)
    (hop : operandIs W argv s.exitstatus ret) :
    returncmd W argv s =
      if (s.dot_funcnest = 0 ∧ s.funcnest ≠ 0)
          ∨ (s.dot_funcnest > 0 ∧ s.funcnest - (s.dot_funcnest - 1) > 0) then
        .ok ret { s with evalskip := .SKIPFUNC, skipcount := 1 }
      else if s.dot_funcnest > 0 then
        .ok ret { s with evalskip := .SKIPFILE, skipcount := 1 }
      else .ok 0 s := by
  have hnum := operand_of_operandIs W argv s.exitstatus ret s hop
  unfold returncmd
  rw [hnum]
  rfl

/-- **C6.** `returncmd` decides the skip state from `(funcnest, dot_funcnest)`
alone (both are `≥ 0`): inside a function it sets `(SKIPFUNC, 1)`, inside a
dot script at its own level it sets `(SKIPFILE, 1)`, at top level it changes
nothing and returns 0; exactly one of the three cases holds.  In the state
`dotcmd` establishes (`dot_funcnest = funcnest + 1`) it sets `SKIPFILE`, and
after one more function call (`funcnest = dot_funcnest`) it sets `SKIPFUNC`. -/
theorem returncmd_scoping (W : World) (argv : List String) (s : State) (ret : Int)
    (hf : 0 ≤ s.funcnest) (hd : 0 ≤ s.dot_funcnest)
    (hop : operandIs W argv s.exitstatus ret) :
    (inFunction s →
        returncmd W argv s = .ok ret { s with evalskip := .SKIPFUNC, skipcount := 1 })
    ∧ (inDotScript s →
        returncmd W argv s = .ok ret { s with evalskip := .SKIPFILE, skipcount := 1 })
    ∧ (atTopLevel s → returncmd W argv s = .ok 0 s)
    ∧ (inFunction s ∨ inDotScript s ∨ atTopLevel s)
    ∧ ¬ (inFunction s ∧ inDotScript s) ∧ ¬ (inFunction s ∧ atTopLevel s)
    ∧ ¬ (inDotScript s ∧ atTopLevel s)
    ∧ (s.dot_funcnest = s.funcnest + 1 →
        returncmd W argv s = .ok ret { s with evalskip := .SKIPFILE, skipcount := 1 })
    ∧ (0 < s.dot_funcnest → s.funcnest = s.dot_funcnest →
        returncmd W argv s = .ok ret { s with evalskip := .SKIPFUNC, skipcount := 1 }) := by
  have hb := returncmd_branches W argv s ret hop
  have hF : inFunction s →
      returncmd W argv s = .ok ret { s with evalskip := .SKIPFUNC, skipcount := 1 } := by
    intro h
    rw [hb, if_pos]
    rcases h with ⟨h1, h2⟩ | ⟨h1, h2⟩
    · exact Or.inl ⟨h1, by omega⟩
    · exact Or.inr ⟨h1, by omega⟩
  have hD : inDotScript s →
      returncmd W argv s = .ok ret { s with evalskip := .SKIPFILE, skipcount := 1 } := by
    intro h
    rw [hb, if_neg, if_pos h.1]
    rintro (⟨h1, _⟩ | ⟨_, h2⟩)
    · have := h.1; omega
    · have := h.2; omega
  refine ⟨hF, hD, ?_, ?_, ?_, ?_, ?_, ?_, ?_⟩
  · intro h
    rw [hb, if_neg, if_neg]
    · have := h.2; omega
    · rintro (⟨_, h2⟩ | ⟨h1, _⟩)
      · exact h2 h.1
      · have := h.2; omega
  · unfold inFunction inDotScript atTopLevel; omega
  · unfold inFunction inDotScript; omega
  · unfold inFunction atTopLevel; omega
  · unfold inDotScript atTopLevel; omega
  · intro h; exact hD ⟨by omega, by omega⟩
  · intro h1 h2; exact hF (Or.inr ⟨h1, by omega⟩)

/-- A run of C6: `return` in the state `dotcmd` establishes at top level
(`funcnest = 0`, `dot_funcnest = 1`) sets `(SKIPFILE, 1)`. -/
theorem returncmd_scoping_witness :
    returncmd sh ["return"] { init with dot_funcnest := 1 } =
      .ok 0 { init with dot_funcnest := 1, evalskip := .SKIPFILE, skipcount := 1 } :=
  (returncmd_scoping sh ["return"] { init with dot_funcnest := 1 } 0 (by decide) (by decide)
    (by simp only [operandIs]; rfl)).2.1 ⟨by decide, by decide⟩

/-- **C7, as the claim states it, fails.** At top level `return 5` has the
operand 5 and returns 0. -/
theorem returncmd_value_counterexample :
    operandIs sh ["return", "5"] init.exitstatus 5
    ∧ atTopLevel init
    ∧ (returncmd sh ["return", "5"] init).value? = some 0
    ∧ (returncmd sh ["return", "5"] init).value? ≠ some 5 := by
  refine ⟨?_, ?_, ?_, ?_⟩
  · simp only [operandIs]; decide
  · exact ⟨rfl, rfl⟩
  · decide
  · decide

/-- **C7, amended.** Inside a function or a dot script the value `returncmd`
returns is its operand when one is given and otherwise the `exitstatus` in
force before the call; at top level it is 0, whatever the operand. -/
theorem returncmd_value (W : World) (argv : List String) (s : State) (ret : Int)
    (hf : 0 ≤ s.funcnest) (hd : 0 ≤ s.dot_funcnest)
    (hop : operandIs W argv s.exitstatus ret) :
    (inFunction s ∨ inDotScript s → (returncmd W argv s).value? = some ret)
    ∧ (atTopLevel s → (returncmd W argv s).value? = some 0) := by
  have hb := returncmd_branches W argv s ret hop
  constructor
  · intro h
    rw [hb]
    split
    · rfl
    · split
      · rfl
      · rename_i h1 h2
        exfalso
        unfold inFunction inDotScript at h
        omega
  · intro h
    rw [hb]
    split
    · rename_i h1
      exfalso
      unfold atTopLevel at h
      omega
    · split
      · rename_i h1 h2
        exfalso
        unfold atTopLevel at h
        omega
      · rfl

/-- A run of C7: inside a function `return 5` returns 5. -/
theorem returncmd_value_witness :
    (returncmd sh ["return", "5"] { init with funcnest := 1 }).value? = some 5 :=
  (returncmd_value sh ["return", "5"] { init with funcnest := 1 } 5 (by decide) (by decide)
    (by simp only [operandIs]; decide)).1 (Or.inl (Or.inl ⟨rfl, by decide⟩))

/-! ## `evaltree`: noexec and exit-on-error -/

/-- **C4, as the claim states it, fails.** With `nflag` on, `evaltree` on a
`NDEFUN` node returns with the state as it was: the function is not
registered (with `nflag` off it is), and an `exitstatus` of 1 stays 1. -/
theorem evaltree_noexec_counterexample :
    evaltree sh 3 defunF EV_NONE { init with nflag := true, exitstatus := 1 }
        = .ok () { init with nflag := true, exitstatus := 1 }
    ∧ ({ init with nflag := true, exitstatus := 1 } : State).funcs = []
    ∧ ({ init with nflag := true, exitstatus := 1 } : State).exitstatus ≠ 0
    ∧ evaltree sh 3 defunF EV_NONE init
        = .ok () { init with funcs := [("f", cmd ["true"])]
                             trace := [.evaltree (.NDEFUN "f" (cmd ["true"]) 1) EV_NONE 0 0,
                                       .defun "f" (cmd ["true"]) 1] } := by
  refine ⟨rfl, rfl, by decide, rfl⟩

/-- **C4, amended.** With `nflag` on, `evaltree` on any node, `NDEFUN`
included, goes straight to `out2`: it executes no command, registers no
function and leaves `exitstatus` as it is; when no signal is pending the state
is returned unchanged (or `EXEXIT` is raised on it under `EV_EXIT`). -/
theorem evaltree_noexec (W : World) (fuel : Nat) (n : Option Node) (flags : Flags) (s : State)
    (hn : s.nflag = true) :
    evaltree W (fuel + 1) n flags s = evaltree_out2 W flags false s
    ∧ (s.pendingsigs = false → flags.exit = false →
        evaltree W (fuel + 1) n flags s = .ok () s)
    ∧ (s.pendingsigs = false → flags.exit = true →
        evaltree W (fuel + 1) n flags s = .raise .EXEXIT s) := by
  have h1 : evaltree W (fuel + 1) n flags s = evaltree_out2 W flags false s := by
    cases n with
    | none => simp [evaltree, hn]
    | some n => simp [evaltree, hn]
  refine ⟨h1, ?_, ?_⟩
  · intro hp he
    rw [h1]
    simp [evaltree_out2, evaltree_traps, hp, he, Res.bind]
  · intro hp he
    rw [h1]
    simp [evaltree_out2, evaltree_traps, hp, he, Res.bind, exraise]

/-- A run of C4: under `-n` the command `echo a` is not executed. -/
theorem evaltree_noexec_witness :
    evaltree sh 3 (cmd ["echo", "a"]) EV_NONE { init with nflag := true }
      = .ok () { init with nflag := true } :=
  (evaltree_noexec sh 2 (cmd ["echo", "a"]) EV_NONE { init with nflag := true } rfl).2.1 rfl rfl

/-- A normal return of `x.bind f` where `f` returns the constant `c`. -/
theorem bind_const_ok {α β : Type} (x : Res α) (c d : β) (s1 : State)
    (h : (x.bind fun _ s => Res.ok c s) = .ok d s1) : d = c := by
  cases x <;> simp [Res.bind] at h
  exact h.1.symm

/-- The value of `do_etest` after the `switch`: `!(flags & EV_TESTED)` after
`NCMD`, `NPIPE` and `NSUBSHELL`, false after `NBACKGND`. -/
theorem evaltree_do_etest (W : World) (ev : Eval) (fuel : Nat) (n : Node) (flags : Flags)
    (s s1 : State) (d : Bool) (h : evaltree_do W ev fuel n flags s = .ok d s1) :
    (n.etests = true → d = !flags.tested) ∧ (n.isNBACKGND = true → d = false) := by
  cases fuel with
  | zero => simp [evaltree_do] at h
  | succ k =>
    cases n <;> simp only [Node.etests, Node.isNBACKGND] <;>
      refine ⟨fun h1 => ?_, fun h2 => ?_⟩ <;>
      first
        | exact absurd h1 (by decide)
        | exact absurd h2 (by decide)
        | skip
    all_goals
      simp only [evaltree_do] at h
      generalize evaltree_free_traps W _ _ = x at h
      cases x <;> simp only [Res.bind] at h <;> try exact absurd h (by simp)
      exact bind_const_ok _ _ _ _ h

/-- **C3.** After the `switch` has returned from a `NCMD`, `NPIPE` or
`NSUBSHELL` node (state `s1`) and the pending traps have run (state `s2`):
with `EV_TESTED` not set, `eflag` on and `exitstatus = st ≠ 0`, `evaltree`
ends the process through `exitshell(st)`, so it does not return to whatever
follows the node; with `exitstatus = 0`, or `EV_TESTED` set, or on a
`NBACKGND` node (or `eflag` off), it does not take this exit: it returns
(raises `EXEXIT` under `EV_EXIT`). -/
theorem evaltree_eflag (W : World) (fuel : Nat) (n : Node) (flags : Flags) (s s1 s2 : State)
    (d : Bool) (hn : n.etests = true ∨ n.isNBACKGND = true) (hnf : s.nflag = false)
    (hdo : evaltree_do W (evaltree W fuel) fuel n flags s = .ok d s1)
    (htr : evaltree_traps W s1 = .ok () s2) :
    (n.etests = true → flags.tested = false → s2.eflag = true → s2.exitstatus ≠ 0 →
        evaltree W (fuel + 1) (some n) flags s =
          .gone .eflag s2.exitstatus (s2.log (.exitshell s2.exitstatus)))
    ∧ (s2.exitstatus = 0 ∨ flags.tested = true ∨ n.isNBACKGND = true ∨ s2.eflag = false →
        evaltree W (fuel + 1) (some n) flags s =
          if flags.exit then .raise .EXEXIT s2 else .ok () s2) := by
  have hd := evaltree_do_etest W _ fuel n flags s s1 d hdo
  have h1 : evaltree W (fuel + 1) (some n) flags s = evaltree_out2 W flags d s1 := by
    simp [evaltree, hnf, hdo, Res.bind]
  constructor
  · intro he ht hef hst
    rw [h1, hd.1 he]
    simp [evaltree_out2, htr, Res.bind, hef, hst, ht, exitshell, State.log]
  · intro hc
    rw [h1]
    have hno : ¬ (s2.eflag = true ∧ s2.exitstatus ≠ 0 ∧ d = true) := by
      rintro ⟨h2, h3, h4⟩
      rcases hc with hc | hc | hc | hc
      · exact h3 hc
      · rcases hn with hn | hn
        · rw [hd.1 hn, hc] at h4; exact absurd h4 (by decide)
        · rw [hd.2 hn] at h4; exact absurd h4 (by decide)
      · rw [hd.2 hc] at h4; exact absurd h4 (by decide)
      · rw [hc] at h2; exact absurd h2 (by decide)
    simp only [evaltree_out2, htr, Res.bind]
    rw [if_neg hno]
    rfl

/-- A run of C3: under `-e` the command `false` ends the shell with status 1. -/
theorem evaltree_eflag_witness :
    evaltree sh 3 (cmd ["false"]) EV_NONE { init with eflag := true } =
      .gone .eflag 1
        { init with eflag := true, exitstatus := 1
                    trace := [.evaltree (.NCMD false ["false"] []) EV_NONE 0 0,
                              .expandarg "false" .FULL_TILDE, .redirect [] true,
                              .listsetvar [] true, .builtin .falsecmd ["false"],
                              .popredir, .exitshell 1] } :=
  (evaltree_eflag sh 2 (.NCMD false ["false"] []) EV_NONE { init with eflag := true }
    { init with eflag := true, exitstatus := 1
                trace := [.evaltree (.NCMD false ["false"] []) EV_NONE 0 0,
                          .expandarg "false" .FULL_TILDE, .redirect [] true,
                          .listsetvar [] true, .builtin .falsecmd ["false"], .popredir] }
    { init with eflag := true, exitstatus := 1
                trace := [.evaltree (.NCMD false ["false"] []) EV_NONE 0 0,
                          .expandarg "false" .FULL_TILDE, .redirect [] true,
                          .listsetvar [] true, .builtin .falsecmd ["false"], .popredir] }
    true (Or.inl rfl) rfl rfl rfl).1 rfl rfl rfl (by decide)

/-! ## `evalloop` -/

/-- The block `skipping` by cases of `evalskip`. -/
theorem evalloop_skipping_cases (status : Int) (s : State) :
    evalloop_skipping status s =
      match s.evalskip with
      | .SKIPCONT =>
        if s.skipcount - 1 ≤ 0 then
          (.again, status, { s with evalskip := .SKIPNONE, skipcount := s.skipcount - 1 })
        else (.leave, status, { s with skipcount := s.skipcount - 1 })
      | .SKIPBREAK =>
        if s.skipcount - 1 ≤ 0 then
          (.leave, status, { s with evalskip := .SKIPNONE, skipcount := s.skipcount - 1 })
        else (.leave, status, { s with skipcount := s.skipcount - 1 })
      | .SKIPFUNC => (.leave, s.exitstatus, s)
      | .SKIPFILE => (.leave, s.exitstatus, s)
      | .SKIPNONE => (.leave, status, s) := by
  unfold evalloop_skipping
  cases h : s.evalskip <;> simp [h] <;> (split <;> simp_all)

/-- The block `skipping` leaves `nflag` and `exitstatus` alone, passes
`status` on when the loop goes on, and on the way out replaces `status` by
`exitstatus` exactly when the skip left pending is `SKIPFUNC` or `SKIPFILE`. -/
theorem evalloop_skipping_spec (status : Int) (s : State) :
    (evalloop_skipping status s).2.2.nflag = s.nflag
    ∧ (evalloop_skipping status s).2.2.exitstatus = s.exitstatus
    ∧ ((evalloop_skipping status s).1 = .again → (evalloop_skipping status s).2.1 = status)
    ∧ ((evalloop_skipping status s).1 = .leave →
        (evalloop_skipping status s).2.1 =
          if (evalloop_skipping status s).2.2.evalskip = .SKIPFUNC
              ∨ (evalloop_skipping status s).2.2.evalskip = .SKIPFILE
          then (evalloop_skipping status s).2.2.exitstatus else status) := by
  rw [evalloop_skipping_cases]
  cases h : s.evalskip <;> simp [h] <;> split <;> simp [h]

/-- The invariant of the `for (;;)` of `evalloop`: if `status` is the last
body status on entry, then on the way out it is `exitstatus` when a
`SKIPFUNC`/`SKIPFILE` skip ends the loop (with `nflag` off), and the last body
status otherwise. -/
theorem evalloop_for_status (ev : Eval) (isWhile : Bool) (ch1 ch2 : Option Node)
    (flags : Flags) (fuel : Nat) :
    ∀ (status : Int) (bodies : List Int) (s : State) (r : Int × List Int) (s1 : State),
      status = lastBodyStatus bodies →
      evalloop_for ev isWhile ch1 ch2 flags fuel status bodies s = .ok r s1 →
      r.1 = if s1.nflag = false ∧ (s1.evalskip = .SKIPFUNC ∨ s1.evalskip = .SKIPFILE)
               then s1.exitstatus else lastBodyStatus r.2 := by
  induction fuel with
  | zero => intro status bodies s r s1 _ h; simp [evalloop_for] at h
  | succ k ih =>
    intro status bodies s r s1 hst h
    have hskip : ∀ (st : Int) (bd : List Int) (sa : State), st = lastBodyStatus bd →
        (sa.nflag = false ∨ st = sa.exitstatus) →
        (match evalloop_skipping st sa with
          | (.again, st1, sb) => evalloop_for ev isWhile ch1 ch2 flags k st1 bd sb
          | (.leave, st1, sb) => Res.ok (st1, bd) sb) = .ok r s1 →
        r.1 = if s1.nflag = false ∧ (s1.evalskip = .SKIPFUNC ∨ s1.evalskip = .SKIPFILE)
               then s1.exitstatus else lastBodyStatus r.2 := by
      intro st bd sa hst1 hor hm
      have hsp := evalloop_skipping_spec st sa
      generalize evalloop_skipping st sa = q at hm hsp
      obtain ⟨c, st1, sb⟩ := q
      cases c with
      | again =>
        simp only at hm hsp
        have : st1 = st := hsp.2.2.1 trivial
        subst this
        exact ih _ _ _ _ _ hst1 hm
      | leave =>
        simp only at hm hsp
        simp only [Res.ok.injEq] at hm
        obtain ⟨hr, hs⟩ := hm
        subst hs
        subst hr
        have h3 := hsp.2.2.2 trivial
        show st1 = _
        rw [h3]
        by_cases hsk : sb.evalskip = .SKIPFUNC ∨ sb.evalskip = .SKIPFILE
        · rw [if_pos hsk]
          by_cases hn : sb.nflag = false
          · rw [if_pos ⟨hn, hsk⟩]
          · rw [if_neg (fun hh => hn hh.1)]
            rcases hor with hor | hor
            · rw [hsp.1] at hn; exact absurd hor hn
            · rw [hsp.2.1, ← hor, hst1]
        · rw [if_neg hsk, if_neg (fun hh => hsk hh.2)]
          exact hst1
    simp only [evalloop_for] at h
    generalize ev ch1 EV_TESTED s = x at h
    cases x with
    | raise e sa => simp [Res.bind] at h
    | gone g st sa => simp [Res.bind] at h
    | timeout => simp [Res.bind] at h
    | ok u sa =>
      simp only [Res.bind] at h
      by_cases hnf : sa.nflag = true
      · simp only [hnf, if_true, Res.ok.injEq] at h
        obtain ⟨hr, hs⟩ := h
        subst hs
        subst hr
        simp [hnf, hst]
      · have hnf0 : sa.nflag = false := by simpa using hnf
        simp only [hnf0, Bool.false_eq_true, if_false] at h
        by_cases hsk : sa.evalskip ≠ .SKIPNONE
        · rw [if_pos hsk] at h
          exact hskip _ _ _ hst (Or.inl hnf0) h
        · rw [if_neg hsk] at h
          have hsk0 : sa.evalskip = .SKIPNONE := by simpa using hsk
          by_cases hx : (if isWhile = true then sa.exitstatus ≠ 0 else sa.exitstatus = 0)
          · rw [if_pos hx] at h
            simp only [Res.ok.injEq] at h
            obtain ⟨hr, hs⟩ := h
            subst hs
            subst hr
            simp [hsk0, hst]
          · rw [if_neg hx] at h
            generalize ev ch2 flags.onlyTested sa = y at h
            cases y with
            | raise e sb => simp [Res.bind] at h
            | gone g st sb => simp [Res.bind] at h
            | timeout => simp [Res.bind] at h
            | ok u2 sb =>
              simp only [Res.bind] at h
              have hlast : sb.exitstatus = lastBodyStatus (bodies ++ [sb.exitstatus]) := by
                simp [lastBodyStatus]
              by_cases hsk2 : sb.evalskip ≠ .SKIPNONE
              · rw [if_pos hsk2] at h
                exact hskip _ _ _ hlast (Or.inr rfl) h
              · rw [if_neg hsk2] at h
                exact ih _ _ _ _ _ hlast h

/-- **C10, as the claim states it, fails.** Inside a function, the loop
`while return 3; do true; done` ends on the `SKIPFUNC` skip raised in its
condition: the body is evaluated zero times (the last body status is 0) and
`evalloop` returns with `exitstatus = 3`. -/
theorem evalloop_status_counterexample :
    (evalloop_for (evaltree sh 5) true (cmd ["return", "3"]) (cmd ["true"]) EV_NONE 5 0 []
        { inF with loopnest := 1 }).value? = some (3, [])
    ∧ lastBodyStatus [] = 0
    ∧ (evalloop (evaltree sh 5) 5 true (cmd ["return", "3"]) (cmd ["true"]) EV_NONE
        inF).state?.map State.exitstatus = some 3
    ∧ (evaltree sh 9 whileReturn3 EV_NONE init).summary = .returned 3 [["return", "3"]] := by
  refine ⟨by decide, by decide, by decide, by decide⟩

/-- **C10, amended.** When `evalloop` returns, `exitstatus` equals the status
left by the last evaluation of the loop body, or 0 if the body was evaluated
zero times, unless the loop is left on a `SKIPFUNC` or `SKIPFILE` skip (with
`nflag` off): then `exitstatus` is the status left by the evaluation, of the
condition or of the body, that raised the skip.  Here `s1` is the state in
which the `for (;;)` is left and `bodies` the statuses of the body
evaluations. -/
theorem evalloop_status (ev : Eval) (isWhile : Bool) (ch1 ch2 : Option Node) (flags : Flags)
    (fuel : Nat) (s sf : State)
    (h : evalloop ev fuel isWhile ch1 ch2 flags s = .ok () sf) :
    ∃ bodies s1,
      evalloop_for ev isWhile ch1 ch2 flags fuel 0 [] { s with loopnest := s.loopnest + 1 }
        = .ok (sf.exitstatus, bodies) s1
      ∧ sf = { s1 with loopnest := s1.loopnest - 1, exitstatus := sf.exitstatus }
      ∧ sf.exitstatus =
          if s1.nflag = false ∧ (s1.evalskip = .SKIPFUNC ∨ s1.evalskip = .SKIPFILE)
          then s1.exitstatus else lastBodyStatus bodies := by
  unfold evalloop at h
  generalize hx : evalloop_for ev isWhile ch1 ch2 flags fuel 0 []
    { s with loopnest := s.loopnest + 1 } = x at h
  cases x with
  | raise e sa => simp [Res.bind] at h
  | gone g st sa => simp [Res.bind] at h
  | timeout => simp [Res.bind] at h
  | ok r s1 =>
    simp only [Res.bind, Res.ok.injEq, true_and] at h
    subst h
    exact ⟨r.2, s1, rfl, rfl, evalloop_for_status ev isWhile ch1 ch2 flags fuel 0 [] _ r s1 rfl hx⟩

/-- A run of C10: `while true; do break; done` returns with the status the one
evaluation of its body left. -/
theorem evalloop_status_witness :
    ∃ bodies s1,
      evalloop_for (evaltree sh 5) true (cmd ["true"]) (cmd ["break"]) EV_NONE 5 0 []
          { init with loopnest := init.loopnest + 1 } = .ok (loopSf.exitstatus, bodies) s1
      ∧ loopSf = { s1 with loopnest := s1.loopnest - 1, exitstatus := loopSf.exitstatus }
      ∧ loopSf.exitstatus =
          if s1.nflag = false ∧ (s1.evalskip = .SKIPFUNC ∨ s1.evalskip = .SKIPFILE)
          then s1.exitstatus else lastBodyStatus bodies :=
  evalloop_status (evaltree sh 5) true (cmd ["true"]) (cmd ["break"]) EV_NONE 5 init loopSf rfl

/-! ## Function calls -/

/-- The nesting check of a function call: with `funcnest ≤ 999` before the
call the body is evaluated with `funcnest` one higher; with `funcnest ≥ 1000`
the error "too many nested function calls" is raised and the body is not
evaluated. -/
theorem evalcommand_funcbody_cap (W : World) (ev : Eval) (func : Option Node)
    (varlist : List String) (flags : Flags) (s s1 : State)
    (hl : call (.listmklocal varlist) (W.listmklocal varlist) s = .ok () s1) :
    (s1.funcnest ≤ 999 →
      evalcommand_funcbody W ev func varlist flags s =
        (ev func flags.testedExit { s1 with funcnest := s1.funcnest + 1 }).bind
          fun _ s => .ok () { s with funcnest := s.funcnest - 1 })
    ∧ (1000 ≤ s1.funcnest →
      evalcommand_funcbody W ev func varlist flags s =
        .raise .EXERROR ({ s1 with funcnest := s1.funcnest + 1 }.log
          (.error "too many nested function calls"))) := by
  constructor
  · intro h
    simp only [evalcommand_funcbody, hl, Res.bind]
    rw [if_neg (by simp only [gt_iff_lt, not_lt]; omega)]
  · intro h
    simp only [evalcommand_funcbody, hl, Res.bind]
    rw [if_pos (by simp only [gt_iff_lt]; omega)]
    rfl

/-- A function call without `EV_EXIT` whose body returns normally in the state
`sb`: `evalcommand` returns with `funcnest` one less than the body left it,
the exit status of the body, the skip state `(SKIPNONE, 0)` if the body ended
with `SKIPFUNC`, and any other skip state untouched. -/
theorem evalcommand_function_return (W : World) (ev : Eval) (func : Option Node)
    (redir : List Redir) (varlist : List String) (flags : Flags) (s s0 s1 sb : State)
    (hex : flags.exit = false)
    (hr : redirect W redir true s = .ok () s0)
    (hl : call (.listmklocal varlist) (W.listmklocal varlist)
            { s0 with handler := s0.handler + 1 } = .ok () s1)
    (hcap : s1.funcnest ≤ 999)
    (hb : ev func flags.testedExit { s1 with funcnest := s1.funcnest + 1 } = .ok () sb) :
    ∃ sf, evalcommand_function W ev func redir varlist flags s = .ok () sf
      ∧ sf.funcnest = sb.funcnest - 1
      ∧ sf.exitstatus = sb.exitstatus
      ∧ (sb.evalskip = .SKIPFUNC → sf.skip = (.SKIPNONE, 0))
      ∧ (sb.evalskip ≠ .SKIPFUNC → sf.skip = sb.skip) := by
  have hbody := (evalcommand_funcbody_cap W ev func varlist flags _ s1 hl).1 hcap
  rw [hb] at hbody
  simp only [Res.bind] at hbody
  have hres : evalcommand_function W ev func redir varlist flags s =
      .ok () (if sb.evalskip = .SKIPFUNC then
        { popredir { sb with funcnest := sb.funcnest - 1, handler := s0.handler } with
            evalskip := .SKIPNONE, skipcount := 0 }
        else popredir { sb with funcnest := sb.funcnest - 1, handler := s0.handler }) := by
    simp only [evalcommand_function, hex, Bool.not_false, Bool.true_or, hr, Res.bind, hbody,
      if_true, Bool.false_eq_true, if_false]
    by_cases hsk : sb.evalskip = .SKIPFUNC
    · simp [popredir, State.log, hsk]
    · simp [popredir, State.log, hsk]
  refine ⟨_, hres, ?_, ?_, ?_, ?_⟩
  · split <;> rfl
  · split <;> rfl
  · intro h; rw [if_pos h]; rfl
  · intro h; rw [if_neg h]; rfl

/-- **C8: the code at the failing input.** In
`h() { break 0; }; f() { command eval h; }; f` the body of `f` returns
normally (the `EXERROR` of `break 0` leaves `h` through the exception path of
`case CMDFUNCTION`, which does not undo `++funcnest`, and is caught by the
regular builtin `command eval`), and `evalcommand` returns from the call of
`f` with `funcnest = 1`, having been entered with `funcnest = 0`. -/
theorem funcnest_leak :
    leakDefs.funcnest = 0
    ∧ (evalcommand sh (evaltree sh 11) 11 (.NCMD false ["f"] []) false ["f"] [] EV_NONE
        leakDefs).state?.map State.funcnest = some 1
    ∧ (evalcommand sh (evaltree sh 11) 11 (.NCMD false ["f"] []) false ["f"] [] EV_NONE
        leakDefs).summary = .returned 2 [["eval", "h"], ["break", "0"]]
    ∧ (evaltree sh 12 leakScript EV_NONE init).state?.map State.funcnest = some 1 := by
  refine ⟨rfl, by decide, by decide, by decide⟩

/-- **C9: the code at the failing input.** `f` is called at `funcnest = 999`,
so its body is evaluated with `funcnest = 1000`; the call of `g` inside
`command eval g` hits the cap (the body of `g` is not evaluated), the error is
caught by the regular builtin, `funcnest` stays 1001, and the rest of the body
of `f`, `echo probe`, is evaluated with `funcnest = 1001`. -/
theorem funcnest_exceeds_cap :
    (evaltree sh 12 (cmd ["f"]) EV_NONE capDefs).state?.map (fun s => dispatches s.trace)
      = some [(["f"], 999), (["command", "eval", "g"], 1000), (["g"], 1000),
              (["echo", "probe"], 1001)]
    ∧ (evaltree sh 12 (cmd ["f"]) EV_NONE capDefs).summary
      = .returned 0 [["eval", "g"], ["echo", "probe"]] := by
  refine ⟨by decide, by decide⟩

/-! ## Exit-on-error masking under `EV_TESTED` -/

/-- A normal return is not the `-e` exit. -/
theorem viaEflag_ok {α : Type} (a : α) (s : State) : (Res.ok a s).viaEflag = false := rfl

/-- The `-e` exit is a `gone` at the site `eflag`. -/
theorem viaEflag_gone {α : Type} (g : ExitSite) (st : Int) (s : State) :
    (Res.gone g st s : Res α).viaEflag = decide (g = .eflag) := by
  cases g <;> rfl

/-- An exit taken at some site is the `-e` exit or not whatever the type of
the result. -/
theorem viaEflag_gone_cast {α β : Type} (g : ExitSite) (st : Int) (s : State)
    (h : (Res.gone g st s : Res α).viaEflag = false) :
    (Res.gone g st s : Res β).viaEflag = false := by
  rw [viaEflag_gone] at h
  rw [viaEflag_gone]
  exact h

/-- A sequence does not take the `-e` exit if neither part does. -/
theorem viaEflag_bind_of {α β : Type} (x : Res α) (f : α → State → Res β)
    (hx : x.viaEflag = false) (hf : ∀ a s, (f a s).viaEflag = false) :
    (x.bind f).viaEflag = false := by
  cases x with
  | ok a s => exact hf a s
  | raise e s => rfl
  | gone g st s => exact viaEflag_gone_cast g st s hx
  | timeout => rfl

/-- A call that leaves `eval.c` is not the `-e` exit (its `exitshell` is
tagged `external`). -/
theorem viaEflag_call {α : Type} (ev : Ev) (f : State → Ext α) (s : State) :
    (call ev f s).viaEflag = false := by
  unfold call
  split <;> rfl

/-- `redirect` does not take the `-e` exit. -/
theorem viaEflag_redirect (W : World) (r : List Redir) (p : Bool) (s : State) :
    (redirect W r p s).viaEflag = false :=
  viaEflag_call _ _ _

/-- `expandargs` does not take the `-e` exit. -/
theorem viaEflag_expandargs (W : World) (fl : ExpFlags) (ws : List Word) :
    ∀ s, (expandargs W fl ws s).viaEflag = false := by
  induction ws with
  | nil => intro s; rfl
  | cons w ws ih =>
    intro s
    unfold expandargs
    repeat' first
      | rfl
      | assumption
      | exact viaEflag_call _ _ _
      | exact ih _
      | refine viaEflag_bind_of _ _ ?_ (fun _ _ => ?_)
      | split
      | dsimp only

/-- `expredir` does not take the `-e` exit. -/
theorem viaEflag_expredir (W : World) (rs : List Redir) :
    ∀ s, (expredir W rs s).viaEflag = false := by
  induction rs with
  | nil => intro s; rfl
  | cons r rs ih =>
    intro s
    unfold expredir
    repeat' first
      | rfl
      | assumption
      | exact viaEflag_call _ _ _
      | exact ih _
      | refine viaEflag_bind_of _ _ ?_ (fun _ _ => ?_)
      | split
      | dsimp only

/-- The end of `evaltree` with `do_etest` false does not take the `-e` exit. -/
theorem viaEflag_out2 (W : World) (flags : Flags) (s : State) :
    (evaltree_out2 W flags false s).viaEflag = false := by
  unfold evaltree_out2 evaltree_traps
  refine viaEflag_bind_of _ _ ?_ (fun _ s1 => ?_)
  · split
    · exact viaEflag_call _ _ _
    · rfl
  · rw [if_neg (by simp)]
    split <;> rfl

/-- `evalloop_for` does not take the `-e` exit under `EV_TESTED`. -/
theorem viaEflag_evalloop_for (ev : Eval) (hev : TestedSafe ev) (isWhile : Bool)
    (ch1 ch2 : Option Node) (flags : Flags) (hfl : flags.tested = true) (fuel : Nat) :
    ∀ status bodies s,
      (evalloop_for ev isWhile ch1 ch2 flags fuel status bodies s).viaEflag = false := by
  induction fuel with
  | zero => intro status bodies s; rfl
  | succ k ih =>
    intro status bodies s
    unfold evalloop_for
    repeat' first
      | rfl
      | assumption
      | exact viaEflag_call _ _ _
      | exact hev _ _ _ hfl
      | exact hev _ _ _ rfl
      | exact ih _ _ _
      | refine viaEflag_bind_of _ _ ?_ (fun _ _ => ?_)
      | split
      | dsimp only

/-- `evalloop` does not take the `-e` exit under `EV_TESTED`. -/
theorem viaEflag_evalloop (ev : Eval) (hev : TestedSafe ev) (fuel : Nat) (isWhile : Bool)
    (ch1 ch2 : Option Node) (flags : Flags) (hfl : flags.tested = true) (s : State) :
    (evalloop ev fuel isWhile ch1 ch2 flags s).viaEflag = false := by
  unfold evalloop
  repeat' first
    | rfl
    | assumption
    | exact viaEflag_call _ _ _
    | exact viaEflag_evalloop_for ev hev _ _ _ _ hfl _ _ _ _
    | refine viaEflag_bind_of _ _ ?_ (fun _ _ => ?_)
    | split
    | dsimp only

/-- `evalfor_expand` does not take the `-e` exit. -/
theorem viaEflag_evalfor_expand (W : World) (ws : List Word) :
    ∀ s, (evalfor_expand W ws s).viaEflag = false := by
  induction ws with
  | nil => intro s; rfl
  | cons w ws ih =>
    intro s
    unfold evalfor_expand
    repeat' first
      | rfl
      | assumption
      | exact viaEflag_call _ _ _
      | exact ih _
      | refine viaEflag_bind_of _ _ ?_ (fun _ _ => ?_)
      | split
      | dsimp only

/-- `evalfor_loop` does not take the `-e` exit under `EV_TESTED`. -/
theorem viaEflag_evalfor_loop (W : World) (ev : Eval) (hev : TestedSafe ev) (var : String)
    (body : Option Node) (flags : Flags) (hfl : flags.tested = true) (ws : List String) :
    ∀ status s, (evalfor_loop W ev var body flags ws status s).viaEflag = false := by
  induction ws with
  | nil => intro status s; rfl
  | cons w ws ih =>
    intro status s
    unfold evalfor_loop
    repeat' first
      | rfl
      | assumption
      | exact viaEflag_call _ _ _
      | exact hev _ _ _ hfl
      | exact hev _ _ _ rfl
      | exact ih _ _
      | refine viaEflag_bind_of _ _ ?_ (fun _ _ => ?_)
      | split
      | dsimp only

/-- `evalfor` does not take the `-e` exit under `EV_TESTED`. -/
theorem viaEflag_evalfor (W : World) (ev : Eval) (hev : TestedSafe ev) (args : List Word)
    (body : Option Node) (var : String) (flags : Flags) (hfl : flags.tested = true)
    (s : State) : (evalfor W ev args body var flags s).viaEflag = false := by
  unfold evalfor
  repeat' first
    | rfl
    | assumption
    | exact viaEflag_call _ _ _
    | exact viaEflag_evalfor_expand W _ _
    | exact viaEflag_evalfor_loop W ev hev _ _ _ hfl _ _ _
    | refine viaEflag_bind_of _ _ ?_ (fun _ _ => ?_)
    | split
    | dsimp only

/-- `evalcase_bodies` does not take the `-e` exit under `EV_TESTED`. -/
theorem viaEflag_evalcase_bodies (ev : Eval) (hev : TestedSafe ev) (flags : Flags)
    (hfl : flags.tested = true) (items : List (Bool × List Word × Option Node)) :
    ∀ status s, (evalcase_bodies ev flags items status s).viaEflag = false := by
  induction items with
  | nil => intro status s; rfl
  | cons item rest ih =>
    intro status s
    obtain ⟨cont, pats, body⟩ := item
    unfold evalcase_bodies
    repeat' first
      | rfl
      | assumption
      | exact viaEflag_call _ _ _
      | exact hev _ _ _ hfl
      | exact hev _ _ _ rfl
      | exact ih _ _
      | refine viaEflag_bind_of _ _ ?_ (fun _ _ => ?_)
      | split
      | dsimp only

/-- `evalcase_patterns` does not take the `-e` exit. -/
theorem viaEflag_evalcase_patterns (W : World) (text : String) (ps : List Word) :
    ∀ s, (evalcase_patterns W text ps s).viaEflag = false := by
  induction ps with
  | nil => intro s; rfl
  | cons p ps ih =>
    intro s
    unfold evalcase_patterns
    repeat' first
      | rfl
      | assumption
      | exact viaEflag_call _ _ _
      | exact ih _
      | refine viaEflag_bind_of _ _ ?_ (fun _ _ => ?_)
      | split
      | dsimp only

/-- `evalcase_items` does not take the `-e` exit under `EV_TESTED`. -/
theorem viaEflag_evalcase_items (W : World) (ev : Eval) (hev : TestedSafe ev) (flags : Flags)
    (hfl : flags.tested = true) (text : String)
    (items : List (Bool × List Word × Option Node)) :
    ∀ s, (evalcase_items W ev flags text items s).viaEflag = false := by
  induction items with
  | nil => intro s; rfl
  | cons item rest ih =>
    intro s
    unfold evalcase_items
    repeat' first
      | rfl
      | assumption
      | exact viaEflag_call _ _ _
      | exact ih _
      | exact viaEflag_evalcase_patterns W _ _ _
      | exact viaEflag_evalcase_bodies ev hev flags hfl _ _ _
      | refine viaEflag_bind_of _ _ ?_ (fun _ _ => ?_)
      | split
      | dsimp only

/-- `evalcase` does not take the `-e` exit under `EV_TESTED`. -/
theorem viaEflag_evalcase (W : World) (ev : Eval) (hev : TestedSafe ev) (expr : Word)
    (cases : List (Bool × List Word × Option Node)) (flags : Flags)
    (hfl : flags.tested = true) (s : State) :
    (evalcase W ev expr cases flags s).viaEflag = false := by
  unfold evalcase
  repeat' first
    | rfl
    | assumption
    | exact viaEflag_call _ _ _
    | exact viaEflag_evalcase_items W ev hev flags hfl _ _ _
    | refine viaEflag_bind_of _ _ ?_ (fun _ _ => ?_)
    | split
    | dsimp only

/-- `evalsubshell` does not take the `-e` exit under `EV_TESTED`. -/
theorem viaEflag_evalsubshell (W : World) (ev : Eval) (hev : TestedSafe ev) (n : Node)
    (backgnd : Bool) (child : Option Node) (redir : List Redir) (flags : Flags)
    (hfl : flags.tested = true) (s : State) :
    (evalsubshell W ev n backgnd child redir flags s).viaEflag = false := by
  unfold evalsubshell
  repeat' first
    | rfl
    | assumption
    | exact viaEflag_call _ _ _
    | exact hev _ _ _ hfl
    | exact hev _ _ _ rfl
    | exact viaEflag_expredir W _ _
    | exact viaEflag_redirect W _ _ _
    | refine viaEflag_bind_of _ _ ?_ (fun _ _ => ?_)
    | split
    | dsimp only

/-- `evalredir` does not take the `-e` exit under `EV_TESTED`. -/
theorem viaEflag_evalredir (W : World) (ev : Eval) (hev : TestedSafe ev)
    (child : Option Node) (redir : List Redir) (flags : Flags)
    (hfl : flags.tested = true) (s : State) :
    (evalredir W ev child redir flags s).viaEflag = false := by
  unfold evalredir
  refine viaEflag_bind_of _ _ (viaEflag_expredir W redir s) (fun _ s1 => ?_)
  have h1 := viaEflag_redirect W redir true { s1 with handler := s.handler + 1 }
  generalize redirect W redir true { s1 with handler := s.handler + 1 } = x at h1
  cases x with
  | raise e s2 =>
    dsimp only
    split <;> rfl
  | ok u s2 =>
    dsimp only
    have h2 := hev child flags s2 hfl
    generalize ev child flags s2 = y at h2
    cases y with
    | raise e s3 => rfl
    | ok u s3 => rfl
    | gone g st s3 => exact h2
    | timeout => rfl
  | gone g st s2 => exact h1
  | timeout => rfl

/-- `evalpipe_forks` does not take the `-e` exit. -/
theorem viaEflag_evalpipe_forks (W : World) (backgnd : Bool) (cs : List Node) :
    ∀ s, (evalpipe_forks W backgnd cs s).viaEflag = false := by
  induction cs with
  | nil => intro s; rfl
  | cons c cs ih =>
    intro s
    unfold evalpipe_forks
    repeat' first
      | rfl
      | assumption
      | exact viaEflag_call _ _ _
      | exact ih _
      | refine viaEflag_bind_of _ _ ?_ (fun _ _ => ?_)
      | split
      | dsimp only

/-- `evalpipe` does not take the `-e` exit. -/
theorem viaEflag_evalpipe (W : World) (n : Node) (backgnd : Bool) (cmdlist : List Node)
    (s : State) : (evalpipe W n backgnd cmdlist s).viaEflag = false := by
  unfold evalpipe
  repeat' first
    | rfl
    | assumption
    | exact viaEflag_call _ _ _
    | exact viaEflag_evalpipe_forks W _ _ _
    | refine viaEflag_bind_of _ _ ?_ (fun _ _ => ?_)
    | split
    | dsimp only

/-- `evalstring_loop` does not take the `-e` exit under `EV_TESTED`. -/
theorem viaEflag_evalstring_loop (W : World) (ev : Eval) (hev : TestedSafe ev) (last : Bool)
    (flag : Flags) (hfl : flag.tested = true) (fuel : Nat) :
    ∀ input any s, (evalstring_loop W ev last flag fuel input any s).viaEflag = false := by
  induction fuel with
  | zero => intro input any s; rfl
  | succ k ih =>
    intro input any s
    unfold evalstring_loop
    repeat' first
      | rfl
      | assumption
      | exact viaEflag_call _ _ _
      | exact hev _ _ _ hfl
      | exact hev _ _ _ rfl
      | exact ih _ _ _
      | refine viaEflag_bind_of _ _ ?_ (fun _ _ => ?_)
      | split
      | dsimp only

/-- `evalstring` does not take the `-e` exit under `EV_TESTED`. -/
theorem viaEflag_evalstring (W : World) (ev : Eval) (hev : TestedSafe ev) (fuel : Nat)
    (str : String) (flag : Flags) (hfl : flag.tested = true) (s : State) :
    (evalstring W ev fuel str flag s).viaEflag = false := by
  unfold evalstring
  repeat' first
    | rfl
    | assumption
    | exact viaEflag_call _ _ _
    | exact viaEflag_evalstring_loop W ev hev _ flag.clearExit hfl fuel _ _ _
    | refine viaEflag_bind_of _ _ ?_ (fun _ _ => ?_)
    | split
    | dsimp only

/-- `evalcmd` does not take the `-e` exit when `builtin_flags` has `EV_TESTED`. -/
theorem viaEflag_evalcmd (W : World) (ev : Eval) (hev : TestedSafe ev) (fuel : Nat)
    (argv : List String) (s : State) (hb : s.builtin_flags.tested = true) :
    (evalcmd W ev fuel argv s).viaEflag = false := by
  unfold evalcmd
  repeat' first
    | rfl
    | assumption
    | exact viaEflag_call _ _ _
    | exact viaEflag_evalstring W ev hev fuel _ s.builtin_flags.onlyTested hb s
    | refine viaEflag_bind_of _ _ ?_ (fun _ _ => ?_)
    | split
    | dsimp only

/-- `operand` does not take the `-e` exit. -/
theorem viaEflag_operand (W : World) (argv : List String) (dflt : Int) (s : State) :
    (operand W argv dflt s).viaEflag = false := by
  unfold operand number
  repeat' first
    | rfl
    | assumption
    | exact viaEflag_call _ _ _
    | refine viaEflag_bind_of _ _ ?_ (fun _ _ => ?_)
    | split
    | dsimp only

/-- `breakcmd` does not take the `-e` exit. -/
theorem viaEflag_breakcmd (W : World) (argv : List String) (s : State) :
    (breakcmd W argv s).viaEflag = false := by
  unfold breakcmd
  repeat' first
    | rfl
    | assumption
    | exact viaEflag_call _ _ _
    | exact viaEflag_operand W _ _ _
    | refine viaEflag_bind_of _ _ ?_ (fun _ _ => ?_)
    | split
    | dsimp only

/-- `returncmd` does not take the `-e` exit. -/
theorem viaEflag_returncmd (W : World) (argv : List String) (s : State) :
    (returncmd W argv s).viaEflag = false := by
  unfold returncmd
  repeat' first
    | rfl
    | assumption
    | exact viaEflag_call _ _ _
    | exact viaEflag_operand W _ _ _
    | refine viaEflag_bind_of _ _ ?_ (fun _ _ => ?_)
    | split
    | dsimp only

/-- `shellexec` does not take the `-e` exit. -/
theorem viaEflag_shellexec {α : Type} (W : World) (argv : List String) (path : String)
    (s : State) : (shellexec W argv path s : Res α).viaEflag = false := by
  unfold shellexec
  have h := viaEflag_call (.shellexec argv) (W.shellexec argv path) s
  generalize call (.shellexec argv) (W.shellexec argv path) s = x at h
  cases x with
  | ok a s1 => rfl
  | raise e s1 => rfl
  | gone g st s1 => exact viaEflag_gone_cast g st s1 h
  | timeout => rfl

/-- `dotcmd` does not take the `-e` exit unless the dot script it reads does. -/
theorem viaEflag_dotcmd (W : World) (ev : Eval) (hdot : DotSafe W ev) (fuel : Nat)
    (argv : List String) (s : State) :
    (dotcmd W ev fuel argv s).viaEflag = false := by
  unfold dotcmd
  repeat' first
    | rfl
    | assumption
    | exact viaEflag_call _ _ _
    | exact hdot _ _ _
    | refine viaEflag_bind_of _ _ ?_ (fun _ _ => ?_)
    | split
    | dsimp only

/-- `execcmd` does not take the `-e` exit. -/
theorem viaEflag_execcmd (W : World) (argv : List String) (s : State) :
    (execcmd W argv s).viaEflag = false := by
  unfold execcmd
  repeat' first
    | rfl
    | assumption
    | exact viaEflag_call _ _ _
    | exact viaEflag_shellexec W _ _ _
    | refine viaEflag_bind_of _ _ ?_ (fun _ _ => ?_)
    | split
    | dsimp only

/-- `run_builtin` does not take the `-e` exit when `builtin_flags` has
`EV_TESTED`. -/
theorem viaEflag_run_builtin (W : World) (ev : Eval) (hev : TestedSafe ev)
    (hdot : DotSafe W ev) (fuel : Nat)
    (b : Bltin) (argv : List String) (s : State) (hb : s.builtin_flags.tested = true) :
    (run_builtin W ev fuel b argv s).viaEflag = false := by
  unfold run_builtin
  split
  · rfl
  · exact viaEflag_evalcmd W ev hev fuel argv _ hb
  · exact viaEflag_breakcmd W argv _
  · exact viaEflag_dotcmd W ev hdot fuel argv _
  · exact viaEflag_returncmd W argv _
  · rfl
  · rfl
  · exact viaEflag_execcmd W argv _
  · exact viaEflag_call _ _ _

/-- `evalcommand_parent` does not take the `-e` exit. -/
theorem viaEflag_evalcommand_parent (W : World) (cmd : Node) (backgnd : Bool) (flags : Flags)
    (s : State) : (evalcommand_parent W cmd backgnd flags s).viaEflag = false := by
  unfold evalcommand_parent
  repeat' first
    | rfl
    | assumption
    | exact viaEflag_call _ _ _
    | refine viaEflag_bind_of _ _ ?_ (fun _ _ => ?_)
    | split
    | dsimp only

/-- `evalcommand_funcbody` does not take the `-e` exit under `EV_TESTED`. -/
theorem viaEflag_evalcommand_funcbody (W : World) (ev : Eval) (hev : TestedSafe ev)
    (func : Option Node) (varlist : List String) (flags : Flags)
    (hfl : flags.tested = true) (s : State) :
    (evalcommand_funcbody W ev func varlist flags s).viaEflag = false := by
  unfold evalcommand_funcbody
  repeat' first
    | rfl
    | assumption
    | exact viaEflag_call _ _ _
    | exact hev _ _ _ hfl
    | exact hev _ _ _ rfl
    | refine viaEflag_bind_of _ _ ?_ (fun _ _ => ?_)
    | split
    | dsimp only

/-- `evalcommand_function` does not take the `-e` exit under `EV_TESTED`. -/
theorem viaEflag_evalcommand_function (W : World) (ev : Eval) (hev : TestedSafe ev)
    (func : Option Node) (redir : List Redir) (varlist : List String) (flags : Flags)
    (hfl : flags.tested = true) (s : State) :
    (evalcommand_function W ev func redir varlist flags s).viaEflag = false := by
  unfold evalcommand_function
  repeat' first
    | rfl
    | assumption
    | exact viaEflag_call _ _ _
    | exact viaEflag_redirect W _ _ _
    | exact viaEflag_evalcommand_funcbody W ev hev _ _ _ hfl _
    | refine viaEflag_bind_of _ _ ?_ (fun _ _ => ?_)
    | split
    | dsimp only

/-- `evalcommand_bltinend` does not take the `-e` exit if the guarded part did
not. -/
theorem viaEflag_evalcommand_bltinend (W : World) (bltin : Bltin) (cmdtype : CmdType)
    (flags : Flags) (savehandler : Nat) (r : Outcome) (h : r.viaEflag = false) :
    (evalcommand_bltinend W bltin cmdtype flags savehandler r).viaEflag = false := by
  cases r with
  | ok a s =>
    unfold evalcommand_bltinend
    dsimp only
    split <;> rfl
  | raise e s =>
    unfold evalcommand_bltinend
    dsimp only
    repeat' first
      | rfl
      | assumption
      | exact viaEflag_call _ _ _
      | refine viaEflag_bind_of _ _ ?_ (fun _ _ => ?_)
      | split
      | dsimp only
  | gone g st s => exact h
  | timeout => rfl

/-- The guarded part of the builtin case does not take the `-e` exit under
`EV_TESTED`. -/
theorem viaEflag_evalcommand_bltinbody (W : World) (ev : Eval) (hev : TestedSafe ev)
    (hdot : DotSafe W ev)
    (fuel : Nat) (ce : cmdentry) (argv varlist : List String) (redir : List Redir)
    (nofunc : Bool) (path : String × Bool) (flags : Flags) (hfl : flags.tested = true)
    (s : State) :
    (evalcommand_bltinbody W ev fuel ce argv varlist redir nofunc path flags s).1.viaEflag
      = false := by
  unfold evalcommand_bltinbody
  dsimp only
  split
  · dsimp only
    repeat' first
      | rfl
      | assumption
      | exact viaEflag_call _ _ _
      | exact viaEflag_run_builtin W ev hev hdot fuel _ _ _ hfl
      | refine viaEflag_bind_of _ _ ?_ (fun _ _ => ?_)
      | split
      | dsimp only
  · dsimp only
    repeat' first
      | rfl
      | assumption
      | exact viaEflag_call _ _ _
      | exact viaEflag_redirect W _ _ _
      | refine viaEflag_bind_of _ _ ?_ (fun _ _ => ?_)
      | split
      | dsimp only

/-- The builtin case of `evalcommand` does not take the `-e` exit under
`EV_TESTED`. -/
theorem viaEflag_evalcommand_builtin (W : World) (ev : Eval) (hev : TestedSafe ev)
    (hdot : DotSafe W ev)
    (fuel : Nat) (ce : cmdentry) (argv varlist : List String) (redir : List Redir)
    (nofunc : Bool) (path : String × Bool) (flags : Flags) (hfl : flags.tested = true)
    (s : State) :
    (evalcommand_builtin W ev fuel ce argv varlist redir nofunc path flags s).viaEflag
      = false := by
  unfold evalcommand_builtin
  exact viaEflag_evalcommand_bltinend W _ _ _ _ _
    (viaEflag_evalcommand_bltinbody W ev hev hdot fuel ce argv varlist redir nofunc path flags
      hfl _)

/-- `evalcommand_setvareqs` does not take the `-e` exit. -/
theorem viaEflag_evalcommand_setvareqs (W : World) (vs : List String) :
    ∀ s, (evalcommand_setvareqs W vs s).viaEflag = false := by
  induction vs with
  | nil => intro s; rfl
  | cons v vs ih =>
    intro s
    unfold evalcommand_setvareqs
    repeat' first
      | rfl
      | assumption
      | exact viaEflag_call _ _ _
      | exact ih _
      | refine viaEflag_bind_of _ _ ?_ (fun _ _ => ?_)
      | split
      | dsimp only

/-- `evalcommand_normal` does not take the `-e` exit. -/
theorem viaEflag_evalcommand_normal (W : World) (argv varlist : List String)
    (redir : List Redir) (path : String) (s : State) :
    (evalcommand_normal W argv varlist redir path s).viaEflag = false := by
  unfold evalcommand_normal
  repeat' first
    | rfl
    | assumption
    | exact viaEflag_call _ _ _
    | exact viaEflag_redirect W _ _ _
    | exact viaEflag_evalcommand_setvareqs W _ _
    | exact viaEflag_shellexec W _ _ _
    | refine viaEflag_bind_of _ _ ?_ (fun _ _ => ?_)
    | split
    | dsimp only

/-- `evalcommand` does not take the `-e` exit under `EV_TESTED`. -/
theorem viaEflag_evalcommand (W : World) (ev : Eval) (hev : TestedSafe ev)
    (hdot : DotSafe W ev) (fuel : Nat)
    (cmd : Node) (backgnd : Bool) (args : List Word) (redir : List Redir) (flags : Flags)
    (hfl : flags.tested = true) (s : State) :
    (evalcommand W ev fuel cmd backgnd args redir flags s).viaEflag = false := by
  unfold evalcommand
  repeat' first
    | rfl
    | assumption
    | exact viaEflag_call _ _ _
    | exact viaEflag_expandargs W _ _ _
    | exact viaEflag_expredir W _ _
    | exact viaEflag_evalcommand_parent W _ _ _ _
    | exact viaEflag_evalcommand_function W ev hev _ _ _ _ hfl _
    | exact viaEflag_evalcommand_builtin W ev hev hdot _ _ _ _ _ _ _ _ hfl _
    | exact viaEflag_evalcommand_normal W _ _ _ _ _
    | refine viaEflag_bind_of _ _ ?_ (fun _ _ => ?_)
    | split
    | dsimp only

/-- A sequence that returns: both parts returned. -/
theorem bind_eq_ok {α β : Type} (x : Res α) (f : α → State → Res β) (b : β) (s1 : State)
    (h : x.bind f = .ok b s1) : ∃ a s0, x = .ok a s0 ∧ f a s0 = .ok b s1 := by
  cases x with
  | ok a s0 => exact ⟨a, s0, rfl, h⟩
  | raise e s0 => simp [Res.bind] at h
  | gone g st s0 => simp [Res.bind] at h
  | timeout => simp [Res.bind] at h

/-- The `free_traps` step of `evaltree` does not take the `-e` exit. -/
theorem viaEflag_free_traps (W : World) (n : Node) (s : State) :
    (evaltree_free_traps W n s).viaEflag = false := by
  unfold evaltree_free_traps
  repeat' first
    | rfl
    | assumption
    | exact viaEflag_call _ _ _
    | refine viaEflag_bind_of _ _ ?_ (fun _ _ => ?_)
    | split
    | dsimp only

/-- Under `EV_TESTED` the `do` loop of `evaltree` does not take the `-e`
exit. -/
theorem viaEflag_evaltree_do (W : World) (ev : Eval) (hev : TestedSafe ev)
    (hdot : DotSafe W ev) (flags : Flags) (hfl : flags.tested = true) (fuel : Nat) :
    ∀ n s, (evaltree_do W ev fuel n flags s).viaEflag = false := by
  induction fuel with
  | zero => intro n s; rfl
  | succ k ih =>
    intro n s
    have hsf : flags.clearExit.tested = true := hfl
    unfold evaltree_do
    dsimp only
    refine viaEflag_bind_of _ _ (viaEflag_free_traps W _ _) (fun _ s => ?_)
    cases n <;> dsimp only
    repeat' first
      | rfl
      | assumption
      | exact viaEflag_call _ _ _
      | exact hev _ _ _ hfl
      | exact hev _ _ _ rfl
      | exact hev _ _ _ hsf
      | exact ih _ _
      | exact viaEflag_evalcommand W ev hev hdot _ _ _ _ _ _ hfl _
      | exact viaEflag_evalpipe W _ _ _ _
      | exact viaEflag_evalredir W ev hev _ _ _ hfl _
      | exact viaEflag_evalsubshell W ev hev _ _ _ _ _ hfl _
      | exact viaEflag_evalloop ev hev _ _ _ _ _ hsf _
      | exact viaEflag_evalfor W ev hev _ _ _ _ hsf _
      | exact viaEflag_evalcase W ev hev _ _ _ hsf _
      | refine viaEflag_bind_of _ _ ?_ (fun _ _ => ?_)
      | split
      | dsimp only

/-- Under `EV_TESTED` the `do` loop of `evaltree` leaves `do_etest` false. -/
theorem evaltree_do_tested (W : World) (ev : Eval) (flags : Flags)
    (hfl : flags.tested = true) (fuel : Nat) :
    ∀ n s d s1, evaltree_do W ev fuel n flags s = .ok d s1 → d = false := by
  induction fuel with
  | zero => intro n s d s1 h; simp [evaltree_do] at h
  | succ k ih =>
    intro n s d s1 h
    have hnext : ∀ (nx : Option Node) (s : State),
        (match nx with
          | none => Res.ok false s
          | some n1 => evaltree_do W ev k n1 flags s) = .ok d s1 → d = false := by
      intro nx s hx
      cases nx with
      | none => simp only [Res.ok.injEq] at hx; exact hx.1.symm
      | some n1 => exact ih n1 s d s1 hx
    have hconst : ∀ {α : Type} (x : Res α) (c : Bool), c = false →
        (x.bind fun _ s => Res.ok c s) = .ok d s1 → d = false := by
      intro α x c hc hx
      rw [← hc]
      exact bind_const_ok x c d s1 hx
    have hnt : (!flags.tested) = false := by rw [hfl]; rfl
    unfold evaltree_do at h
    dsimp only at h
    obtain ⟨_, s0, _, h⟩ := bind_eq_ok _ _ _ _ h
    cases n with
    | NCMD backgnd args redir => exact hconst _ _ hnt h
    | NPIPE backgnd cmdlist => exact hconst _ _ hnt h
    | NREDIR child redir => exact hconst _ _ rfl h
    | NBACKGND child redir => exact hconst _ _ rfl h
    | NSUBSHELL child redir => exact hconst _ _ hnt h
    | NAND ch1 ch2 =>
      obtain ⟨_, s2, _, h⟩ := bind_eq_ok _ _ _ _ h
      split at h
      · simp only [Res.ok.injEq] at h; exact h.1.symm
      · exact hnext _ _ h
    | NOR ch1 ch2 =>
      obtain ⟨_, s2, _, h⟩ := bind_eq_ok _ _ _ _ h
      split at h
      · simp only [Res.ok.injEq] at h; exact h.1.symm
      · exact hnext _ _ h
    | NSEMI ch1 ch2 =>
      obtain ⟨_, s2, _, h⟩ := bind_eq_ok _ _ _ _ h
      split at h
      · simp only [Res.ok.injEq] at h; exact h.1.symm
      · exact hnext _ _ h
    | NIF test ifpart elsepart =>
      obtain ⟨_, s2, _, h⟩ := bind_eq_ok _ _ _ _ h
      split at h
      · simp only [Res.ok.injEq] at h; exact h.1.symm
      · split at h
        · exact hnext _ _ h
        · split at h
          · exact hnext _ _ h
          · simp only [Res.ok.injEq] at h; exact h.1.symm
    | NWHILE ch1 ch2 => exact hconst _ _ rfl h
    | NUNTIL ch1 ch2 => exact hconst _ _ rfl h
    | NFOR args body var => exact hconst _ _ rfl h
    | NCASE expr cases => exact hconst _ _ rfl h
    | NDEFUN text body lineno => simp only [Res.ok.injEq] at h; exact h.1.symm
    | NNOT com =>
      obtain ⟨_, s2, _, h⟩ := bind_eq_ok _ _ _ _ h
      simp only [Res.ok.injEq] at h
      exact h.1.symm
    | NDNOT com =>
      obtain ⟨_, s2, _, h⟩ := bind_eq_ok _ _ _ _ h
      simp only [Res.ok.injEq] at h
      exact h.1.symm
    | NOTHER type => simp only [Res.ok.injEq] at h; exact h.1.symm

/-- The tree evaluator never takes the `-e` exit under `EV_TESTED`, unless a
dot script read under the call does. -/
theorem evaltree_testedSafe (W : World) (hdot : ∀ k, DotSafe W (evaltree W k)) (fuel : Nat) :
    TestedSafe (evaltree W fuel) := by
  induction fuel with
  | zero => intro n fl s _; rfl
  | succ k ih =>
    intro n fl s hfl
    cases n with
    | none => unfold evaltree; exact viaEflag_out2 W _ _
    | some n =>
      unfold evaltree
      dsimp only
      split
      · exact viaEflag_out2 W _ _
      · cases hd : evaltree_do W (evaltree W k) k n fl s with
        | ok d s1 =>
          have := evaltree_do_tested W _ fl hfl k n s d s1 hd
          subst this
          exact viaEflag_out2 W _ _
        | raise e s1 => rfl
        | gone g st s1 =>
          have h := viaEflag_evaltree_do W _ ih (hdot k) fl hfl k n s
          rw [hd] at h
          exact viaEflag_gone_cast g st s1 h
        | timeout => rfl

/-- The part of C2 that holds: an `evaltree` call with `EV_TESTED` set does not
end in the `exitshell` of the `-e` check of that call or of a call nested
under it, whatever the tree, the state and the fuel, as long as no dot script
read under it takes that exit (`DotSafe`): the flag word is handed down
everywhere but from `dotcmd` to `cmdloop`. -/
theorem evaltree_tested_safe_of_dotSafe (W : World) (hdot : ∀ k, DotSafe W (evaltree W k))
    (fuel : Nat) (T : Option Node) (flags : Flags) (s : State) (hfl : flags.tested = true) :
    (evaltree W fuel T flags s).viaEflag = false
    ∧ ∀ st s1, evaltree W fuel T flags s ≠ .gone .eflag st s1 := by
  have h := evaltree_testedSafe W hdot fuel T flags s hfl
  refine ⟨h, fun st s1 hc => ?_⟩
  rw [hc] at h
  exact absurd h (by simp [Res.viaEflag])

/-- **C2: the code at the failing input.** Under `-e`, with the file `./script`
holding `false` and `echo after`: the command `. ./script` evaluated with
`EV_TESTED`, and the statement `if . ./script; then true; fi`, whose condition
`evaltree` evaluates with `EV_TESTED`, end in the `exitshell` of the `-e`
check, with status 1: `dotcmd` hands no flag word to `cmdloop`, which
evaluates `false` with the flag word 0.  The sibling `evalcmd` hands
`builtin_flags & EV_TESTED` on: `if eval false; then true; fi` returns, and so
does `if false; then true; fi`. -/
theorem dot_script_eflag_exit :
    eflagOn.eflag = true
    ∧ sh.filetext "./script" = "false\necho after"
    ∧ (evaltree sh 8 (cmd [".", "./script"]) EV_TESTED eflagOn).summary
        = .exited .eflag 1 [[".", "./script"], ["false"]]
    ∧ (evaltree sh 8 (cmd [".", "./script"]) EV_TESTED eflagOn).state?.map
        (fun s => flagDispatches s.trace)
        = some [([".", "./script"], EV_TESTED), (["false"], EV_NONE)]
    ∧ (evaltree sh 9 ifDot EV_NONE eflagOn).summary
        = .exited .eflag 1 [[".", "./script"], ["false"]]
    ∧ (evaltree sh 9 ifDot EV_NONE eflagOn).state?.map (fun s => flagDispatches s.trace)
        = some [([".", "./script"], EV_TESTED), (["false"], EV_NONE)]
    ∧ (evaltree sh 9 ifEval EV_NONE eflagOn).summary
        = .returned 0 [["eval", "false"], ["false"]]
    ∧ (evaltree sh 9 ifFalse EV_NONE eflagOn).summary = .returned 0 [["false"]] := by
  refine ⟨rfl, by decide, by decide, by decide, by decide, by decide, by decide, by decide⟩

/-! ## Short-circuit operators -/

/-- The ghost log only grows: `ok`. -/
theorem grows_ok {α : Type} (t : List Ev) (a : α) (s : State) (h : ∃ u, s.trace = t ++ u) :
    Grows t (Res.ok a s) := by
  intro s1 h1
  simp only [Res.state?, Option.some.injEq] at h1
  subst h1
  exact h

/-- The ghost log only grows: `raise`. -/
theorem grows_raise {α : Type} (t : List Ev) (e : Exc) (s : State)
    (h : ∃ u, s.trace = t ++ u) : Grows t (Res.raise e s : Res α) := by
  intro s1 h1
  simp only [Res.state?, Option.some.injEq] at h1
  subst h1
  exact h

/-- The ghost log only grows: `gone`. -/
theorem grows_gone {α : Type} (t : List Ev) (g : ExitSite) (st : Int) (s : State)
    (h : ∃ u, s.trace = t ++ u) : Grows t (Res.gone g st s : Res α) := by
  intro s1 h1
  simp only [Res.state?, Option.some.injEq] at h1
  subst h1
  exact h

/-- The ghost log only grows: `timeout`. -/
theorem grows_timeout {α : Type} (t : List Ev) : Grows t (Res.timeout : Res α) := by
  intro s1 h1
  simp [Res.state?] at h1

/-- The ghost log only grows: `bind`. -/
theorem grows_bind {α β : Type} (t : List Ev) (x : Res α) (f : α → State → Res β)
    (hx : Grows t x) (hf : ∀ a s, (∃ u, s.trace = t ++ u) → Grows t (f a s)) :
    Grows t (x.bind f) := by
  cases x with
  | ok a s => exact hf a s (hx s rfl)
  | raise e s => exact grows_raise t e s (hx s rfl)
  | gone g st s => exact grows_gone t g st s (hx s rfl)
  | timeout => exact grows_timeout t

/-- The state of a normal return of a run that only appends extends the log. -/
theorem pre_of_ok {α : Type} (t : List Ev) (x : Res α) (a : α) (s : State)
    (heq : x = .ok a s) (hx : Grows t x) : ∃ u, s.trace = t ++ u :=
  hx s (by rw [heq]; rfl)

/-- The state of an exception of a run that only appends extends the log. -/
theorem pre_of_raise {α : Type} (t : List Ev) (x : Res α) (e : Exc) (s : State)
    (heq : x = .raise e s) (hx : Grows t x) : ∃ u, s.trace = t ++ u :=
  hx s (by rw [heq]; rfl)

/-- The ghost log only grows: `log`. -/
theorem grows_log (t : List Ev) (s : State) (e : Ev) (h : ∃ u, s.trace = t ++ u) :
    ∃ u, (s.log e).trace = t ++ u := by
  obtain ⟨u, hu⟩ := h
  exact ⟨u ++ [e], by simp [State.log, hu]⟩

/-- The ghost log only grows: `call`. -/
theorem grows_call {α : Type} (t : List Ev) (ev : Ev) (f : State → Ext α) (s : State)
    (h : ∃ u, s.trace = t ++ u) : Grows t (call ev f s) := by
  obtain ⟨u, hu⟩ := h
  unfold call
  split
  · exact grows_ok _ _ _ ⟨u ++ [ev], by simp [State.keep, hu]⟩
  · exact grows_raise _ _ _ ⟨u ++ [ev], by simp [State.keep, hu]⟩
  · exact grows_gone _ _ _ _ ⟨u ++ [ev], by simp [State.keep, hu]⟩

/-- The ghost log only grows: `error`. -/
theorem grows_error {α : Type} (t : List Ev) (msg : String) (s : State)
    (h : ∃ u, s.trace = t ++ u) : Grows t (error msg s : Res α) :=
  grows_raise _ _ _ (grows_log t s _ h)

/-- The ghost log only grows: `exitshell`. -/
theorem grows_exitshell {α : Type} (t : List Ev) (g : ExitSite) (st : Int) (s : State)
    (h : ∃ u, s.trace = t ++ u) : Grows t (exitshell g st s : Res α) :=
  grows_gone _ _ _ _ (grows_log t _ _ h)

/-- The ghost log only grows: `popredir`. -/
theorem grows_popredir (t : List Ev) (s : State) (h : ∃ u, s.trace = t ++ u) :
    ∃ u, (popredir s).trace = t ++ u :=
  grows_log t _ _ h

/-- The ghost log only grows: `evalloop_skipping`. -/
theorem grows_skipping (t : List Ev) (status : Int) (s : State) (h : ∃ u, s.trace = t ++ u) :
    ∃ u, (evalloop_skipping status s).2.2.trace = t ++ u := by
  rw [evalloop_skipping_cases]
  cases hs : s.evalskip <;> simp only [] <;> first | exact h | (split <;> exact h)

/-- The ghost log only grows: the state `evalloop_skipping` hands on. -/
theorem grows_skipping_of (t : List Ev) (status : Int) (s : State) (c : LoopCtl) (st : Int)
    (s1 : State) (heq : evalloop_skipping status s = (c, st, s1))
    (h : ∃ u, s.trace = t ++ u) : ∃ u, s1.trace = t ++ u := by
  have h1 := grows_skipping t status s h
  rw [heq] at h1
  exact h1

/-- The ghost log only grows: `redirect`. -/
theorem grows_redirect (W : World) (t : List Ev) (r : List Redir) (p : Bool) (s : State)
    (h : ∃ u, s.trace = t ++ u) : Grows t (redirect W r p s) := by
  unfold redirect
  repeat' first
    | assumption
    | dsimp only
    | exact grows_timeout _
    | refine pre_of_ok _ _ _ _ (by assumption) ?_
    | refine pre_of_raise _ _ _ _ (by assumption) ?_
    | exact grows_skipping_of _ _ _ _ _ _ (by assumption) (by assumption)
    | refine grows_ok _ _ _ ?_
    | refine grows_raise _ _ _ ?_
    | refine grows_gone _ _ _ _ ?_
    | refine grows_log _ _ _ ?_
    | refine grows_call _ _ _ _ ?_
    | refine grows_bind _ _ _ ?_ (fun _ _ h => ?_)
    | split

/-- The ghost log only grows: `expandargs`. -/
theorem grows_expandargs (W : World) (t : List Ev) (fl : ExpFlags) (ws : List Word) :
    ∀ s, (∃ u, s.trace = t ++ u) →
      Grows t (expandargs W fl ws s) := by
  induction ws with
  | nil => intro s h; exact grows_ok _ _ _ h
  | cons w ws ih =>
    intro s h
    unfold expandargs
    repeat' first
      | assumption
      | dsimp only
      | exact grows_timeout _
      | refine pre_of_ok _ _ _ _ (by assumption) ?_
      | refine pre_of_raise _ _ _ _ (by assumption) ?_
      | exact grows_skipping_of _ _ _ _ _ _ (by assumption) (by assumption)
      | refine ih _ ?_
      | refine grows_ok _ _ _ ?_
      | refine grows_raise _ _ _ ?_
      | refine grows_gone _ _ _ _ ?_
      | refine grows_log _ _ _ ?_
      | refine grows_call _ _ _ _ ?_
      | refine grows_bind _ _ _ ?_ (fun _ _ h => ?_)
      | split

/-- The ghost log only grows: `expredir`. -/
theorem grows_expredir (W : World) (t : List Ev) (rs : List Redir) :
    ∀ s, (∃ u, s.trace = t ++ u) →
      Grows t (expredir W rs s) := by
  induction rs with
  | nil => intro s h; exact grows_ok _ _ _ h
  | cons r rs ih =>
    intro s h
    unfold expredir
    repeat' first
      | assumption
      | dsimp only
      | exact grows_timeout _
      | refine pre_of_ok _ _ _ _ (by assumption) ?_
      | refine pre_of_raise _ _ _ _ (by assumption) ?_
      | exact grows_skipping_of _ _ _ _ _ _ (by assumption) (by assumption)
      | refine ih _ ?_
      | refine grows_ok _ _ _ ?_
      | refine grows_raise _ _ _ ?_
      | refine grows_gone _ _ _ _ ?_
      | refine grows_log _ _ _ ?_
      | refine grows_call _ _ _ _ ?_
      | refine grows_bind _ _ _ ?_ (fun _ _ h => ?_)
      | split

/-- The ghost log only grows: `out2`. -/
theorem grows_out2 (W : World) (t : List Ev) (flags : Flags) (d : Bool) (s : State)
    (h : ∃ u, s.trace = t ++ u) : Grows t (evaltree_out2 W flags d s) := by
  unfold evaltree_out2 evaltree_traps
  repeat' first
    | assumption
    | dsimp only
    | exact grows_timeout _
    | refine pre_of_ok _ _ _ _ (by assumption) ?_
    | refine pre_of_raise _ _ _ _ (by assumption) ?_
    | exact grows_skipping_of _ _ _ _ _ _ (by assumption) (by assumption)
    | refine grows_ok _ _ _ ?_
    | refine grows_raise _ _ _ ?_
    | refine grows_gone _ _ _ _ ?_
    | refine grows_log _ _ _ ?_
    | refine grows_call _ _ _ _ ?_
    | refine grows_bind _ _ _ ?_ (fun _ _ h => ?_)
    | split

/-- The ghost log only grows: `evalloop_for`. -/
theorem grows_evalloop_for (ev : Eval) (hev : GrowsEval ev) (t : List Ev) (isWhile : Bool)
    (ch1 ch2 : Option Node) (flags : Flags) (fuel : Nat) :
    ∀ status bodies s, (∃ u, s.trace = t ++ u) →
      Grows t (evalloop_for ev isWhile ch1 ch2 flags fuel status bodies s) := by
  induction fuel with
  | zero => intro status bodies s _; exact grows_timeout t
  | succ k ih =>
    intro status bodies s h
    unfold evalloop_for
    repeat' first
      | assumption
      | dsimp only
      | exact grows_timeout _
      | refine pre_of_ok _ _ _ _ (by assumption) ?_
      | refine pre_of_raise _ _ _ _ (by assumption) ?_
      | exact grows_skipping_of _ _ _ _ _ _ (by assumption) (by assumption)
      | refine hev _ _ _ _ ?_
      | refine ih _ _ _ ?_
      | refine grows_ok _ _ _ ?_
      | refine grows_raise _ _ _ ?_
      | refine grows_gone _ _ _ _ ?_
      | refine grows_log _ _ _ ?_
      | refine grows_call _ _ _ _ ?_
      | refine grows_bind _ _ _ ?_ (fun _ _ h => ?_)
      | split

/-- The ghost log only grows: `evalloop`. -/
theorem grows_evalloop (ev : Eval) (hev : GrowsEval ev) (t : List Ev) (fuel : Nat)
    (isWhile : Bool) (ch1 ch2 : Option Node) (flags : Flags) (s : State)
    (h : ∃ u, s.trace = t ++ u) :
    Grows t (evalloop ev fuel isWhile ch1 ch2 flags s) := by
  unfold evalloop
  repeat' first
    | assumption
    | dsimp only
    | exact grows_timeout _
    | refine pre_of_ok _ _ _ _ (by assumption) ?_
    | refine pre_of_raise _ _ _ _ (by assumption) ?_
    | exact grows_skipping_of _ _ _ _ _ _ (by assumption) (by assumption)
    | refine grows_evalloop_for ev hev t _ _ _ _ _ _ _ _ ?_
    | refine grows_ok _ _ _ ?_
    | refine grows_raise _ _ _ ?_
    | refine grows_gone _ _ _ _ ?_
    | refine grows_log _ _ _ ?_
    | refine grows_call _ _ _ _ ?_
    | refine grows_bind _ _ _ ?_ (fun _ _ h => ?_)
    | split

/-- The ghost log only grows: `evalfor_expand`. -/
theorem grows_evalfor_expand (W : World) (t : List Ev) (ws : List Word) :
    ∀ s, (∃ u, s.trace = t ++ u) →
      Grows t (evalfor_expand W ws s) := by
  induction ws with
  | nil => intro s h; exact grows_ok _ _ _ h
  | cons w ws ih =>
    intro s h
    unfold evalfor_expand
    repeat' first
      | assumption
      | dsimp only
      | exact grows_timeout _
      | refine pre_of_ok _ _ _ _ (by assumption) ?_
      | refine pre_of_raise _ _ _ _ (by assumption) ?_
      | exact grows_skipping_of _ _ _ _ _ _ (by assumption) (by assumption)
      | refine ih _ ?_
      | refine grows_ok _ _ _ ?_
      | refine grows_raise _ _ _ ?_
      | refine grows_gone _ _ _ _ ?_
      | refine grows_log _ _ _ ?_
      | refine grows_call _ _ _ _ ?_
      | refine grows_bind _ _ _ ?_ (fun _ _ h => ?_)
      | split

/-- The ghost log only grows: `evalfor_loop`. -/
theorem grows_evalfor_loop (W : World) (ev : Eval) (hev : GrowsEval ev) (t : List Ev)
    (var : String) (body : Option Node) (flags : Flags) (ws : List String) :
    ∀ status s, (∃ u, s.trace = t ++ u) →
      Grows t (evalfor_loop W ev var body flags ws status s) := by
  induction ws with
  | nil => intro status s h; exact grows_ok _ _ _ h
  | cons w ws ih =>
    intro status s h
    unfold evalfor_loop
    repeat' first
      | assumption
      | dsimp only
      | exact grows_timeout _
      | refine pre_of_ok _ _ _ _ (by assumption) ?_
      | refine pre_of_raise _ _ _ _ (by assumption) ?_
      | exact grows_skipping_of _ _ _ _ _ _ (by assumption) (by assumption)
      | refine hev _ _ _ _ ?_
      | refine ih _ _ ?_
      | refine grows_ok _ _ _ ?_
      | refine grows_raise _ _ _ ?_
      | refine grows_gone _ _ _ _ ?_
      | refine grows_log _ _ _ ?_
      | refine grows_call _ _ _ _ ?_
      | refine grows_bind _ _ _ ?_ (fun _ _ h => ?_)
      | split

/-- The ghost log only grows: `evalfor`. -/
theorem grows_evalfor (W : World) (ev : Eval) (hev : GrowsEval ev) (t : List Ev)
    (args : List Word) (body : Option Node) (var : String) (flags : Flags) (s : State)
    (h : ∃ u, s.trace = t ++ u) :
    Grows t (evalfor W ev args body var flags s) := by
  unfold evalfor
  repeat' first
    | assumption
    | dsimp only
    | exact grows_timeout _
    | refine pre_of_ok _ _ _ _ (by assumption) ?_
    | refine pre_of_raise _ _ _ _ (by assumption) ?_
    | exact grows_skipping_of _ _ _ _ _ _ (by assumption) (by assumption)
    | refine grows_evalfor_expand W t _ _ ?_
    | refine grows_evalfor_loop W ev hev t _ _ _ _ _ _ ?_
    | refine grows_ok _ _ _ ?_
    | refine grows_raise _ _ _ ?_
    | refine grows_gone _ _ _ _ ?_
    | refine grows_log _ _ _ ?_
    | refine grows_call _ _ _ _ ?_
    | refine grows_bind _ _ _ ?_ (fun _ _ h => ?_)
    | split

/-- The ghost log only grows: `evalcase_bodies`. -/
theorem grows_evalcase_bodies (ev : Eval) (hev : GrowsEval ev) (t : List Ev) (flags : Flags)
    (items : List (Bool × List Word × Option Node)) :
    ∀ status s, (∃ u, s.trace = t ++ u) →
      Grows t (evalcase_bodies ev flags items status s) := by
  induction items with
  | nil => intro status s h; exact grows_ok _ _ _ h
  | cons item rest ih =>
    intro status s h
    obtain ⟨cont, pats, body⟩ := item
    unfold evalcase_bodies
    repeat' first
      | assumption
      | dsimp only
      | exact grows_timeout _
      | refine pre_of_ok _ _ _ _ (by assumption) ?_
      | refine pre_of_raise _ _ _ _ (by assumption) ?_
      | exact grows_skipping_of _ _ _ _ _ _ (by assumption) (by assumption)
      | refine hev _ _ _ _ ?_
      | refine ih _ _ ?_
      | refine grows_ok _ _ _ ?_
      | refine grows_raise _ _ _ ?_
      | refine grows_gone _ _ _ _ ?_
      | refine grows_log _ _ _ ?_
      | refine grows_call _ _ _ _ ?_
      | refine grows_bind _ _ _ ?_ (fun _ _ h => ?_)
      | split

/-- The ghost log only grows: `evalcase_patterns`. -/
theorem grows_evalcase_patterns (W : World) (t : List Ev) (text : String) (ps : List Word) :
    ∀ s, (∃ u, s.trace = t ++ u) →
      Grows t (evalcase_patterns W text ps s) := by
  induction ps with
  | nil => intro s h; exact grows_ok _ _ _ h
  | cons p ps ih =>
    intro s h
    unfold evalcase_patterns
    repeat' first
      | assumption
      | dsimp only
      | exact grows_timeout _
      | refine pre_of_ok _ _ _ _ (by assumption) ?_
      | refine pre_of_raise _ _ _ _ (by assumption) ?_
      | exact grows_skipping_of _ _ _ _ _ _ (by assumption) (by assumption)
      | refine ih _ ?_
      | refine grows_ok _ _ _ ?_
      | refine grows_raise _ _ _ ?_
      | refine grows_gone _ _ _ _ ?_
      | refine grows_log _ _ _ ?_
      | refine grows_call _ _ _ _ ?_
      | refine grows_bind _ _ _ ?_ (fun _ _ h => ?_)
      | split

/-- The ghost log only grows: `evalcase_items`. -/
theorem grows_evalcase_items (W : World) (ev : Eval) (hev : GrowsEval ev) (t : List Ev)
    (flags : Flags) (text : String) (items : List (Bool × List Word × Option Node)) :
    ∀ s, (∃ u, s.trace = t ++ u) →
      Grows t (evalcase_items W ev flags text items s) := by
  induction items with
  | nil => intro s h; exact grows_ok _ _ _ h
  | cons item rest ih =>
    intro s h
    unfold evalcase_items
    repeat' first
      | assumption
      | dsimp only
      | exact grows_timeout _
      | refine pre_of_ok _ _ _ _ (by assumption) ?_
      | refine pre_of_raise _ _ _ _ (by assumption) ?_
      | exact grows_skipping_of _ _ _ _ _ _ (by assumption) (by assumption)
      | refine ih _ ?_
      | refine grows_evalcase_patterns W t _ _ _ ?_
      | refine grows_evalcase_bodies ev hev t flags _ _ _ ?_
      | refine grows_ok _ _ _ ?_
      | refine grows_raise _ _ _ ?_
      | refine grows_gone _ _ _ _ ?_
      | refine grows_log _ _ _ ?_
      | refine grows_call _ _ _ _ ?_
      | refine grows_bind _ _ _ ?_ (fun _ _ h => ?_)
      | split

/-- The ghost log only grows: `evalcase`. -/
theorem grows_evalcase (W : World) (ev : Eval) (hev : GrowsEval ev) (t : List Ev)
    (expr : Word) (cases : List (Bool × List Word × Option Node)) (flags : Flags) (s : State)
    (h : ∃ u, s.trace = t ++ u) :
    Grows t (evalcase W ev expr cases flags s) := by
  unfold evalcase
  repeat' first
    | assumption
    | dsimp only
    | exact grows_timeout _
    | refine pre_of_ok _ _ _ _ (by assumption) ?_
    | refine pre_of_raise _ _ _ _ (by assumption) ?_
    | exact grows_skipping_of _ _ _ _ _ _ (by assumption) (by assumption)
    | refine grows_evalcase_items W ev hev t flags _ _ _ ?_
    | refine grows_ok _ _ _ ?_
    | refine grows_raise _ _ _ ?_
    | refine grows_gone _ _ _ _ ?_
    | refine grows_log _ _ _ ?_
    | refine grows_call _ _ _ _ ?_
    | refine grows_bind _ _ _ ?_ (fun _ _ h => ?_)
    | split

/-- The ghost log only grows: `evalsubshell`. -/
theorem grows_evalsubshell (W : World) (ev : Eval) (hev : GrowsEval ev) (t : List Ev)
    (n : Node) (backgnd : Bool) (child : Option Node) (redir : List Redir) (flags : Flags)
    (s : State)
    (h : ∃ u, s.trace = t ++ u) :
    Grows t (evalsubshell W ev n backgnd child redir flags s) := by
  unfold evalsubshell
  repeat' first
    | assumption
    | dsimp only
    | exact grows_timeout _
    | refine pre_of_ok _ _ _ _ (by assumption) ?_
    | refine pre_of_raise _ _ _ _ (by assumption) ?_
    | exact grows_skipping_of _ _ _ _ _ _ (by assumption) (by assumption)
    | refine hev _ _ _ _ ?_
    | refine grows_expredir W t _ _ ?_
    | refine grows_redirect W t _ _ _ ?_
    | refine grows_ok _ _ _ ?_
    | refine grows_raise _ _ _ ?_
    | refine grows_gone _ _ _ _ ?_
    | refine grows_log _ _ _ ?_
    | refine grows_call _ _ _ _ ?_
    | refine grows_bind _ _ _ ?_ (fun _ _ h => ?_)
    | split

/-- The ghost log only grows: `evalredir`. -/
theorem grows_evalredir (W : World) (ev : Eval) (hev : GrowsEval ev) (t : List Ev)
    (child : Option Node) (redir : List Redir) (flags : Flags) (s : State)
    (h : ∃ u, s.trace = t ++ u) :
    Grows t (evalredir W ev child redir flags s) := by
  unfold evalredir
  repeat' first
    | assumption
    | dsimp only
    | exact grows_timeout _
    | refine pre_of_ok _ _ _ _ (by assumption) ?_
    | refine pre_of_raise _ _ _ _ (by assumption) ?_
    | exact grows_skipping_of _ _ _ _ _ _ (by assumption) (by assumption)
    | refine hev _ _ _ _ ?_
    | refine grows_expredir W t _ _ ?_
    | refine grows_redirect W t _ _ _ ?_
    | refine grows_ok _ _ _ ?_
    | refine grows_raise _ _ _ ?_
    | refine grows_gone _ _ _ _ ?_
    | refine grows_log _ _ _ ?_
    | refine grows_call _ _ _ _ ?_
    | refine grows_bind _ _ _ ?_ (fun _ _ h => ?_)
    | split

/-- The ghost log only grows: `evalpipe_forks`. -/
theorem grows_evalpipe_forks (W : World) (t : List Ev) (backgnd : Bool) (cs : List Node) :
    ∀ s, (∃ u, s.trace = t ++ u) →
      Grows t (evalpipe_forks W backgnd cs s) := by
  induction cs with
  | nil => intro s h; exact grows_ok _ _ _ h
  | cons c cs ih =>
    intro s h
    unfold evalpipe_forks
    repeat' first
      | assumption
      | dsimp only
      | exact grows_timeout _
      | refine pre_of_ok _ _ _ _ (by assumption) ?_
      | refine pre_of_raise _ _ _ _ (by assumption) ?_
      | exact grows_skipping_of _ _ _ _ _ _ (by assumption) (by assumption)
      | refine ih _ ?_
      | refine grows_ok _ _ _ ?_
      | refine grows_raise _ _ _ ?_
      | refine grows_gone _ _ _ _ ?_
      | refine grows_log _ _ _ ?_
      | refine grows_call _ _ _ _ ?_
      | refine grows_bind _ _ _ ?_ (fun _ _ h => ?_)
      | split

/-- The ghost log only grows: `evalpipe`. -/
theorem grows_evalpipe (W : World) (t : List Ev) (n : Node) (backgnd : Bool)
    (cmdlist : List Node) (s : State)
    (h : ∃ u, s.trace = t ++ u) :
    Grows t (evalpipe W n backgnd cmdlist s) := by
  unfold evalpipe
  repeat' first
    | assumption
    | dsimp only
    | exact grows_timeout _
    | refine pre_of_ok _ _ _ _ (by assumption) ?_
    | refine pre_of_raise _ _ _ _ (by assumption) ?_
    | exact grows_skipping_of _ _ _ _ _ _ (by assumption) (by assumption)
    | refine grows_evalpipe_forks W t _ _ _ ?_
    | refine grows_ok _ _ _ ?_
    | refine grows_raise _ _ _ ?_
    | refine grows_gone _ _ _ _ ?_
    | refine grows_log _ _ _ ?_
    | refine grows_call _ _ _ _ ?_
    | refine grows_bind _ _ _ ?_ (fun _ _ h => ?_)
    | split

/-- The ghost log only grows: `evalstring_loop`. -/
theorem grows_evalstring_loop (W : World) (ev : Eval) (hev : GrowsEval ev) (t : List Ev)
    (last : Bool) (flag : Flags) (fuel : Nat) :
    ∀ input any s, (∃ u, s.trace = t ++ u) →
      Grows t (evalstring_loop W ev last flag fuel input any s) := by
  induction fuel with
  | zero => intro input any s _; exact grows_timeout t
  | succ k ih =>
    intro input any s h
    unfold evalstring_loop
    repeat' first
      | assumption
      | dsimp only
      | exact grows_timeout _
      | refine pre_of_ok _ _ _ _ (by assumption) ?_
      | refine pre_of_raise _ _ _ _ (by assumption) ?_
      | exact grows_skipping_of _ _ _ _ _ _ (by assumption) (by assumption)
      | refine hev _ _ _ _ ?_
      | refine ih _ _ _ ?_
      | refine grows_ok _ _ _ ?_
      | refine grows_raise _ _ _ ?_
      | refine grows_gone _ _ _ _ ?_
      | refine grows_log _ _ _ ?_
      | refine grows_call _ _ _ _ ?_
      | refine grows_bind _ _ _ ?_ (fun _ _ h => ?_)
      | split

/-- The ghost log only grows: `evalstring`. -/
theorem grows_evalstring (W : World) (ev : Eval) (hev : GrowsEval ev) (t : List Ev)
    (fuel : Nat) (str : String) (flag : Flags) (s : State)
    (h : ∃ u, s.trace = t ++ u) :
    Grows t (evalstring W ev fuel str flag s) := by
  unfold evalstring
  repeat' first
    | assumption
    | dsimp only
    | exact grows_timeout _
    | refine pre_of_ok _ _ _ _ (by assumption) ?_
    | refine pre_of_raise _ _ _ _ (by assumption) ?_
    | exact grows_skipping_of _ _ _ _ _ _ (by assumption) (by assumption)
    | refine grows_evalstring_loop W ev hev t _ _ fuel _ _ _ ?_
    | refine grows_ok _ _ _ ?_
    | refine grows_raise _ _ _ ?_
    | refine grows_gone _ _ _ _ ?_
    | refine grows_log _ _ _ ?_
    | refine grows_call _ _ _ _ ?_
    | refine grows_bind _ _ _ ?_ (fun _ _ h => ?_)
    | split

/-- The ghost log only grows: `evalcmd`. -/
theorem grows_evalcmd (W : World) (ev : Eval) (hev : GrowsEval ev) (t : List Ev)
    (fuel : Nat) (argv : List String) (s : State)
    (h : ∃ u, s.trace = t ++ u) :
    Grows t (evalcmd W ev fuel argv s) := by
  unfold evalcmd
  repeat' first
    | assumption
    | dsimp only
    | exact grows_timeout _
    | refine pre_of_ok _ _ _ _ (by assumption) ?_
    | refine pre_of_raise _ _ _ _ (by assumption) ?_
    | exact grows_skipping_of _ _ _ _ _ _ (by assumption) (by assumption)
    | refine grows_evalstring W ev hev t fuel _ _ _ ?_
    | refine grows_ok _ _ _ ?_
    | refine grows_raise _ _ _ ?_
    | refine grows_gone _ _ _ _ ?_
    | refine grows_log _ _ _ ?_
    | refine grows_call _ _ _ _ ?_
    | refine grows_bind _ _ _ ?_ (fun _ _ h => ?_)
    | split

/-- The ghost log only grows: `operand`. -/
theorem grows_operand (W : World) (t : List Ev) (argv : List String) (dflt : Int) (s : State)
    (h : ∃ u, s.trace = t ++ u) :
    Grows t (operand W argv dflt s) := by
  unfold operand number
  repeat' first
    | assumption
    | dsimp only
    | exact grows_timeout _
    | refine pre_of_ok _ _ _ _ (by assumption) ?_
    | refine pre_of_raise _ _ _ _ (by assumption) ?_
    | exact grows_skipping_of _ _ _ _ _ _ (by assumption) (by assumption)
    | refine grows_ok _ _ _ ?_
    | refine grows_raise _ _ _ ?_
    | refine grows_gone _ _ _ _ ?_
    | refine grows_log _ _ _ ?_
    | refine grows_call _ _ _ _ ?_
    | refine grows_bind _ _ _ ?_ (fun _ _ h => ?_)
    | split

/-- The ghost log only grows: `breakcmd`. -/
theorem grows_breakcmd (W : World) (t : List Ev) (argv : List String) (s : State)
    (h : ∃ u, s.trace = t ++ u) :
    Grows t (breakcmd W argv s) := by
  unfold breakcmd
  repeat' first
    | assumption
    | dsimp only
    | exact grows_timeout _
    | refine pre_of_ok _ _ _ _ (by assumption) ?_
    | refine pre_of_raise _ _ _ _ (by assumption) ?_
    | exact grows_skipping_of _ _ _ _ _ _ (by assumption) (by assumption)
    | refine grows_operand W t _ _ _ ?_
    | refine grows_ok _ _ _ ?_
    | refine grows_raise _ _ _ ?_
    | refine grows_gone _ _ _ _ ?_
    | refine grows_log _ _ _ ?_
    | refine grows_call _ _ _ _ ?_
    | refine grows_bind _ _ _ ?_ (fun _ _ h => ?_)
    | split

/-- The ghost log only grows: `returncmd`. -/
theorem grows_returncmd (W : World) (t : List Ev) (argv : List String) (s : State)
    (h : ∃ u, s.trace = t ++ u) :
    Grows t (returncmd W argv s) := by
  unfold returncmd
  repeat' first
    | assumption
    | dsimp only
    | exact grows_timeout _
    | refine pre_of_ok _ _ _ _ (by assumption) ?_
    | refine pre_of_raise _ _ _ _ (by assumption) ?_
    | exact grows_skipping_of _ _ _ _ _ _ (by assumption) (by assumption)
    | refine grows_operand W t _ _ _ ?_
    | refine grows_ok _ _ _ ?_
    | refine grows_raise _ _ _ ?_
    | refine grows_gone _ _ _ _ ?_
    | refine grows_log _ _ _ ?_
    | refine grows_call _ _ _ _ ?_
    | refine grows_bind _ _ _ ?_ (fun _ _ h => ?_)
    | split

/-- The ghost log only grows: `shellexec`. -/
theorem grows_shellexec {α : Type} (W : World) (t : List Ev) (argv : List String)
    (path : String) (s : State) (h : ∃ u, s.trace = t ++ u) :
    Grows t (shellexec W argv path s : Res α) := by
  unfold shellexec
  have h1 := grows_call t (.shellexec argv) (W.shellexec argv path) s h
  generalize call (.shellexec argv) (W.shellexec argv path) s = x at h1
  cases x with
  | ok a s1 => exact grows_gone _ _ _ _ (h1 s1 rfl)
  | raise e s1 => exact grows_raise _ _ _ (h1 s1 rfl)
  | gone g st s1 => exact grows_gone _ _ _ _ (h1 s1 rfl)
  | timeout => exact grows_timeout t

/-- The ghost log only grows: `cmdloop`. -/
theorem grows_cmdloop (W : World) (ev : Eval) (hev : GrowsEval ev) (t : List Ev)
    (fuel : Nat) :
    ∀ input s, (∃ u, s.trace = t ++ u) →
      Grows t (cmdloop W ev fuel input s) := by
  induction fuel with
  | zero => intro input s _; exact grows_timeout t
  | succ k ih =>
    intro input s h
    unfold cmdloop
    repeat' first
      | assumption
      | dsimp only
      | exact grows_timeout _
      | refine pre_of_ok _ _ _ _ (by assumption) ?_
      | refine pre_of_raise _ _ _ _ (by assumption) ?_
      | exact grows_skipping_of _ _ _ _ _ _ (by assumption) (by assumption)
      | refine hev _ _ _ _ ?_
      | refine ih _ _ ?_
      | refine grows_ok _ _ _ ?_
      | refine grows_raise _ _ _ ?_
      | refine grows_gone _ _ _ _ ?_
      | refine grows_log _ _ _ ?_
      | refine grows_call _ _ _ _ ?_
      | refine grows_bind _ _ _ ?_ (fun _ _ h => ?_)
      | split

/-- The ghost log only grows: `dotcmd`. -/
theorem grows_dotcmd (W : World) (ev : Eval) (hev : GrowsEval ev) (t : List Ev)
    (fuel : Nat) (argv : List String) (s : State)
    (h : ∃ u, s.trace = t ++ u) :
    Grows t (dotcmd W ev fuel argv s) := by
  unfold dotcmd
  repeat' first
    | assumption
    | dsimp only
    | exact grows_timeout _
    | refine pre_of_ok _ _ _ _ (by assumption) ?_
    | refine pre_of_raise _ _ _ _ (by assumption) ?_
    | exact grows_skipping_of _ _ _ _ _ _ (by assumption) (by assumption)
    | refine grows_cmdloop W ev hev t _ _ _ ?_
    | refine grows_ok _ _ _ ?_
    | refine grows_raise _ _ _ ?_
    | refine grows_gone _ _ _ _ ?_
    | refine grows_log _ _ _ ?_
    | refine grows_call _ _ _ _ ?_
    | refine grows_bind _ _ _ ?_ (fun _ _ h => ?_)
    | split

/-- The ghost log only grows: `execcmd`. -/
theorem grows_execcmd (W : World) (t : List Ev) (argv : List String) (s : State)
    (h : ∃ u, s.trace = t ++ u) :
    Grows t (execcmd W argv s) := by
  unfold execcmd
  repeat' first
    | assumption
    | dsimp only
    | exact grows_timeout _
    | refine pre_of_ok _ _ _ _ (by assumption) ?_
    | refine pre_of_raise _ _ _ _ (by assumption) ?_
    | exact grows_skipping_of _ _ _ _ _ _ (by assumption) (by assumption)
    | refine grows_shellexec W t _ _ _ ?_
    | refine grows_ok _ _ _ ?_
    | refine grows_raise _ _ _ ?_
    | refine grows_gone _ _ _ _ ?_
    | refine grows_log _ _ _ ?_
    | refine grows_call _ _ _ _ ?_
    | refine grows_bind _ _ _ ?_ (fun _ _ h => ?_)
    | split

/-- The ghost log only grows: `run_builtin`. -/
theorem grows_run_builtin (W : World) (ev : Eval) (hev : GrowsEval ev) (t : List Ev)
    (fuel : Nat) (b : Bltin) (argv : List String) (s : State)
    (h : ∃ u, s.trace = t ++ u) :
    Grows t (run_builtin W ev fuel b argv s) := by
  unfold run_builtin
  repeat' first
    | assumption
    | dsimp only
    | exact grows_timeout _
    | refine pre_of_ok _ _ _ _ (by assumption) ?_
    | refine pre_of_raise _ _ _ _ (by assumption) ?_
    | exact grows_skipping_of _ _ _ _ _ _ (by assumption) (by assumption)
    | refine grows_evalcmd W ev hev t fuel _ _ ?_
    | refine grows_breakcmd W t _ _ ?_
    | refine grows_dotcmd W ev hev t fuel _ _ ?_
    | refine grows_returncmd W t _ _ ?_
    | refine grows_execcmd W t _ _ ?_
    | refine grows_ok _ _ _ ?_
    | refine grows_raise _ _ _ ?_
    | refine grows_gone _ _ _ _ ?_
    | refine grows_log _ _ _ ?_
    | refine grows_call _ _ _ _ ?_
    | refine grows_bind _ _ _ ?_ (fun _ _ h => ?_)
    | split

/-- The ghost log only grows: `evalcommand_parent`. -/
theorem grows_evalcommand_parent (W : World) (t : List Ev) (cmd : Node) (backgnd : Bool)
    (flags : Flags) (s : State)
    (h : ∃ u, s.trace = t ++ u) :
    Grows t (evalcommand_parent W cmd backgnd flags s) := by
  unfold evalcommand_parent
  repeat' first
    | assumption
    | dsimp only
    | exact grows_timeout _
    | refine pre_of_ok _ _ _ _ (by assumption) ?_
    | refine pre_of_raise _ _ _ _ (by assumption) ?_
    | exact grows_skipping_of _ _ _ _ _ _ (by assumption) (by assumption)
    | refine grows_ok _ _ _ ?_
    | refine grows_raise _ _ _ ?_
    | refine grows_gone _ _ _ _ ?_
    | refine grows_log _ _ _ ?_
    | refine grows_call _ _ _ _ ?_
    | refine grows_bind _ _ _ ?_ (fun _ _ h => ?_)
    | split

/-- The ghost log only grows: `evalcommand_funcbody`. -/
theorem grows_evalcommand_funcbody (W : World) (ev : Eval) (hev : GrowsEval ev)
    (t : List Ev) (func : Option Node) (varlist : List String) (flags : Flags) (s : State)
    (h : ∃ u, s.trace = t ++ u) :
    Grows t (evalcommand_funcbody W ev func varlist flags s) := by
  unfold evalcommand_funcbody
  repeat' first
    | assumption
    | dsimp only
    | exact grows_timeout _
    | refine pre_of_ok _ _ _ _ (by assumption) ?_
    | refine pre_of_raise _ _ _ _ (by assumption) ?_
    | exact grows_skipping_of _ _ _ _ _ _ (by assumption) (by assumption)
    | refine hev _ _ _ _ ?_
    | refine grows_ok _ _ _ ?_
    | refine grows_raise _ _ _ ?_
    | refine grows_gone _ _ _ _ ?_
    | refine grows_log _ _ _ ?_
    | refine grows_call _ _ _ _ ?_
    | refine grows_bind _ _ _ ?_ (fun _ _ h => ?_)
    | split

/-- The ghost log only grows: `evalcommand_function`. -/
theorem grows_evalcommand_function (W : World) (ev : Eval) (hev : GrowsEval ev)
    (t : List Ev) (func : Option Node) (redir : List Redir) (varlist : List String)
    (flags : Flags) (s : State)
    (h : ∃ u, s.trace = t ++ u) :
    Grows t (evalcommand_function W ev func redir varlist flags s) := by
  unfold evalcommand_function
  repeat' first
    | assumption
    | dsimp only
    | exact grows_timeout _
    | refine pre_of_ok _ _ _ _ (by assumption) ?_
    | refine pre_of_raise _ _ _ _ (by assumption) ?_
    | exact grows_skipping_of _ _ _ _ _ _ (by assumption) (by assumption)
    | refine grows_redirect W t _ _ _ ?_
    | refine grows_evalcommand_funcbody W ev hev t _ _ _ _ ?_
    | refine grows_ok _ _ _ ?_
    | refine grows_raise _ _ _ ?_
    | refine grows_gone _ _ _ _ ?_
    | refine grows_log _ _ _ ?_
    | refine grows_call _ _ _ _ ?_
    | refine grows_bind _ _ _ ?_ (fun _ _ h => ?_)
    | split

/-- The ghost log only grows: `evalcommand_bltinend`. -/
theorem grows_evalcommand_bltinend (W : World) (t : List Ev) (bltin : Bltin)
    (cmdtype : CmdType) (flags : Flags) (savehandler : Nat) (r : Outcome) (h : Grows t r) :
    Grows t (evalcommand_bltinend W bltin cmdtype flags savehandler r) := by
  cases r with
  | ok a s =>
    have h := h s rfl
    unfold evalcommand_bltinend
    repeat' first
      | assumption
      | dsimp only
      | exact grows_timeout _
      | refine pre_of_ok _ _ _ _ (by assumption) ?_
      | refine pre_of_raise _ _ _ _ (by assumption) ?_
      | exact grows_skipping_of _ _ _ _ _ _ (by assumption) (by assumption)
      | refine grows_ok _ _ _ ?_
      | refine grows_raise _ _ _ ?_
      | refine grows_gone _ _ _ _ ?_
      | refine grows_log _ _ _ ?_
      | refine grows_call _ _ _ _ ?_
      | refine grows_bind _ _ _ ?_ (fun _ _ h => ?_)
      | split
  | raise e s =>
    have h := h s rfl
    unfold evalcommand_bltinend
    repeat' first
      | assumption
      | dsimp only
      | exact grows_timeout _
      | refine pre_of_ok _ _ _ _ (by assumption) ?_
      | refine pre_of_raise _ _ _ _ (by assumption) ?_
      | exact grows_skipping_of _ _ _ _ _ _ (by assumption) (by assumption)
      | refine grows_ok _ _ _ ?_
      | refine grows_raise _ _ _ ?_
      | refine grows_gone _ _ _ _ ?_
      | refine grows_log _ _ _ ?_
      | refine grows_call _ _ _ _ ?_
      | refine grows_bind _ _ _ ?_ (fun _ _ h => ?_)
      | split
  | gone g st s => exact h
  | timeout => exact grows_timeout t

/-- The ghost log only grows: the guarded part of the builtin case. -/
theorem grows_evalcommand_bltinbody (W : World) (ev : Eval) (hev : GrowsEval ev)
    (t : List Ev) (fuel : Nat) (ce : cmdentry) (argv varlist : List String)
    (redir : List Redir) (nofunc : Bool) (path : String × Bool) (flags : Flags) (s : State)
    (h : ∃ u, s.trace = t ++ u) :
    Grows t (evalcommand_bltinbody W ev fuel ce argv varlist redir nofunc path flags s).1 := by
  unfold evalcommand_bltinbody
  repeat' first
    | assumption
    | dsimp only
    | exact grows_timeout _
    | refine pre_of_ok _ _ _ _ (by assumption) ?_
    | refine pre_of_raise _ _ _ _ (by assumption) ?_
    | exact grows_skipping_of _ _ _ _ _ _ (by assumption) (by assumption)
    | refine grows_redirect W t _ _ _ ?_
    | refine grows_run_builtin W ev hev t fuel _ _ _ ?_
    | refine grows_ok _ _ _ ?_
    | refine grows_raise _ _ _ ?_
    | refine grows_gone _ _ _ _ ?_
    | refine grows_log _ _ _ ?_
    | refine grows_call _ _ _ _ ?_
    | refine grows_bind _ _ _ ?_ (fun _ _ h => ?_)
    | split

/-- The ghost log only grows: `evalcommand_builtin`. -/
theorem grows_evalcommand_builtin (W : World) (ev : Eval) (hev : GrowsEval ev)
    (t : List Ev) (fuel : Nat) (ce : cmdentry) (argv varlist : List String)
    (redir : List Redir) (nofunc : Bool) (path : String × Bool) (flags : Flags) (s : State)
    (h : ∃ u, s.trace = t ++ u) :
    Grows t (evalcommand_builtin W ev fuel ce argv varlist redir nofunc path flags s) := by
  unfold evalcommand_builtin
  exact grows_evalcommand_bltinend W t _ _ _ _ _
    (grows_evalcommand_bltinbody W ev hev t fuel ce argv varlist redir nofunc path flags _ h)

/-- The ghost log only grows: `evalcommand_setvareqs`. -/
theorem grows_evalcommand_setvareqs (W : World) (t : List Ev) (vs : List String) :
    ∀ s, (∃ u, s.trace = t ++ u) →
      Grows t (evalcommand_setvareqs W vs s) := by
  induction vs with
  | nil => intro s h; exact grows_ok _ _ _ h
  | cons v vs ih =>
    intro s h
    unfold evalcommand_setvareqs
    repeat' first
      | assumption
      | dsimp only
      | exact grows_timeout _
      | refine pre_of_ok _ _ _ _ (by assumption) ?_
      | refine pre_of_raise _ _ _ _ (by assumption) ?_
      | exact grows_skipping_of _ _ _ _ _ _ (by assumption) (by assumption)
      | refine ih _ ?_
      | refine grows_ok _ _ _ ?_
      | refine grows_raise _ _ _ ?_
      | refine grows_gone _ _ _ _ ?_
      | refine grows_log _ _ _ ?_
      | refine grows_call _ _ _ _ ?_
      | refine grows_bind _ _ _ ?_ (fun _ _ h => ?_)
      | split

/-- The ghost log only grows: `evalcommand_normal`. -/
theorem grows_evalcommand_normal (W : World) (t : List Ev) (argv varlist : List String)
    (redir : List Redir) (path : String) (s : State)
    (h : ∃ u, s.trace = t ++ u) :
    Grows t (evalcommand_normal W argv varlist redir path s) := by
  unfold evalcommand_normal
  repeat' first
    | assumption
    | dsimp only
    | exact grows_timeout _
    | refine pre_of_ok _ _ _ _ (by assumption) ?_
    | refine pre_of_raise _ _ _ _ (by assumption) ?_
    | exact grows_skipping_of _ _ _ _ _ _ (by assumption) (by assumption)
    | refine grows_redirect W t _ _ _ ?_
    | refine grows_evalcommand_setvareqs W t _ _ ?_
    | refine grows_shellexec W t _ _ _ ?_
    | refine grows_ok _ _ _ ?_
    | refine grows_raise _ _ _ ?_
    | refine grows_gone _ _ _ _ ?_
    | refine grows_log _ _ _ ?_
    | refine grows_call _ _ _ _ ?_
    | refine grows_bind _ _ _ ?_ (fun _ _ h => ?_)
    | split

/-- The ghost log only grows: `evalcommand`. -/
theorem grows_evalcommand (W : World) (ev : Eval) (hev : GrowsEval ev) (t : List Ev)
    (fuel : Nat) (cmd : Node) (backgnd : Bool) (args : List Word) (redir : List Redir)
    (flags : Flags) (s : State)
    (h : ∃ u, s.trace = t ++ u) :
    Grows t (evalcommand W ev fuel cmd backgnd args redir flags s) := by
  unfold evalcommand
  repeat' first
    | assumption
    | dsimp only
    | exact grows_timeout _
    | refine pre_of_ok _ _ _ _ (by assumption) ?_
    | refine pre_of_raise _ _ _ _ (by assumption) ?_
    | exact grows_skipping_of _ _ _ _ _ _ (by assumption) (by assumption)
    | refine grows_expandargs W t _ _ _ ?_
    | refine grows_expredir W t _ _ ?_
    | refine grows_evalcommand_parent W t _ _ _ _ ?_
    | refine grows_evalcommand_function W ev hev t _ _ _ _ _ ?_
    | refine grows_evalcommand_builtin W ev hev t _ _ _ _ _ _ _ _ _ ?_
    | refine grows_evalcommand_normal W t _ _ _ _ _ ?_
    | refine grows_ok _ _ _ ?_
    | refine grows_raise _ _ _ ?_
    | refine grows_gone _ _ _ _ ?_
    | refine grows_log _ _ _ ?_
    | refine grows_call _ _ _ _ ?_
    | refine grows_bind _ _ _ ?_ (fun _ _ h => ?_)
    | split

/-- The ghost log only grows: the `free_traps` step. -/
theorem grows_free_traps (W : World) (t : List Ev) (n : Node) (s : State)
    (h : ∃ u, s.trace = t ++ u) :
    Grows t (evaltree_free_traps W n s) := by
  unfold evaltree_free_traps
  repeat' first
    | assumption
    | dsimp only
    | exact grows_timeout _
    | refine pre_of_ok _ _ _ _ (by assumption) ?_
    | refine pre_of_raise _ _ _ _ (by assumption) ?_
    | exact grows_skipping_of _ _ _ _ _ _ (by assumption) (by assumption)
    | refine grows_ok _ _ _ ?_
    | refine grows_raise _ _ _ ?_
    | refine grows_gone _ _ _ _ ?_
    | refine grows_log _ _ _ ?_
    | refine grows_call _ _ _ _ ?_
    | refine grows_bind _ _ _ ?_ (fun _ _ h => ?_)
    | split

/-- The `do` loop of `evaltree` only appends to the ghost log, after the event
of its first round. -/
theorem grows_evaltree_do (W : World) (ev : Eval) (hev : GrowsEval ev) (t : List Ev)
    (flags : Flags) (fuel : Nat) :
    ∀ n s, (∃ u, (s.log (.evaltree n flags s.loopnest s.funcnest)).trace = t ++ u) →
      Grows t (evaltree_do W ev fuel n flags s) := by
  induction fuel with
  | zero => intro n s _; exact grows_timeout t
  | succ k ih =>
    intro n s h
    unfold evaltree_do
    dsimp only
    refine grows_bind _ _ _ (grows_free_traps W t _ _ h) (fun _ s h => ?_)
    cases n <;> dsimp only
    repeat' first
      | assumption
      | dsimp only
      | exact grows_timeout _
      | refine pre_of_ok _ _ _ _ (by assumption) ?_
      | refine pre_of_raise _ _ _ _ (by assumption) ?_
      | exact grows_skipping_of _ _ _ _ _ _ (by assumption) (by assumption)
      | refine hev _ _ _ _ ?_
      | refine ih _ _ ?_
      | refine grows_evalcommand W ev hev t _ _ _ _ _ _ _ ?_
      | refine grows_evalpipe W t _ _ _ _ ?_
      | refine grows_evalredir W ev hev t _ _ _ _ ?_
      | refine grows_evalsubshell W ev hev t _ _ _ _ _ _ ?_
      | refine grows_evalloop ev hev t _ _ _ _ _ _ ?_
      | refine grows_evalfor W ev hev t _ _ _ _ _ ?_
      | refine grows_evalcase W ev hev t _ _ _ _ ?_
      | refine grows_ok _ _ _ ?_
      | refine grows_raise _ _ _ ?_
      | refine grows_gone _ _ _ _ ?_
      | refine grows_log _ _ _ ?_
      | refine grows_call _ _ _ _ ?_
      | refine grows_bind _ _ _ ?_ (fun _ _ h => ?_)
      | split

/-- The tree evaluator only appends to the ghost log. -/
theorem grows_evaltree (W : World) (fuel : Nat) : GrowsEval (evaltree W fuel) := by
  induction fuel with
  | zero => intro n fl s t _; exact grows_timeout t
  | succ k ih =>
    intro n fl s t h
    cases n with
    | none =>
      unfold evaltree
      repeat' first
        | assumption
        | dsimp only
        | exact grows_timeout _
        | refine pre_of_ok _ _ _ _ (by assumption) ?_
        | refine pre_of_raise _ _ _ _ (by assumption) ?_
        | exact grows_skipping_of _ _ _ _ _ _ (by assumption) (by assumption)
        | refine grows_out2 W t _ _ _ ?_
        | refine grows_ok _ _ _ ?_
        | refine grows_raise _ _ _ ?_
        | refine grows_gone _ _ _ _ ?_
        | refine grows_log _ _ _ ?_
        | refine grows_call _ _ _ _ ?_
        | refine grows_bind _ _ _ ?_ (fun _ _ h => ?_)
        | split
    | some n =>
      unfold evaltree
      repeat' first
        | assumption
        | dsimp only
        | exact grows_timeout _
        | refine pre_of_ok _ _ _ _ (by assumption) ?_
        | refine pre_of_raise _ _ _ _ (by assumption) ?_
        | exact grows_skipping_of _ _ _ _ _ _ (by assumption) (by assumption)
        | refine grows_out2 W t _ _ _ ?_
        | refine grows_evaltree_do W _ ih t _ _ _ _ ?_
        | refine grows_ok _ _ _ ?_
        | refine grows_raise _ _ _ ?_
        | refine grows_gone _ _ _ _ ?_
        | refine grows_log _ _ _ ?_
        | refine grows_call _ _ _ _ ?_
        | refine grows_bind _ _ _ ?_ (fun _ _ h => ?_)
        | split

/-- After `out2` with `do_etest` false the ghost log has gained at most the
event of `dotrap`. -/
theorem out2_trace (W : World) (flags : Flags) (s1 sf : State)
    (h : (evaltree_out2 W flags false s1).state? = some sf) :
    sf.trace = s1.trace ∨ sf.trace = s1.trace ++ [.dotrap] := by
  unfold evaltree_out2 evaltree_traps at h
  by_cases hp : s1.pendingsigs = true
  · right
    simp only [hp, if_true] at h
    unfold call at h
    generalize W.dotrap s1 = x at h
    cases x with
    | ret a s2 =>
      simp only [Res.bind, Bool.false_eq_true, and_false, if_false] at h
      split at h <;> simp only [exraise, Res.state?, Option.some.injEq] at h <;> subst h <;> rfl
    | raise e s2 =>
      simp only [Res.bind, Res.state?, Option.some.injEq] at h
      subst h; rfl
    | exit st s2 =>
      simp only [Res.bind, Res.state?, Option.some.injEq] at h
      subst h; rfl
  · left
    simp only [hp, if_false, Res.bind, Bool.false_eq_true, and_false] at h
    split at h <;> simp only [exraise, Res.state?, Option.some.injEq] at h <;> subst h <;> rfl

/-- One round of the `do` loop on `A && B` or `A || B`, up to the choice
between leaving and going on with `B`. -/
theorem evaltree_short_circuit_step (W : World) (k : Nat) (A : Option Node) (B : Node)
    (flags : Flags) (isAnd : Bool) (n : Node) (s s0 s1 : State)
    (hn : n = if isAnd then .NAND A (some B) else .NOR A (some B))
    (hnf : s.nflag = false)
    (h0 : evaltree_free_traps W n (s.log (.evaltree n flags s.loopnest s.funcnest)) = .ok () s0)
    (hA : evaltree W (k + 1) A EV_TESTED s0 = .ok () s1) :
    evaltree W (k + 2) (some n) flags s =
      (if s1.nflag = true ∨ s1.evalskip ≠ .SKIPNONE
          ∨ (if isAnd then s1.exitstatus ≠ 0 else s1.exitstatus = 0)
        then Res.ok false s1
        else evaltree_do W (evaltree W (k + 1)) k B flags s1).bind
        (evaltree_out2 W flags) := by
  have e1 : evaltree W (k + 2) (some n) flags s =
      (evaltree_do W (evaltree W (k + 1)) (k + 1) n flags s).bind
        (evaltree_out2 W flags) := by
    rw [evaltree]
    rw [if_neg (by rw [hnf]; decide)]
  rw [e1]
  congr 1
  rw [evaltree_do]
  dsimp only
  rw [h0]
  cases isAnd
  · have hn1 : n = .NOR A (some B) := hn
    subst hn1
    dsimp only [Res.bind]
    rw [hA]
    rfl
  · have hn1 : n = .NAND A (some B) := hn
    subst hn1
    dsimp only [Res.bind]
    rw [hA]
    rfl

/-- The common part of C1 for `&&` (`isAnd`) and `||`. -/
theorem evaltree_short_circuit (W : World) (fuel : Nat) (A : Option Node) (B : Node)
    (flags : Flags) (isAnd : Bool) (n : Node) (s s0 s1 sf : State)
    (hn : n = if isAnd then .NAND A (some B) else .NOR A (some B))
    (hnf : s.nflag = false)
    (h0 : evaltree_free_traps W n (s.log (.evaltree n flags s.loopnest s.funcnest)) = .ok () s0)
    (hA : evaltree W fuel A EV_TESTED s0 = .ok () s1)
    (hsf : (evaltree W (fuel + 1) (some n) flags s).state? = some sf) :
    evaluatedNext B flags s1 sf ↔
      (s1.nflag = false ∧ s1.evalskip = .SKIPNONE
        ∧ (if isAnd then s1.exitstatus = 0 else s1.exitstatus ≠ 0)) := by
  cases fuel with
  | zero => simp [evaltree] at hA
  | succ k =>
    have hstep := evaltree_short_circuit_step W k A B flags isAnd n s s0 s1 hn hnf h0 hA
    rw [hstep] at hsf
    by_cases hstop : s1.nflag = true ∨ s1.evalskip ≠ .SKIPNONE
            ∨ (if isAnd then s1.exitstatus ≠ 0 else s1.exitstatus = 0)
    · rw [if_pos hstop] at hsf
      simp only [Res.bind] at hsf
      have htr := out2_trace W flags s1 sf hsf
      constructor
      · intro hev
        exfalso
        unfold evaluatedNext at hev
        rcases htr with htr | htr
        · rw [htr] at hev; simp at hev
        · rw [htr] at hev; simp at hev
      · intro hc
        exfalso
        rcases hstop with h1 | h1 | h1
        · rw [hc.1] at h1; exact absurd h1 (by decide)
        · exact h1 hc.2.1
        · cases isAnd <;> simp_all
    · rw [if_neg hstop] at hsf
      have hg : Grows (s1.trace ++ [.evaltree B flags s1.loopnest s1.funcnest])
          ((evaltree_do W (evaltree W (k + 1)) k B flags s1).bind (evaltree_out2 W flags)) :=
        grows_bind _ _ _
          (grows_evaltree_do W _ (grows_evaltree W (k + 1)) _ flags k B s1 ⟨[], by simp [State.log]⟩)
          fun d s h => grows_out2 W _ _ _ _ h
      obtain ⟨u, hu⟩ := hg sf hsf
      constructor
      · intro _
        refine ⟨?_, ?_, ?_⟩
        · by_contra h1; exact hstop (Or.inl (by simpa using h1))
        · by_contra h1; exact hstop (Or.inr (Or.inl h1))
        · cases isAnd <;> simp_all
      · intro _
        unfold evaluatedNext
        rw [hu, List.append_assoc, List.getElem?_append_right (le_refl _)]
        simp

/-- **C1, as the claim states it, fails.** Inside a loop, in
`break && echo yes` the left operand leaves `exitstatus = 0` (and the skip
`SKIPBREAK`) and `echo yes` is not evaluated; inside a function, in
`return 1 || echo no` the left operand leaves `exitstatus = 1` (and the skip
`SKIPFUNC`) and `echo no` is not evaluated. -/
theorem evaltree_and_or_counterexample :
    (evaltree sh 3 (cmd ["break"]) EV_TESTED brkS0 = .ok () brkS1
      ∧ brkS1.exitstatus = 0
      ∧ (evaltree sh 4 (some brkNode) EV_NONE inLoop).state? = some brkSf
      ∧ ¬ evaluatedNext (.NCMD false ["echo", "yes"] []) EV_NONE brkS1 brkSf
      ∧ (evaltree sh 4 (some brkNode) EV_NONE inLoop).summary = .returned 0 [["break"]]
      ∧ (evaltree sh 6 brkLoop EV_NONE init).summary = .returned 0 [["true"], ["break"]])
    ∧ (evaltree sh 3 (cmd ["return", "1"]) EV_TESTED retS0 = .ok () retS1
      ∧ retS1.exitstatus ≠ 0
      ∧ (evaltree sh 4 (some retNode) EV_NONE inF).state? = some retSf
      ∧ ¬ evaluatedNext (.NCMD false ["echo", "no"] []) EV_NONE retS1 retSf
      ∧ (evaltree sh 4 (some retNode) EV_NONE inF).summary = .returned 1 [["return", "1"]]) := by
  refine ⟨⟨rfl, by decide, rfl, ?_, by decide, by decide⟩, ⟨rfl, by decide, rfl, ?_, by decide⟩⟩
  · intro h
    have h1 := (evaltree_short_circuit sh 3 (cmd ["break"]) (.NCMD false ["echo", "yes"] [])
      EV_NONE true brkNode inLoop brkS0 brkS1 brkSf rfl rfl rfl rfl rfl).1 h
    exact absurd h1.2.1 (by decide)
  · intro h
    have h1 := (evaltree_short_circuit sh 3 (cmd ["return", "1"]) (.NCMD false ["echo", "no"] [])
      EV_NONE false retNode inF retS0 retS1 retSf rfl rfl rfl rfl rfl).1 h
    exact absurd h1.2.1 (by decide)

/-- **C1, amended.** With `nflag` off, on `A && B` (resp. `A || B`), once the
evaluation of `A` has returned in the state `s1`: the `do` loop of `evaltree`
goes on with a round on `B` iff in `s1` `nflag` is still off, no skip is
pending and `exitstatus = 0` (resp. `exitstatus ≠ 0`).  `sf` is the state in
which the `evaltree` call on the node ends, and `evaluatedNext` reads the
round on `B` off its ghost log. -/
theorem evaltree_and_or (W : World) (fuel : Nat) (A : Option Node) (B : Node) (flags : Flags)
    (s s0 s1 sf : State) (hnf : s.nflag = false) :
    (evaltree_free_traps W (.NAND A (some B))
          (s.log (.evaltree (.NAND A (some B)) flags s.loopnest s.funcnest)) = .ok () s0 →
      evaltree W fuel A EV_TESTED s0 = .ok () s1 →
      (evaltree W (fuel + 1) (some (.NAND A (some B))) flags s).state? = some sf →
      (evaluatedNext B flags s1 sf ↔
        (s1.nflag = false ∧ s1.evalskip = .SKIPNONE ∧ s1.exitstatus = 0)))
    ∧ (evaltree_free_traps W (.NOR A (some B))
          (s.log (.evaltree (.NOR A (some B)) flags s.loopnest s.funcnest)) = .ok () s0 →
      evaltree W fuel A EV_TESTED s0 = .ok () s1 →
      (evaltree W (fuel + 1) (some (.NOR A (some B))) flags s).state? = some sf →
      (evaluatedNext B flags s1 sf ↔
        (s1.nflag = false ∧ s1.evalskip = .SKIPNONE ∧ s1.exitstatus ≠ 0))) := by
  constructor
  · intro h0 hA hsf
    have h := evaltree_short_circuit W fuel A B flags true _ s s0 s1 sf rfl hnf h0 hA hsf
    simpa using h
  · intro h0 hA hsf
    have h := evaltree_short_circuit W fuel A B flags false _ s s0 s1 sf rfl hnf h0 hA hsf
    simpa using h

/-- A run of C1: in `true && echo yes` the round on `echo yes` follows the
evaluation of `true`. -/
theorem evaltree_and_or_witness :
    evaluatedNext (.NCMD false ["echo", "yes"] []) EV_NONE andS1 andSf :=
  ((evaltree_and_or sh 3 (cmd ["true"]) (.NCMD false ["echo", "yes"] []) EV_NONE init andS0
    andS1 andSf rfl).1 rfl rfl rfl).2 ⟨rfl, rfl, rfl⟩

/-! ## `EV_EXIT`: the call does not return -/

/-- With `EV_EXIT` the end of `evaltree` from `out2` does not return: once the
pending traps have run it exits the shell or raises `EXEXIT`. -/
theorem evaltree_out2_exit (W : World) (flags : Flags) (hex : flags.exit = true)
    (d : Bool) (s : State) :
    (∀ s1, evaltree_out2 W flags d s ≠ .ok () s1)
    ∧ ∀ s0, evaltree_traps W s = .ok () s0 →
        evaltree_out2 W flags d s = exitshell .eflag s0.exitstatus s0
        ∨ evaltree_out2 W flags d s = exraise .EXEXIT s0 := by
  have h2 : ∀ s0, evaltree_traps W s = .ok () s0 →
      evaltree_out2 W flags d s = exitshell .eflag s0.exitstatus s0
      ∨ evaltree_out2 W flags d s = exraise .EXEXIT s0 := by
    intro s0 h0
    unfold evaltree_out2
    rw [h0]
    dsimp only [Res.bind]
    split
    · exact Or.inl rfl
    · exact Or.inr rfl
  refine ⟨fun s1 h => ?_, h2⟩
  have h3 := h
  unfold evaltree_out2 at h3
  obtain ⟨_, s0, h0, _⟩ := bind_eq_ok _ _ _ _ h3
  rcases h2 s0 h0 with h4 | h4
  · rw [h4] at h
    exact absurd h (by simp [exitshell])
  · rw [h4] at h
    exact absurd h (by simp [exraise])

/-- **C19.** For every node, the null node included, every flag word with
`EV_EXIT` set and every state (noexec on or off), `evaltree` does not return
normally, whatever the fuel: its result is an exception (`EXEXIT` raised at
`out2`, or another one propagated), an exit of the shell, or the run is still
going when the fuel ends.  In particular the calls
`evaltree(..., flags | EV_EXIT)` do not return. -/
theorem evaltree_exit_never_returns (W : World) (fuel : Nat) (n : Option Node) (flags : Flags)
    (s : State) (hex : flags.exit = true) :
    (∀ s1, evaltree W fuel n flags s ≠ .ok () s1)
    ∧ (∀ (fl : Flags) s1, evaltree W fuel n fl.setExit s ≠ .ok () s1) := by
  have main : ∀ (fl : Flags), fl.exit = true → ∀ s1, evaltree W fuel n fl s ≠ .ok () s1 := by
    intro fl hfl s1 h
    cases fuel with
    | zero => simp [evaltree] at h
    | succ k =>
      cases n with
      | none =>
        rw [evaltree] at h
        exact (evaltree_out2_exit W fl hfl _ _).1 s1 h
      | some n =>
        rw [evaltree] at h
        split at h
        · exact (evaltree_out2_exit W fl hfl _ _).1 s1 h
        · obtain ⟨d, s0, _, h1⟩ := bind_eq_ok _ _ _ _ h
          exact (evaltree_out2_exit W fl hfl _ _).1 s1 h1
  exact ⟨main flags hex, fun fl => main fl.setExit rfl⟩

/-- A run of C19: with `EV_EXIT`, the null node ends by raising `EXEXIT` and
`false` ends in the exit of the shell with status 1. -/
theorem evaltree_exit_never_returns_witness :
    ((∀ s1, evaltree sh 3 none EV_EXIT init ≠ .ok () s1)
      ∧ (∀ (fl : Flags) s1, evaltree sh 3 none fl.setExit init ≠ .ok () s1))
    ∧ (evaltree sh 3 none EV_EXIT init).summary = .raised .EXEXIT 0 []
    ∧ (evaltree sh 3 (cmd ["false"]) EV_EXIT init).summary = .exited .evexit 1 [["false"]] :=
  ⟨evaltree_exit_never_returns sh 3 none EV_EXIT init rfl, by decide, by decide⟩

/-! ## `evalcmd` -/

/-- The loop of `evalcmd` that fills `concat` continues an accumulated string
as `String.intercalate` does. -/
theorem evalcmd_concat_go (ap : List String) :
    ∀ acc p, String.intercalate.go (acc ++ p) " " ap = acc ++ evalcmd_concat p ap := by
  induction ap with
  | nil => intro acc p; rfl
  | cons a ap ih =>
    intro acc p
    rw [String.intercalate.go, evalcmd_concat, ih (acc ++ p ++ " ") a]
    simp only [String.append_assoc]

/-- The string `evalcmd` builds is the arguments joined by one space. -/
theorem evalcmd_concat_eq (p : String) (ap : List String) :
    evalcmd_concat p ap = " ".intercalate (p :: ap) := by
  have h := evalcmd_concat_go ap "" p
  simp only [String.empty_append] at h
  rw [String.intercalate, h]

/-- **C13.** For `argv = ["eval", a1, ..., ak]` with `k ≥ 1`, `evalcmd` is one
call of `evalstring`, on the arguments joined by single spaces (`a1` itself
when `k = 1`) with the flag word `builtin_flags & EV_TESTED`, followed by the
return of the `exitstatus` that call left; the joined string has the
characters of `a1`, and for each further argument one space and its
characters.  For `k = 0` it evaluates nothing, sets `exitstatus` to 0 and
returns 0. -/
theorem evalcmd_spec (W : World) (ev : Eval) (fuel : Nat) (a0 : String) (s : State) :
    (∀ a1 rest,
      evalcmd W ev fuel (a0 :: a1 :: rest) s =
        (evalstring W ev fuel (" ".intercalate (a1 :: rest)) s.builtin_flags.onlyTested s).bind
          fun _ s1 => .ok s1.exitstatus s1)
    ∧ (∀ a1, " ".intercalate [a1] = a1)
    ∧ (∀ a1 a2 rest,
        " ".intercalate (a1 :: a2 :: rest) = a1 ++ " " ++ " ".intercalate (a2 :: rest))
    ∧ (∀ a1 rest v s1, evalcmd W ev fuel (a0 :: a1 :: rest) s = .ok v s1 →
        evalstring W ev fuel (" ".intercalate (a1 :: rest)) s.builtin_flags.onlyTested s
            = .ok () s1
          ∧ v = s1.exitstatus)
    ∧ evalcmd W ev fuel [a0] s = .ok 0 { s with exitstatus := 0 }
    ∧ (evalcmd W ev fuel [a0] s).state?.map State.trace = some s.trace := by
  have h1 : ∀ a1 rest,
      evalcmd W ev fuel (a0 :: a1 :: rest) s =
        (evalstring W ev fuel (" ".intercalate (a1 :: rest)) s.builtin_flags.onlyTested s).bind
          fun _ s1 => .ok s1.exitstatus s1 := by
    intro a1 rest
    rw [← evalcmd_concat_eq]
    rfl
  refine ⟨h1, fun a1 => rfl, fun a1 a2 rest => ?_, fun a1 rest v s1 h => ?_, rfl, rfl⟩
  · rw [← evalcmd_concat_eq, ← evalcmd_concat_eq]
    rfl
  · rw [h1] at h
    obtain ⟨u, s0, h2, h3⟩ := bind_eq_ok _ _ _ _ h
    simp only [Res.ok.injEq] at h3
    obtain ⟨h4, h5⟩ := h3
    subst h5
    exact ⟨h2, h4.symm⟩

/-! ## `parse_command_args` -/

/-- The scan of one option word: it reaches the end iff every character is
`p`, and then `use_syspath` is set iff there was one. -/
theorem parse_command_opt_spec (cs : List Char) :
    ∀ u, (parse_command_opt cs u).1 = cs.all (fun c => c == 'p')
      ∧ ((parse_command_opt cs u).1 = true →
          (parse_command_opt cs u).2 = (u || cs.contains 'p')) := by
  induction cs with
  | nil => intro u; simp [parse_command_opt]
  | cons c cs ih =>
    intro u
    unfold parse_command_opt
    by_cases hc : c = 'p'
    · subst hc
      rw [if_pos rfl]
      obtain ⟨h1, h2⟩ := ih true
      refine ⟨by rw [h1]; simp, fun h => ?_⟩
      rw [h2 h]
      simp
    · rw [if_neg hc]
      simp [hc]

/-- A word whose characters are `--` is the word `--`. -/
theorem eq_dashes_of_toList (w : String) (h : w.toList = ['-', '-']) : w = "--" :=
  String.ext h

/-- The loop of `parse_command_args` against the specification. -/
theorem parse_command_loop_spec (rest : List String) :
    ∀ k u,
      ((rest.takeWhile isOptionWord).any badOption = true →
        (parse_command_loop rest k u).1 = 0)
      ∧ ((rest.takeWhile isOptionWord).any badOption = false →
        parse_command_loop rest k u =
          (k + (rest.takeWhile isOptionWord).length
              + (if (rest.drop (rest.takeWhile isOptionWord).length).head? == some "--"
                  then 1 else 0),
           u || (rest.takeWhile isOptionWord).any hasP)) := by
  induction rest with
  | nil => intro k u; simp [parse_command_loop]
  | cons w rest ih =>
    intro k u
    unfold parse_command_loop
    split
    · rename_i cs hw
      by_cases hd : cs = ['-']
      · subst hd
        have hww : w = "--" := eq_dashes_of_toList w hw
        subst hww
        have hno : isOptionWord "--" = false := by decide
        rw [if_pos rfl]
        simp [List.takeWhile, hno]
      · rw [if_neg hd]
        have hne : w ≠ "--" := by
          intro h
          subst h
          have : cs = ['-'] := by
            have h2 : ("--" : String).toList = ['-', '-'] := by decide
            rw [h2] at hw
            simp only [List.cons.injEq, true_and] at hw
            exact hw.symm
          exact hd this
        have hyes : isOptionWord w = true := by
          unfold isOptionWord
          rw [hw]
          simp [hne]
        have hbad : badOption w = !(cs.all fun c => c == 'p') := by
          unfold badOption
          rw [hw]
          simp only [List.all_eq_not_any_not, Bool.not_not, List.tail_cons]
          rfl
        have hp : hasP w = cs.contains 'p' := by
          unfold hasP
          rw [hw]
          rfl
        obtain ⟨ho1, ho2⟩ := parse_command_opt_spec cs u
        simp only [List.takeWhile, hyes, List.any_cons, List.length_cons, List.drop_succ_cons]
        cases hres : parse_command_opt cs u with
        | mk b u1 =>
          rw [hres] at ho1 ho2
          simp only at ho1 ho2
          cases b with
          | true =>
            have hu1 := ho2 rfl
            subst hu1
            have hb : badOption w = false := by rw [hbad, ← ho1]; rfl
            obtain ⟨i1, i2⟩ := ih (k + 1) (u || cs.contains 'p')
            simp only [hb, Bool.false_or, hp]
            refine ⟨i1, fun h => ?_⟩
            rw [i2 h]
            simp only [Prod.mk.injEq, Bool.or_assoc, and_true]
            omega
          | false =>
            have hb : badOption w = true := by rw [hbad, ← ho1]; rfl
            simp [hb]
    · rename_i hw
      have hno : isOptionWord w = false := by
        simp only [isOptionWord, Bool.and_eq_false_imp, beq_iff_eq]
        intro h
        exfalso
        cases hl : w.toList with
        | nil => rw [hl] at h; simp at h
        | cons c cs =>
          rw [hl] at h
          simp only [List.head?_cons, Option.some.injEq] at h
          subst h
          exact hw cs hl
      have hne : w ≠ "--" := by
        intro h
        subst h
        exact hw ['-'] (by decide)
      simp [List.takeWhile, hno, hne]

/-- The words taken from the front of a list are no more than the list. -/
theorem takeWhile_length_le (p : String → Bool) (l : List String) :
    (l.takeWhile p).length ≤ l.length := by
  induction l with
  | nil => exact Nat.le_refl _
  | cons a l ih =>
    rw [List.takeWhile]
    split
    · exact Nat.succ_le_succ ih
    · exact Nat.zero_le _

/-- The loop of `evalcommand` that implements `command` ends within its
bound. -/
theorem evalcommand_lookup_total (W : World) (s : State) (fuel : Nat) :
    ∀ argv nofunc path, argv.length < fuel →
      (evalcommand_lookup W s fuel argv nofunc path).isSome = true := by
  induction fuel with
  | zero => intro argv nofunc path h; omega
  | succ k ih =>
    intro argv nofunc path h
    unfold evalcommand_lookup
    dsimp only
    split
    · rfl
    · split
      · rfl
      · rename_i hr
        split
        · rfl
        · rename_i hl
          apply ih
          rw [List.length_drop] at hl ⊢
          omega

/-- **C20.** For an argument vector with `argc ≥ 1`, with `opts` the words
after word 0 that begin with `-`, up to the first word that does not or that
is `--`: `parse_command_args` returns 0 iff a word of `opts` has a character
after its leading `-` other than `p`; otherwise it returns
`r = 1 + |opts| + (1 if the scan ended at "--")`, with `1 ≤ r ≤ argc`, and
`use_syspath` is set iff a word of `opts` has a `p`.  A round of the `command`
loop of `evalcommand` that goes on has used `r ≥ 1` words, so `argc`
decreases, and the loop ends within `argc` rounds. -/
theorem parse_command_args_spec (argv : List String) (hargc : 1 ≤ argv.length) :
    ((parse_command_args argv).1 = 0 ↔ (scannedOptions argv).any badOption = true)
    ∧ ((scannedOptions argv).any badOption = false →
        (parse_command_args argv).1
            = 1 + (scannedOptions argv).length + (if endsAtDashes argv then 1 else 0)
          ∧ 1 ≤ (parse_command_args argv).1
          ∧ (parse_command_args argv).1 ≤ argv.length
          ∧ ((parse_command_args argv).2 = true ↔ (scannedOptions argv).any hasP = true))
    ∧ ((parse_command_args argv).1 ≠ 0 →
        (argv.drop (parse_command_args argv).1).length < argv.length)
    ∧ (∀ (W : World) (s : State) nofunc path,
        (evalcommand_lookup W s (argv.length + 1) argv nofunc path).isSome = true) := by
  obtain ⟨h1, h2⟩ := parse_command_loop_spec argv.tail 1 false
  have hlen : (scannedOptions argv).length
      + (if endsAtDashes argv then 1 else 0) ≤ argv.tail.length := by
    unfold endsAtDashes scannedOptions
    have hle := takeWhile_length_le isOptionWord argv.tail
    split
    · rename_i hd
      have : (List.drop (List.takeWhile isOptionWord argv.tail).length argv.tail).length ≠ 0 := by
        intro h0
        rw [List.length_eq_zero] at h0
        rw [h0] at hd
        simp at hd
      rw [List.length_drop] at this
      omega
    · omega
  have htl : argv.tail.length = argv.length - 1 := List.length_tail argv
  have hgood : (scannedOptions argv).any badOption = false →
      (parse_command_args argv).1
            = 1 + (scannedOptions argv).length + (if endsAtDashes argv then 1 else 0)
          ∧ 1 ≤ (parse_command_args argv).1
          ∧ (parse_command_args argv).1 ≤ argv.length
          ∧ ((parse_command_args argv).2 = true ↔ (scannedOptions argv).any hasP = true) := by
    intro hb
    have h3 := h2 hb
    have e1 : (parse_command_args argv).1
        = 1 + (scannedOptions argv).length + (if endsAtDashes argv then 1 else 0) := by
      unfold parse_command_args
      rw [h3]
      rfl
    have e2 : (parse_command_args argv).2 = (scannedOptions argv).any hasP := by
      unfold parse_command_args
      rw [h3]
      rfl
    refine ⟨e1, by omega, by omega, by rw [e2]⟩
  refine ⟨⟨fun h0 => ?_, fun hb => h1 hb⟩, hgood, fun hne => ?_, fun W s nofunc path => ?_⟩
  · cases hb : (scannedOptions argv).any badOption with
    | true => rfl
    | false =>
      have := (hgood hb).2.1
      omega
  · rw [List.length_drop]
    omega
  · exact evalcommand_lookup_total W s _ argv nofunc path (by omega)

/-- A run of C20: `command -p -- ls` uses three words and sets `use_syspath`;
`command -v ls` is handed to `type`. -/
theorem parse_command_args_spec_witness :
    parse_command_args ["command", "-p", "--", "ls"] = (3, true)
    ∧ (parse_command_args ["command", "-v", "ls"]).1 = 0
    ∧ ((parse_command_args ["command", "-p", "--", "ls"]).1 = 0
        ↔ (scannedOptions ["command", "-p", "--", "ls"]).any badOption = true) :=
  ⟨by decide, by decide,
    (parse_command_args_spec ["command", "-p", "--", "ls"] (by decide)).1⟩

/-! ## Exceptions raised by a builtin -/

/-- The command type the guarded part of the builtin case leaves is the one
found, or `CMDSPLBLTIN` for the empty command outside `command`. -/
theorem evalcommand_bltinbody_cmdtype (W : World) (ev : Eval) (fuel : Nat) (ce : cmdentry)
    (argv varlist : List String) (redir : List Redir) (nofunc : Bool)
    (path : String × Bool) (flags : Flags) (s : State) :
    (evalcommand_bltinbody W ev fuel ce argv varlist redir nofunc path flags s).2 = ce.cmdtype
    ∨ (argv.length = 0 ∧ nofunc = false) := by
  unfold evalcommand_bltinbody
  dsimp only
  split
  · dsimp only
    by_cases h : argv.length = 0 ∧ (!nofunc) = true
    · right
      exact ⟨h.1, by simpa using h.2⟩
    · left
      rw [if_neg h]
  · left
    rfl

/-- **C14.** When the builtin run by the builtin case of `evalcommand`, without
`EV_EXIT`, raises the exception `e` in the state `s1` (`ct` is the command
type at that moment): `exitstatus` becomes `128 + SIGINT` for `EXINT`,
`exerrno` for `EXEXEC`, stays for `EXEXIT` and becomes 2 otherwise, and the
handler is restored; `e` is re-raised iff it is neither `EXERROR` nor
`EXEXEC`, or the builtin is special.  An `EXERROR` or `EXEXEC` of a regular
builtin, a special builtin found through `command` included, does not
propagate: `evalcommand` returns with `exitstatus` 2 or `exerrno`, after
`popredir` unless the builtin is `exec`. -/
theorem evalcommand_builtin_exception (W : World) (ev : Eval) (fuel : Nat) (ce : cmdentry)
    (argv varlist : List String) (redir : List Redir) (nofunc : Bool)
    (path : String × Bool) (flags : Flags) (s s1 : State) (e : Exc) (ct : CmdType)
    (hfl : flags.exit = false)
    (hraise : evalcommand_bltinbody W ev fuel ce argv varlist redir nofunc path flags
        { s with handler := s.handler + 1 } = (.raise e s1, ct)) :
    (((e ≠ .EXERROR ∧ e ≠ .EXEXEC) ∨ ct = .CMDSPLBLTIN) →
        evalcommand_builtin W ev fuel ce argv varlist redir nofunc path flags s
          = .raise e { s1 with exitstatus := bltinStatus W e s1, handler := s.handler })
    ∧ (¬ ((e ≠ .EXERROR ∧ e ≠ .EXEXEC) ∨ ct = .CMDSPLBLTIN) →
        evalcommand_builtin W ev fuel ce argv varlist redir nofunc path flags s
          = .ok () (if ce.bltin ≠ .execcmd
              then popredir { s1 with exitstatus := bltinStatus W e s1, handler := s.handler }
              else { s1 with exitstatus := bltinStatus W e s1, handler := s.handler }))
    ∧ ((e = .EXERROR ∨ e = .EXEXEC) → bltinStatus W e s1 = (if e = .EXERROR then 2 else s1.exerrno))
    ∧ (nofunc = true → ce.cmdtype ≠ .CMDSPLBLTIN → ct ≠ .CMDSPLBLTIN) := by
  have hend : evalcommand_builtin W ev fuel ce argv varlist redir nofunc path flags s
      = evalcommand_bltinend W ce.bltin ct flags s.handler (.raise e s1) := by
    unfold evalcommand_builtin
    dsimp only
    rw [hraise]
  have hst : (match e with
      | .EXINT => { s1 with exitstatus := W.SIGINT + 128 }
      | .EXEXEC => { s1 with exitstatus := s1.exerrno }
      | .EXEXIT => s1
      | _ => { s1 with exitstatus := 2 }) = { s1 with exitstatus := bltinStatus W e s1 } := by
    cases e <;> simp [bltinStatus, Int.add_comm]
  refine ⟨fun hc => ?_, fun hc => ?_, fun he => ?_, fun hn hce hct => ?_⟩
  · rw [hend]
    unfold evalcommand_bltinend
    dsimp only
    rw [hst, if_neg (by simp [hfl]), if_pos hc]
    rfl
  · rw [hend]
    unfold evalcommand_bltinend
    dsimp only
    rw [hst, if_neg (by simp [hfl]), if_neg hc]
  · rcases he with he | he <;> subst he <;> rfl
  · have h2 := evalcommand_bltinbody_cmdtype W ev fuel ce argv varlist redir nofunc path flags
      { s with handler := s.handler + 1 }
    rw [hraise] at h2
    rcases h2 with h2 | h2
    · exact hce (by rw [← h2]; exact hct)
    · rw [hn] at h2
      exact absurd h2.2 (by decide)

/-- A run of C14: the error of `break 0` run through `command` is caught, and
`command break 0` returns with status 2; the bare special builtin `break 0`
raises it to the caller. -/
theorem evalcommand_builtin_exception_witness :
    evalcommand_builtin sh (evaltree sh 3) 3 breakEntry ["break", "0"] [] [] true
          ("/bin", false) EV_NONE init
        = .ok () (if breakEntry.bltin ≠ .execcmd
            then popredir { break0S1 with exitstatus := bltinStatus sh .EXERROR break0S1,
                                          handler := init.handler }
            else { break0S1 with exitstatus := bltinStatus sh .EXERROR break0S1,
                                 handler := init.handler })
    ∧ (evaltree sh 4 (cmd ["command", "break", "0"]) EV_NONE init).summary
        = .returned 2 [["break", "0"]]
    ∧ (evaltree sh 4 (cmd ["break", "0"]) EV_NONE init).summary
        = .raised .EXERROR 2 [["break", "0"]] :=
  ⟨(evalcommand_builtin_exception sh (evaltree sh 3) 3 breakEntry ["break", "0"] [] [] true
      ("/bin", false) EV_NONE init break0S1 .EXERROR .CMDBUILTIN rfl rfl).2.1 (by decide),
    by decide, by decide⟩

/-! ## The `Or` node -/

/-- **C16, as the claim states it, fails.** In `false || echo no` the left
operand leaves `exitstatus = 1`, no skip is pending, and the `do` loop goes on
with `echo no`, which runs; the claim says that `B` is evaluated only when the
status of `A` is 0 and is not evaluated when it is non-zero. -/
theorem evaltree_or_counterexample :
    evaltree sh 3 (cmd ["false"]) EV_TESTED orS0 = .ok () orS1
    ∧ orS1.exitstatus = 1
    ∧ orS1.evalskip = .SKIPNONE
    ∧ (evaltree sh 4 (some orNode) EV_NONE init).state? = some orSf
    ∧ evaluatedNext (.NCMD false ["echo", "no"] []) EV_NONE orS1 orSf
    ∧ (evaltree sh 4 (some orNode) EV_NONE init).summary
        = .returned 0 [["false"], ["echo", "no"]] :=
  ⟨rfl, by decide, by decide, rfl,
    (evaltree_short_circuit sh 3 (cmd ["false"]) (.NCMD false ["echo", "no"] [])
      EV_NONE false orNode init orS0 orS1 orSf rfl rfl rfl rfl rfl).2
      ⟨rfl, rfl, by decide⟩,
    by decide⟩

/-- **C16, amended.** On an `Or` node `A || B`, with `nflag` off, one round of
the `do` loop of `evaltree` evaluates `A` with `EV_TESTED` and then, in the
state `s1` that `A` left, goes on with `B` only when `exitstatus ≠ 0`, no skip
is pending and `nflag` is still off; when `exitstatus = 0` or a skip is
pending, `B` is not evaluated and `evaltree` ends from `s1` through `out2`. -/
theorem evaltree_or (W : World) (fuel : Nat) (A : Option Node) (B : Node) (flags : Flags)
    (s s0 s1 sf : State) (hnf : s.nflag = false)
    (h0 : evaltree_free_traps W (.NOR A (some B))
          (s.log (.evaltree (.NOR A (some B)) flags s.loopnest s.funcnest)) = .ok () s0)
    (hA : evaltree W (fuel + 1) A EV_TESTED s0 = .ok () s1)
    (hsf : (evaltree W (fuel + 2) (some (.NOR A (some B))) flags s).state? = some sf) :
    evaltree_do W (evaltree W (fuel + 1)) (fuel + 1) (.NOR A (some B)) flags s
        = (evaltree W (fuel + 1) A EV_TESTED s0).bind (fun _ s2 =>
            if s2.nflag ∨ s2.evalskip ≠ .SKIPNONE ∨ s2.exitstatus = 0 then .ok false s2
            else evaltree_do W (evaltree W (fuel + 1)) fuel B flags s2)
    ∧ (evaluatedNext B flags s1 sf →
        s1.exitstatus ≠ 0 ∧ s1.evalskip = .SKIPNONE ∧ s1.nflag = false)
    ∧ (s1.exitstatus = 0 ∨ s1.evalskip ≠ .SKIPNONE →
        ¬ evaluatedNext B flags s1 sf
        ∧ evaltree W (fuel + 2) (some (.NOR A (some B))) flags s
            = evaltree_out2 W flags false s1) := by
  have hsc := evaltree_short_circuit W (fuel + 1) A B flags false (.NOR A (some B)) s s0 s1 sf
    rfl hnf h0 hA hsf
  have hstep := evaltree_short_circuit_step W fuel A B flags false (.NOR A (some B)) s s0 s1
    rfl hnf h0 hA
  refine ⟨?_, fun h => ?_, fun h => ⟨fun hc => ?_, ?_⟩⟩
  · rw [evaltree_do]
    dsimp only
    rw [h0]
    rfl
  · have h1 := hsc.1 h
    exact ⟨by simpa using h1.2.2, h1.2.1, h1.1⟩
  · have h1 := hsc.1 hc
    rcases h with h | h
    · exact absurd h (by simpa using h1.2.2)
    · exact h h1.2.1
  · rw [hstep]
    have hc : s1.nflag = true ∨ s1.evalskip ≠ .SKIPNONE
        ∨ (if false = true then s1.exitstatus ≠ 0 else s1.exitstatus = 0) := by
      rcases h with h | h
      · exact Or.inr (Or.inr (by simpa using h))
      · exact Or.inr (Or.inl h)
    rw [if_pos hc]
    rfl

/-- A run of the amended C16: in `true || echo no` the left operand leaves
`exitstatus = 0` and `echo no` is not evaluated. -/
theorem evaltree_or_witness :
    ¬ evaluatedNext (.NCMD false ["echo", "no"] []) EV_NONE orTS1 orTSf
    ∧ evaltree sh 4 (some orTNode) EV_NONE init = evaltree_out2 sh EV_NONE false orTS1
    ∧ (evaltree sh 4 (some orTNode) EV_NONE init).summary = .returned 0 [["true"]] :=
  ⟨((evaltree_or sh 2 (cmd ["true"]) (.NCMD false ["echo", "no"] []) EV_NONE init orTS0
      orTS1 orTSf rfl rfl rfl rfl).2.2 (Or.inl rfl)).1,
    ((evaltree_or sh 2 (cmd ["true"]) (.NCMD false ["echo", "no"] []) EV_NONE init orTS0
      orTS1 orTSf rfl rfl rfl rfl).2.2 (Or.inl rfl)).2,
    by decide⟩

/-! ## The invariant of the skip state -/

/-- The operand of a control builtin is read without touching the skip state. -/
theorem operand_cases (W : World) (argv : List String) (dflt : Int) (s : State) :
    (∃ n, operand W argv dflt s = .ok n s)
    ∨ operand W argv dflt s = .raise .EXERROR (s.log (.error "Illegal number")) := by
  unfold operand
  split
  · unfold number
    split
    · exact Or.inl ⟨_, rfl⟩
    · exact Or.inr rfl
  · exact Or.inl ⟨_, rfl⟩

/-- The invariant holds in the initial state and after `stop_skipping`. -/
theorem skipInv_stop_skipping (s : State) : SkipInv init ∧ SkipInv (stop_skipping s) := by
  constructor <;> simp [SkipInv, stop_skipping, init]

/-- The builtin `breakcmd` keeps the invariant, however it ends. -/
theorem skipInv_breakcmd (W : World) (argv : List String) (s : State) (h : SkipInv s) :
    ∀ s1, (breakcmd W argv s).state? = some s1 → SkipInv s1 := by
  intro s1 h1
  have key : ∀ (m : Int) (k : skipstate), k ≠ .SKIPNONE →
      (if m > 0 then (Res.ok 0 { s with evalskip := k, skipcount := m } : Res Int)
        else Res.ok 0 s).state? = some s1 → SkipInv s1 := by
    intro m k hk h2
    split at h2
    · rename_i hpos
      simp only [Res.state?, Option.some.injEq] at h2
      subst h2
      exact ⟨fun _ => hk, fun _ => hpos⟩
    · simp only [Res.state?, Option.some.injEq] at h2
      subst h2
      exact h
  unfold breakcmd at h1
  rcases operand_cases W argv 1 s with ⟨n, hn⟩ | hn
  · rw [hn] at h1
    dsimp only [Res.bind] at h1
    by_cases hle : n ≤ 0
    · rw [if_pos hle] at h1
      simp only [error, Res.state?, Option.some.injEq] at h1
      subst h1
      exact h
    · rw [if_neg hle] at h1
      refine key _ _ ?_ h1
      split <;> simp
  · rw [hn] at h1
    simp only [Res.bind, Res.state?, Option.some.injEq] at h1
    subst h1
    exact h

/-- The builtin `returncmd` keeps the invariant, however it ends. -/
theorem skipInv_returncmd (W : World) (argv : List String) (s : State) (h : SkipInv s) :
    ∀ s1, (returncmd W argv s).state? = some s1 → SkipInv s1 := by
  intro s1 h1
  unfold returncmd at h1
  rcases operand_cases W argv s.exitstatus s with ⟨n, hn⟩ | hn
  · rw [hn] at h1
    dsimp only [Res.bind] at h1
    split at h1
    · simp only [Res.state?, Option.some.injEq] at h1
      subst h1
      simp [SkipInv]
    · split at h1
      · simp only [Res.state?, Option.some.injEq] at h1
        subst h1
        simp [SkipInv]
      · simp only [Res.state?, Option.some.injEq] at h1
        subst h1
        exact h
  · rw [hn] at h1
    simp only [Res.bind, Res.state?, Option.some.injEq] at h1
    subst h1
    exact h

/-- The block `skipping` of `evalloop` keeps the invariant. -/
theorem skipInv_evalloop_skipping (status : Int) (s : State) (h : SkipInv s) :
    SkipInv (evalloop_skipping status s).2.2 := by
  unfold SkipInv at h ⊢
  rw [evalloop_skipping_cases]
  cases hs : s.evalskip
  · simp only [hs]
    rw [hs] at h
    exact h
  · rw [hs] at h
    have hpos : s.skipcount > 0 := h.2 (by decide)
    dsimp only
    split
    · simp only [ne_eq, not_true_eq_false, iff_false, not_lt]
      omega
    · simp only [hs, ne_eq, reduceCtorEq, not_false_eq_true, iff_true]
      omega
  · rw [hs] at h
    have hpos : s.skipcount > 0 := h.2 (by decide)
    dsimp only
    split
    · simp only [ne_eq, not_true_eq_false, iff_false, not_lt]
      omega
    · simp only [hs, ne_eq, reduceCtorEq, not_false_eq_true, iff_true]
      omega
  · simp only [hs]
    rw [hs] at h
    exact h
  · simp only [hs]
    rw [hs] at h
    exact h

/-- The round of the second loop of `evalfor` on the word `w`: the skip
consumption at its boundary is the block `skipping` of `evalloop`. -/
theorem evalfor_loop_cons (W : World) (ev : Eval) (var : String) (body : Option Node)
    (flags : Flags) (w : String) (ws : List String) (status : Int) (s : State) :
    evalfor_loop W ev var body flags (w :: ws) status s =
      (call (.setvar var w) (W.setvar var w) s).bind fun _ s =>
      (ev body flags.onlyTested s).bind fun _ s =>
      if s.nflag then .ok s.exitstatus s
      else if s.evalskip ≠ .SKIPNONE then
        match (evalloop_skipping s.exitstatus s).1 with
        | .again =>
          evalfor_loop W ev var body flags ws s.exitstatus (evalloop_skipping s.exitstatus s).2.2
        | .leave => .ok s.exitstatus (evalloop_skipping s.exitstatus s).2.2
      else evalfor_loop W ev var body flags ws s.exitstatus s := by
  rw [evalfor_loop]
  congr 1
  funext _ s1
  congr 1
  funext _ s2
  dsimp only
  rw [evalloop_skipping_cases]
  cases hs : s2.evalskip
  · simp [hs]
  · by_cases hc : s2.skipcount - 1 ≤ 0 <;> simp [hs, hc]
  · by_cases hc : s2.skipcount - 1 ≤ 0 <;> simp [hs, hc]
  · simp [hs]
  · simp [hs]

/-- The second loop of `evalfor` keeps the invariant, the skip consumption at
its boundary included, if `setvar` and the evaluation of the body do. -/
theorem skipInv_evalfor_loop (W : World) (ev : Eval) (var : String) (body : Option Node)
    (flags : Flags)
    (hset : ∀ w s s1, SkipInv s → call (.setvar var w) (W.setvar var w) s = .ok () s1 →
      SkipInv s1)
    (hev : ∀ s s1, SkipInv s → ev body flags.onlyTested s = .ok () s1 → SkipInv s1)
    (ws : List String) :
    ∀ status s st sf, SkipInv s → evalfor_loop W ev var body flags ws status s = .ok st sf →
      SkipInv sf := by
  induction ws with
  | nil =>
    intro status s st sf h h1
    simp only [evalfor_loop, Res.ok.injEq] at h1
    rw [← h1.2]
    exact h
  | cons w ws ih =>
    intro status s st sf h h1
    rw [evalfor_loop_cons] at h1
    obtain ⟨_, s1, e1, h1⟩ := bind_eq_ok _ _ _ _ h1
    obtain ⟨_, s2, e2, h1⟩ := bind_eq_ok _ _ _ _ h1
    have i2 : SkipInv s2 := hev s1 s2 (hset w s s1 h e1) e2
    have i3 := skipInv_evalloop_skipping s2.exitstatus s2 i2
    by_cases hn : s2.nflag = true
    · rw [if_pos hn] at h1
      simp only [Res.ok.injEq] at h1
      rw [← h1.2]
      exact i2
    · rw [if_neg hn] at h1
      by_cases hsk : s2.evalskip ≠ .SKIPNONE
      · rw [if_pos hsk] at h1
        split at h1
        · exact ih _ _ st sf i3 h1
        · simp only [Res.ok.injEq] at h1
          rw [← h1.2]
          exact i3
      · rw [if_neg hsk] at h1
        exact ih _ _ st sf i2 h1

/-- The clearing of `SKIPFUNC` after a function call keeps the invariant: the
state `evalcommand` returns in has the skip state `(SKIPNONE, 0)` or the one
the body left. -/
theorem skipInv_function_clear (W : World) (ev : Eval) (func : Option Node)
    (redir : List Redir) (varlist : List String) (flags : Flags) (s s0 s1 sb : State)
    (hex : flags.exit = false)
    (hr : redirect W redir true s = .ok () s0)
    (hl : call (.listmklocal varlist) (W.listmklocal varlist)
            { s0 with handler := s0.handler + 1 } = .ok () s1)
    (hcap : s1.funcnest ≤ 999)
    (hb : ev func flags.testedExit { s1 with funcnest := s1.funcnest + 1 } = .ok () sb)
    (h : SkipInv sb) :
    ∃ sf, evalcommand_function W ev func redir varlist flags s = .ok () sf ∧ SkipInv sf := by
  obtain ⟨sf, h1, _, _, h2, h3⟩ :=
    evalcommand_function_return W ev func redir varlist flags s s0 s1 sb hex hr hl hcap hb
  refine ⟨sf, h1, ?_⟩
  by_cases hsk : sb.evalskip = .SKIPFUNC
  · have := h2 hsk
    simp only [State.skip, Prod.mk.injEq] at this
    simp [SkipInv, this.1, this.2]
  · have := h3 hsk
    simp only [State.skip, Prod.mk.injEq] at this
    unfold SkipInv at h ⊢
    rw [this.1, this.2]
    exact h

/-- **C17: the code at the failing input.** `break 2` inside two loops leaves
the skip state `(SKIPBREAK, 2)`, which satisfies the invariant
`count > 0 ⇔ kind ≠ None`; `reset_eval` in that state sets `evalskip` to
`SKIPNONE` and leaves `skipcount = 2`, so the invariant fails after it, while
`stop_skipping` in the same state gives `(SKIPNONE, 0)`. -/
theorem reset_eval_skipcount :
    break2S.skip = (.SKIPBREAK, 2)
    ∧ SkipInv break2S
    ∧ (reset_eval break2S).skip = (.SKIPNONE, 2)
    ∧ ¬ SkipInv (reset_eval break2S)
    ∧ (stop_skipping break2S).skip = (.SKIPNONE, 0) := by
  refine ⟨by decide, ?_, by decide, ?_, by decide⟩
  · unfold SkipInv
    decide
  · unfold SkipInv
    decide

/-! ## The nesting counters -/

/-- The block `skipping` of `evalloop` leaves `loopnest` and `funcnest` alone. -/
theorem evalloop_skipping_nest (status : Int) (s : State) :
    (evalloop_skipping status s).2.2.loopnest = s.loopnest
    ∧ (evalloop_skipping status s).2.2.funcnest = s.funcnest := by
  rw [evalloop_skipping_cases]
  cases h : s.evalskip <;> dsimp only <;>
    first | exact ⟨rfl, rfl⟩ | exact ⟨trivial, trivial⟩ | (split <;> exact ⟨rfl, rfl⟩)

/-- The `for (;;)` of `evalloop` returns with the `loopnest` it was entered
with if every evaluation in it that returns does. -/
theorem evalloop_for_loopnest (ev : Eval)
    (hev : ∀ n fl s s1, ev n fl s = .ok () s1 → s1.loopnest = s.loopnest)
    (isWhile : Bool) (ch1 ch2 : Option Node) (flags : Flags) (fuel : Nat) :
    ∀ status bodies s r sf,
      evalloop_for ev isWhile ch1 ch2 flags fuel status bodies s = .ok r sf →
      sf.loopnest = s.loopnest := by
  induction fuel with
  | zero => intro status bodies s r sf h; simp [evalloop_for] at h
  | succ k ih =>
    intro status bodies s r sf h
    have hskip : ∀ (st : Int) (bd : List Int) (s2 : State),
        (match evalloop_skipping st s2 with
          | (.again, status, s) => evalloop_for ev isWhile ch1 ch2 flags k status bd s
          | (.leave, status, s) => Res.ok (status, bd) s) = .ok r sf →
        sf.loopnest = s2.loopnest := by
      intro st bd s2 h2
      have hn := (evalloop_skipping_nest st s2).1
      generalize evalloop_skipping st s2 = x at h2 hn
      obtain ⟨c, st1, s3⟩ := x
      cases c with
      | again => exact (ih _ _ _ _ _ h2).trans hn
      | leave =>
        simp only [Res.ok.injEq] at h2
        rw [← h2.2]
        exact hn
    rw [evalloop_for] at h
    obtain ⟨_, s1, e1, h⟩ := bind_eq_ok _ _ _ _ h
    have l1 := hev _ _ _ _ e1
    split at h
    · simp only [Res.ok.injEq] at h
      rw [← h.2]
      exact l1
    · split at h
      · exact (hskip _ _ _ h).trans l1
      · by_cases hc : (if isWhile = true then s1.exitstatus ≠ 0 else s1.exitstatus = 0)
        · rw [if_pos hc] at h
          simp only [Res.ok.injEq] at h
          rw [← h.2]
          exact l1
        · rw [if_neg hc] at h
          obtain ⟨_, s2, e2, h⟩ := bind_eq_ok _ _ _ _ h
          have l2 := hev _ _ _ _ e2
          dsimp only at h
          split at h
          · exact ((hskip _ _ _ h).trans l2).trans l1
          · exact ((ih _ _ _ _ _ h).trans l2).trans l1

/-- The function `evalloop` returns with the `loopnest` it was entered with if
every evaluation in it that returns does. -/
theorem evalloop_loopnest (ev : Eval)
    (hev : ∀ n fl s s1, ev n fl s = .ok () s1 → s1.loopnest = s.loopnest)
    (fuel : Nat) (isWhile : Bool) (ch1 ch2 : Option Node) (flags : Flags) (s sf : State)
    (h : evalloop ev fuel isWhile ch1 ch2 flags s = .ok () sf) :
    sf.loopnest = s.loopnest := by
  unfold evalloop at h
  obtain ⟨r, s1, e1, h⟩ := bind_eq_ok _ _ _ _ h
  have l1 := evalloop_for_loopnest ev hev isWhile ch1 ch2 flags fuel _ _ _ _ _ e1
  simp only [Res.ok.injEq, true_and] at h
  rw [← h]
  show s1.loopnest - 1 = s.loopnest
  rw [l1]
  show s.loopnest + 1 - 1 = s.loopnest
  omega

/-- **C18: the code at the failing input.** With
`l() { while true; do break 0; done; }` defined, `command eval l` is entered
with `loopnest = 0` and `funcnest = 0`; the `EXERROR` of `break 0` leaves the
loop and the function `l` and is caught by the regular builtin
`command eval`, so `evaltree` returns normally, with status 2, and with
`loopnest = 1` and `funcnest = 1`: neither `evalloop` nor the exception path
of `case CMDFUNCTION` undoes its increment when an exception passes. -/
theorem evaltree_nesting_leak :
    (loopLeakDefs.loopnest, loopLeakDefs.funcnest) = (0, 0)
    ∧ (evaltree sh 12 loopLeak EV_NONE loopLeakDefs).summary
        = .returned 2 [["eval", "l"], ["true"], ["break", "0"]]
    ∧ (evaltree sh 12 loopLeak EV_NONE loopLeakDefs).state?.map
        (fun s => (s.loopnest, s.funcnest)) = some (1, 1) := by
  refine ⟨by decide, by decide, by decide⟩

/-! ## `evalfor` -/

/-- The second loop of `evalfor` is the specification when the evaluations of
the body leave noexec off and raise no skip. -/
theorem evalfor_loop_refines (W : World) (ev : Eval) (var : String) (body : Option Node)
    (flags : Flags)
    (hquiet : ∀ s s1, ev body flags.onlyTested s = .ok () s1 →
      s1.nflag = false ∧ s1.evalskip = .SKIPNONE)
    (ws : List String) :
    ∀ status s, evalfor_loop W ev var body flags ws status s
      = evalfor_spec W ev var body flags ws status s := by
  induction ws with
  | nil => intro status s; rfl
  | cons w ws ih =>
    intro status s
    rw [evalfor_loop_cons, evalfor_spec]
    cases h1 : call (.setvar var w) (W.setvar var w) s with
    | ok u s1 =>
      dsimp only [Res.bind]
      cases h2 : ev body flags.onlyTested s1 with
      | ok u2 s2 =>
        obtain ⟨q1, q2⟩ := hquiet s1 s2 h2
        dsimp only
        rw [if_neg (by rw [q1]; decide), if_neg (by rw [q2]; decide)]
        exact ih _ _
      | raise e s2 => rfl
      | gone g st s2 => rfl
      | timeout => rfl
    | raise e s1 => rfl
    | gone g st s1 => rfl
    | timeout => rfl

/-- The specification returns the status of the last body evaluation, and
with the `loopnest` it started with if `setvar` and the body leave it alone. -/
theorem evalfor_spec_result (W : World) (ev : Eval) (var : String) (body : Option Node)
    (flags : Flags) (ws : List String) :
    ∀ status s v sf, evalfor_spec W ev var body flags ws status s = .ok v sf →
      (ws = [] → v = status ∧ sf = s)
      ∧ (ws ≠ [] → v = sf.exitstatus)
      ∧ ((∀ w s s1, call (.setvar var w) (W.setvar var w) s = .ok () s1 →
            s1.loopnest = s.loopnest) →
          (∀ s s1, ev body flags.onlyTested s = .ok () s1 → s1.loopnest = s.loopnest) →
          sf.loopnest = s.loopnest) := by
  induction ws with
  | nil =>
    intro status s v sf h
    simp only [evalfor_spec, Res.ok.injEq] at h
    exact ⟨fun _ => ⟨h.1.symm, h.2.symm⟩, fun hne => absurd rfl hne, fun _ _ => by rw [h.2]⟩
  | cons w ws ih =>
    intro status s v sf h
    rw [evalfor_spec] at h
    obtain ⟨_, s1, e1, h⟩ := bind_eq_ok _ _ _ _ h
    obtain ⟨_, s2, e2, h⟩ := bind_eq_ok _ _ _ _ h
    obtain ⟨i1, i2, i3⟩ := ih _ _ _ _ h
    refine ⟨fun hc => absurd hc (by simp), fun _ => ?_, fun hset hev => ?_⟩
    · by_cases hws : ws = []
      · obtain ⟨j1, j2⟩ := i1 hws
        rw [j1, j2]
      · exact i2 hws
    · rw [i3 hset hev, hev _ _ e2, hset _ _ _ e1]

/-- The part of C11 that holds: when the words expand to `ws` without a skip,
and the evaluations of the body leave noexec off and raise no skip,
`evalfor` is the specification run with `loopnest` one higher, followed by
`loopnest--` and `exitstatus = status`; the status is that of the last body
evaluation, 0 when there is no word; and `loopnest` is back to its entry value
if `setvar` and every body evaluation leave it as they found it. -/
theorem evalfor_refines (W : World) (ev : Eval) (args : List Word) (body : Option Node)
    (var : String) (flags : Flags) (s s1 : State) (ws : List String)
    (hnf : s.nflag = false)
    (hexp : evalfor_expand W args s = .ok (some ws) s1)
    (hquiet : ∀ s s1, ev body flags.onlyTested s = .ok () s1 →
      s1.nflag = false ∧ s1.evalskip = .SKIPNONE) :
    evalfor W ev args body var flags s
        = (evalfor_spec W ev var body flags ws 0 { s1 with loopnest := s1.loopnest + 1 }).bind
            (fun status s2 => .ok () { s2 with loopnest := s2.loopnest - 1, exitstatus := status })
    ∧ (∀ sf, evalfor W ev args body var flags s = .ok () sf →
        (ws = [] → sf.exitstatus = 0)
        ∧ ((∀ w s s1, call (.setvar var w) (W.setvar var w) s = .ok () s1 →
              s1.loopnest = s.loopnest) →
            (∀ s s1, ev body flags.onlyTested s = .ok () s1 → s1.loopnest = s.loopnest) →
            sf.loopnest = s1.loopnest)) := by
  have heq : evalfor W ev args body var flags s
        = (evalfor_spec W ev var body flags ws 0 { s1 with loopnest := s1.loopnest + 1 }).bind
            (fun status s2 =>
              .ok () { s2 with loopnest := s2.loopnest - 1, exitstatus := status }) := by
    unfold evalfor
    dsimp only
    rw [hexp]
    dsimp only [Res.bind]
    rw [evalfor_loop_refines W ev var body flags hquiet, if_neg (by rw [hnf]; decide)]
  refine ⟨heq, fun sf h => ?_⟩
  rw [heq] at h
  obtain ⟨v, s2, e2, h⟩ := bind_eq_ok _ _ _ _ h
  obtain ⟨i1, _, i3⟩ := evalfor_spec_result W ev var body flags ws _ _ _ _ e2
  simp only [Res.ok.injEq, true_and] at h
  subst h
  refine ⟨fun hws => ?_, fun hset hev => ?_⟩
  · exact (i1 hws).1
  · show s2.loopnest - 1 = s1.loopnest
    rw [i3 hset hev]
    show s1.loopnest + 1 - 1 = s1.loopnest
    omega

/-- **C11: the code at the failing input.** With
`l() { while true; do break 0; done; }` defined, noexec off and no skip
raised, `for i in a b; do command eval l; done` is entered with
`loopnest = 0`.  The `EXERROR` of `break 0` leaves the `while` loop without
its `loopnest--` and is caught by the regular builtin `command eval`, so the
body returns normally with `loopnest` one higher than it found it: the second
body evaluation starts with `loopnest = 2`, not 1, and `evalfor` returns with
`loopnest = 2`, not 0. -/
theorem evalfor_loopnest_leak :
    (loopLeakDefs.loopnest, loopLeakDefs.nflag, loopLeakDefs.evalskip)
        = (0, false, .SKIPNONE)
    ∧ (evalfor sh (evaltree sh 13) ["a", "b"] loopLeak "i" EV_NONE loopLeakDefs).summary
        = .returned 2 [["eval", "l"], ["true"], ["break", "0"],
                       ["eval", "l"], ["true"], ["break", "0"]]
    ∧ (evalfor sh (evaltree sh 13) ["a", "b"] loopLeak "i" EV_NONE loopLeakDefs).state?.map
        (fun s => (s.loopnest, s.evalskip, s.vars)) = some (2, .SKIPNONE, [("i", "b"), ("i", "a")])
    ∧ (evalfor sh (evaltree sh 13) ["a", "b"] loopLeak "i" EV_NONE loopLeakDefs).state?.map
        (fun s => loopDispatches s.trace)
        = some [(["command", "eval", "l"], 1), (["l"], 1), (["true"], 2), (["break", "0"], 2),
                (["command", "eval", "l"], 2), (["l"], 2), (["true"], 3), (["break", "0"], 3)] := by
  refine ⟨by decide, by decide, by decide, by decide⟩

/-! ## `evalredir` -/

/-- A call that leaves `eval.c` and returns has left the redirection depth and
the handler alone. -/
theorem call_ok_keeps {α : Type} (ev : Ev) (f : State → Ext α) (s s1 : State) (a : α)
    (h : call ev f s = .ok a s1) : s1.redirdepth = s.redirdepth ∧ s1.handler = s.handler := by
  unfold call at h
  split at h
  · simp only [Res.ok.injEq] at h
    rw [← h.2]
    exact ⟨rfl, rfl⟩
  · simp at h
  · simp at h

/-- The function `expredir` leaves the redirection depth alone. -/
theorem expredir_redirdepth (W : World) (rs : List Redir) :
    ∀ s s1, expredir W rs s = .ok () s1 → s1.redirdepth = s.redirdepth := by
  induction rs with
  | nil =>
    intro s s1 h
    simp only [expredir, Res.ok.injEq, true_and] at h
    rw [h]
  | cons r rs ih =>
    intro s s1 h
    rw [expredir] at h
    obtain ⟨_, s0, e0, h⟩ := bind_eq_ok _ _ _ _ h
    rw [ih _ _ h]
    repeat' split at e0
    all_goals first
      | (cases e0; rfl)
      | (obtain ⟨_, s2, e2, e0⟩ := bind_eq_ok _ _ _ _ e0
         cases e0
         exact (call_ok_keeps _ _ _ _ _ e2).1)

/-- The part of C15 that holds.  In `evalredir`, once the file names are
expanded: if `EXERROR` or `EXEXEC` is raised while the redirections are being
installed, the previous handler is restored, the redirection stack is popped
once, `exitstatus` is set to 2 and `evalredir` returns without evaluating the
body (the branch for another exception there re-raises it; the installation
runs between `INTOFF` and `INTON`, so an interrupt does not get there).  If an
exception is raised while the body is being evaluated, the handler is
restored, the stack is popped once and the same exception is re-raised.  On a
normal return the handler is restored and the stack is popped once, so the
depth is the depth on entry when the body left the depth as it found it. -/
theorem evalredir_spec (W : World) (ev : Eval) (child : Option Node) (redir : List Redir)
    (flags : Flags) (s s0 : State) (hexp : expredir W redir s = .ok () s0) :
    (∀ e s1, redirect W redir true { s0 with handler := s.handler + 1 } = .raise e s1 →
      evalredir W ev child redir flags s =
        if e = .EXERROR ∨ e = .EXEXEC then
          .ok () { popredir { s1 with handler := s.handler } with exitstatus := 2 }
        else .raise e (popredir { s1 with handler := s.handler }))
    ∧ (∀ s1, redirect W redir true { s0 with handler := s.handler + 1 } = .ok () s1 →
        s1.redirdepth = s.redirdepth + 1
        ∧ (∀ e s2, ev child flags s1 = .raise e s2 →
            evalredir W ev child redir flags s
              = .raise e (popredir { s2 with handler := s.handler }))
        ∧ (∀ s2, ev child flags s1 = .ok () s2 →
            evalredir W ev child redir flags s
                = .ok () (popredir { s2 with handler := s.handler })
              ∧ (s2.redirdepth = s1.redirdepth →
                  (popredir { s2 with handler := s.handler }).redirdepth = s.redirdepth)))
    ∧ (∀ x : State, (popredir x).redirdepth = x.redirdepth - 1
        ∧ (popredir x).handler = x.handler) := by
  refine ⟨fun e s1 hr => ?_, fun s1 hr => ?_, fun x => ⟨rfl, rfl⟩⟩
  · unfold evalredir
    dsimp only
    rw [hexp]
    dsimp only [Res.bind]
    rw [hr]
  · have hd : s1.redirdepth = s.redirdepth + 1 := by
      have h0 := expredir_redirdepth W redir s s0 hexp
      unfold redirect at hr
      have h1 := (call_ok_keeps _ _ _ _ _ hr).1
      rw [h1, if_pos rfl]
      show s0.redirdepth + 1 = s.redirdepth + 1
      rw [h0]
    refine ⟨hd, fun e s2 hb => ?_, fun s2 hb => ⟨?_, fun hsame => ?_⟩⟩
    · unfold evalredir
      dsimp only
      rw [hexp]
      dsimp only [Res.bind]
      rw [hr]
      dsimp only
      rw [hb]
    · unfold evalredir
      dsimp only
      rw [hexp]
      dsimp only [Res.bind]
      rw [hr]
      dsimp only
      rw [hb]
    · show s2.redirdepth - 1 = s.redirdepth
      rw [hsame, hd]
      omega

/-- A run of `evalredir`: `{ true; } >out` returns with the handler and the
redirection depth it was entered with. -/
theorem evalredir_spec_witness :
    evalredir sh (evaltree sh 3) (cmd ["true"]) redirOut EV_NONE init
        = .ok () (popredir { redS2 with handler := init.handler })
    ∧ (popredir { redS2 with handler := init.handler }).redirdepth = init.redirdepth :=
  ⟨((((evalredir_spec sh (evaltree sh 3) (cmd ["true"]) redirOut EV_NONE init redS0 rfl).2.1
      redS1 rfl).2.2) redS2 rfl).1,
   ((((evalredir_spec sh (evaltree sh 3) (cmd ["true"]) redirOut EV_NONE init redS0 rfl).2.1
      redS1 rfl).2.2) redS2 rfl).2 rfl⟩

/-- **C15: the code at the failing input.** With `f() { break 0 >out; }`
defined, `{ command eval f; } >out` is entered with the redirection stack at
depth 0 and returns normally, with status 2, at depth 1.  The builtin case of
`evalcommand` pushes a frame for `break 0 >out`, the special builtin `break`
re-raises its `EXERROR` before `popredir`, and the regular builtin
`command eval` catches it: the body returns normally with one frame more than
it found, and `evalredir` pops once. -/
theorem evalredir_depth_leak :
    redirLeakDefs.redirdepth = 0
    ∧ (evalredir sh (evaltree sh 12) (cmd ["command", "eval", "f"]) redirOut EV_NONE
        redirLeakDefs).summary = .returned 2 [["eval", "f"], ["break", "0"]]
    ∧ (evalredir sh (evaltree sh 12) (cmd ["command", "eval", "f"]) redirOut EV_NONE
        redirLeakDefs).state?.map State.redirdepth = some 1 := by
  refine ⟨by decide, by decide, by decide⟩

/-! ## `evalcase` -/

end Ash
